import Mathlib

/-!
# ffCudaNn: a shallow embedding of the CUDA feed-forward network engine

The development embeds `src/ffCudaNn.cpp` in Lean and proves properties of its
kernels and layers.

Modelling conventions.

* `double` values are elements of an arbitrary linearly ordered field `α`
  (exact arithmetic, no rounding, no overflow).  Every definition is generic in
  `α`, so it can be evaluated over `ℚ` and reasoned about over `ℝ`.
  The libm functions `exp` and `sqrt` are parameters of the kernels that call
  them; theorems instantiate them with `Real.exp` and `Real.sqrt`.
* A device buffer (`double*`) is a total function from flat offsets to values.
  Theorems only speak about offsets inside the logical extent of a tensor.
* `int` dimensions and indices are natural numbers: the source never builds a
  negative dimension, and products are assumed to stay within `int` range.
* A kernel launch `K<<<blocks, threads>>>(args)` runs the kernel body once for
  every pair `(blockIdx.x, threadIdx.x)`; the embedding runs the bodies one
  after the other, blocks in increasing order and threads in increasing order
  inside a block.
* `assert` failures and dereferences of a null cached pointer end the process;
  operations that can reach one return `Except Fault _`.
* One kernel, `ReluG_Cuda`, divides by a value that is zero on ordinary inputs.
  IEEE arithmetic then stores an infinity or a NaN, which is not an element of
  `α`: the cells that kernel works on are optional values, `none` standing for a
  double that is not finite, and a layer operation whose result tensor would hold
  such a double returns `Fault.nonFinite`.
* What the CUDA runtime decides (whether a launch configuration is accepted,
  whether an allocation or a transfer succeeds, what fresh device memory
  contains) is the `Device` parameter.
* A tensor behind a pointer (`_pX`, `_pY`, the argument and the result of a
  layer call) is held by value; `none` is the null pointer.
* The draws of the process-wide random generator are a parameter of `Random`.
* What an operation does besides its result (how often it allocates, which
  threads a launch runs and which cells they access) is recorded by a copy of
  the operation that carries the record along (`ResetTensorCounted`,
  `SoftmaxLayer.ForwardTraced`); a theorem ties the copy to the operation.
* The constants `kBeta1`, `kBeta2` of the header `ffCudaNn.h` are parameters of
  the network operations; the networks a driver can reach are the relation `Run`.
-/

namespace ff

/-- Reasons for which an operation yields no state: the process is terminated, or
(`nonFinite`) the state is outside what the embedding represents. -/
inductive Fault where
  /-- A shape assertion such as `assert(x->_d0 == _w._d1)` failed. -/
  | precondition
  /-- The check `assert(cudaGetLastError() == cudaSuccess)` after a launch failed. -/
  | launch
  /-- The check `assert(err == cudaSuccess)` after `cudaMalloc` failed. -/
  | alloc
  /-- The check `assert(err == cudaSuccess)` after `cudaMemcpy` failed. -/
  | transfer
  /-- A cached input pointer (`_pX`, `_pY`) was null when dereferenced. -/
  | nullDeref
  /-- A division by zero left an infinity or a NaN in a result tensor.  The source does not
  stop here: it returns the tensor with that double in it.  A tensor of the embedding holds
  elements of the field only, so there is no state to return. -/
  | nonFinite
  deriving DecidableEq, Repr

/-- The behaviour of the CUDA runtime that the source relies on. -/
structure Device (α : Type) where
  /-- Whether a launch with the given number of blocks and threads per block succeeds. -/
  launchOk : Nat → Nat → Bool
  /-- Whether `cudaMalloc` of the given number of doubles succeeds. -/
  mallocOk : Nat → Bool
  /-- Contents of freshly allocated device memory. -/
  fresh : Nat → α
  /-- Whether `cudaMemcpy` of the given number of doubles succeeds. -/
  memcpyOk : Nat → Bool

/-- The class `CudaTensor`: logical dimensions, host vector, device buffer and its capacity. -/
structure CudaTensor (α : Type) where
  d0 : Nat
  d1 : Nat
  d2 : Nat
  d3 : Nat
  dataSize : Nat
  /-- Host vector `_data`. -/
  data : List α
  /-- Device buffer `_dataGpu`, by flat offset. -/
  dataGpu : Nat → α
  /-- Capacity `_dataGpuSize` of the device buffer, in elements. -/
  dataGpuSize : Nat

section Kernels

variable {α : Type} [LinearOrderedField α]

/-- The default constructor `CudaTensor::CudaTensor()`: every size is zero, no device buffer. -/
def CudaTensor.empty : CudaTensor α :=
  { d0 := 0, d1 := 0, d2 := 0, d3 := 0, dataSize := 0, data := [], dataGpu := fun _ => 0,
    dataGpuSize := 0 }

/-- The call `std::vector<double>::resize(n)`: keeps the first `n` elements, pads with zeros. -/
def vectorResize (v : List α) (n : Nat) : List α :=
  v.take n ++ List.replicate (n - v.length) 0

/-- The method `CudaTensor::ResetTensor(d0, d1, d2, d3)`.  The C++ declaration gives the last
three arguments the default value 1; callers here pass them explicitly. -/
def CudaTensor.ResetTensor (dev : Device α) (t : CudaTensor α) (d0 d1 d2 d3 : Nat) :
    Except Fault (CudaTensor α) :=
  let dataSize := d0 * d1 * d2 * d3
  let t1 : CudaTensor α :=
    { t with d0 := d0, d1 := d1, d2 := d2, d3 := d3, dataSize := dataSize,
             data := vectorResize t.data dataSize }
  if t1.dataGpuSize < t1.dataSize then
    if dev.mallocOk t1.dataSize then
      .ok { t1 with dataGpuSize := t1.dataSize, dataGpu := dev.fresh }
    else .error Fault.alloc
  else .ok t1

/-- The method `CudaTensor::ResetTensor(d0, d1, d2, d3)` together with the number of
`cudaMalloc` calls it makes: the same statements as `CudaTensor.ResetTensor`, counting the
allocation in the branch `_dataGpuSize < _dataSize`. -/
def CudaTensor.ResetTensorCounted (dev : Device α) (t : CudaTensor α) (d0 d1 d2 d3 : Nat) :
    Except Fault (CudaTensor α × Nat) :=
  let dataSize := d0 * d1 * d2 * d3
  let t1 : CudaTensor α :=
    { t with d0 := d0, d1 := d1, d2 := d2, d3 := d3, dataSize := dataSize,
             data := vectorResize t.data dataSize }
  if t1.dataGpuSize < t1.dataSize then
    if dev.mallocOk t1.dataSize then
      .ok ({ t1 with dataGpuSize := t1.dataSize, dataGpu := dev.fresh }, 1)
    else .error Fault.alloc
  else .ok (t1, 0)

/-- The constructor `CudaTensor::CudaTensor(d0, d1, d2, d3)`: no device buffer, capacity zero,
then `ResetTensor(d0, d1, d2, d3)`. -/
def CudaTensor.create (dev : Device α) (d0 d1 d2 d3 : Nat) : Except Fault (CudaTensor α) :=
  (CudaTensor.empty : CudaTensor α).ResetTensor dev d0 d1 d2 d3

/-- A sequence of `ResetTensor` calls on one tensor, each given by its four dimensions. -/
def CudaTensor.resets (dev : Device α) (t : CudaTensor α) :
    List (Nat × Nat × Nat × Nat) → Except Fault (CudaTensor α)
  | [] => .ok t
  | d :: ds => do
    let t' ← t.ResetTensor dev d.1 d.2.1 d.2.2.1 d.2.2.2
    CudaTensor.resets dev t' ds

/-- The element count `d0 * d1 * d2 * d3` that a `ResetTensor` call requests. -/
def elementCount (d : Nat × Nat × Nat × Nat) : Nat := d.1 * d.2.1 * d.2.2.1 * d.2.2.2

/-- The transfer `cudaMemcpy(_dataGpu, &_data[0], _dataSize * sizeof(double), HostToDevice)`
followed by `assert(err == cudaSuccess)`. -/
def CudaTensor.copyToDevice (dev : Device α) (t : CudaTensor α) : Except Fault (CudaTensor α) :=
  if dev.memcpyOk t.dataSize then
    .ok { t with dataGpu := fun i => if i < t.dataSize then t.data.getD i 0 else t.dataGpu i }
  else .error Fault.transfer

/-- The method `CudaTensor::Random(multiplier)`.  The draws `g_distribution(g_generator)` of
this call are the parameter `samples`, one for each element in order. -/
def CudaTensor.Random (dev : Device α) (samples : Nat → α) (t : CudaTensor α)
    (multiplier : α) : Except Fault (CudaTensor α) :=
  let data := (List.range t.dataSize).foldl (fun d i => d.set i (samples i * multiplier)) t.data
  CudaTensor.copyToDevice dev { t with data := data }

/-- The method `CudaTensor::Zero()`. -/
def CudaTensor.Zero (dev : Device α) (t : CudaTensor α) : Except Fault (CudaTensor α) :=
  CudaTensor.copyToDevice dev { t with data := List.replicate t.data.length 0 }

/-- The method `CudaTensor::Push()`. -/
def CudaTensor.Push (dev : Device α) (t : CudaTensor α) : Except Fault (CudaTensor α) :=
  CudaTensor.copyToDevice dev t

/-- The method `CudaTensor::Pull()`: the first `_dataSize` host elements receive the device
contents. -/
def CudaTensor.Pull (dev : Device α) (t : CudaTensor α) : Except Fault (CudaTensor α) :=
  if dev.memcpyOk t.dataSize then
    .ok { t with data :=
      (List.range t.dataSize).foldl (fun d i => d.set i (t.dataGpu i)) t.data }
  else .error Fault.transfer

/-- All threads of one block, run in increasing order of `threadIdx.x`. -/
def runThreads {σ : Type} (threads : Nat) (kernel : Nat → Nat → σ → σ) (blockIdx : Nat)
    (mem : σ) : σ :=
  (List.range threads).foldl (fun m t => kernel blockIdx t m) mem

/-- The launch `kernel<<<blocks, threads>>>`: every block in increasing order of `blockIdx.x`.
`kernel blockIdx threadIdx` maps the buffers the kernel writes to their new contents. -/
def launch {σ : Type} (blocks threads : Nat) (kernel : Nat → Nat → σ → σ) (mem : σ) : σ :=
  (List.range blocks).foldl (fun m b => runThreads threads kernel b m) mem

/-- The launch followed by `assert(cudaGetLastError() == cudaSuccess)`. -/
def launchChecked {σ : Type} (dev : Device α) (blocks threads : Nat)
    (kernel : Nat → Nat → σ → σ) (mem : σ) : Except Fault σ :=
  if dev.launchOk blocks threads then .ok (launch blocks threads kernel mem)
  else .error Fault.launch

/-- The kernel `LinearTransform_Cuda(y, x, w, b, xw, ww)`; the result is the buffer `y`. -/
def LinearTransform_Cuda (x w b : Nat → α) (xw ww : Nat) (blockIdx threadIdx : Nat)
    (y : Nat → α) : Nat → α :=
  let r := blockIdx
  let c := threadIdx
  let v := (List.range xw).foldl (fun v i => v + x (i + r * xw) * w (c + i * ww)) 0
  Function.update y (c + r * ww) (v + b c)

/-- The kernel `ComputeWg_Cuda(wG, x, yG, nXcol, nXrow, nWcol)`; the result is the buffer `wG`. -/
def ComputeWg_Cuda (x yG : Nat → α) (nXcol nXrow nWcol : Nat) (blockIdx threadIdx : Nat)
    (wG : Nat → α) : Nat → α :=
  let r := blockIdx
  let c := threadIdx
  let v := (List.range nXrow).foldl (fun v i => v + x (r + i * nXcol) * yG (c + i * nWcol)) 0
  Function.update wG (c + r * nWcol) v

/-- The kernel `ComputeXg_Cuda(xG, yG, w, yGw, wTh, xGw)`; the result is the buffer `xG`. -/
def ComputeXg_Cuda (yG w : Nat → α) (yGw wTh xGw : Nat) (blockIdx threadIdx : Nat)
    (xG : Nat → α) : Nat → α :=
  let r := blockIdx
  let c := threadIdx
  let v := (List.range yGw).foldl (fun v i => v + yG (i + r * yGw) * w (i + c * wTh)) 0
  Function.update xG (c + r * xGw) v

/-- The kernel `ComputeBg_Cuda(bG, yG, nYgRow)`; the result is the buffer `bG`. -/
def ComputeBg_Cuda (yG : Nat → α) (nYgRow : Nat) (_blockIdx threadIdx : Nat)
    (bG : Nat → α) : Nat → α :=
  let c := threadIdx
  (List.range nYgRow).foldl (fun bG i => Function.update bG c (bG c + yG (c + i * nYgRow)))
    (Function.update bG c 0)

/-- The kernel `ComputeSumOfSquresGradient(yG, y, yLabel, nCol)`; the result is `yG`. -/
def ComputeSumOfSquresGradient (y yLabel : Nat → α) (nCol : Nat) (blockIdx threadIdx : Nat)
    (yG : Nat → α) : Nat → α :=
  let r := blockIdx
  let c := threadIdx
  let index := c + r * nCol
  let diff := y index - yLabel index
  Function.update yG index (2 * diff)

/-- The kernel `UpdateWs_Cuda(nCol, learningRate, beta1, beta2, beta1t, beta2t, w, wG, wG_m, wG_v)`.
The buffers it writes are the triple `(w, wG_m, wG_v)`. -/
def UpdateWs_Cuda (sqrt : α → α) (nCol : Nat) (learningRate beta1 beta2 beta1t beta2t : α)
    (wG : Nat → α) (blockIdx threadIdx : Nat)
    (bufs : (Nat → α) × (Nat → α) × (Nat → α)) : (Nat → α) × (Nat → α) × (Nat → α) :=
  let r := blockIdx
  let c := threadIdx
  let index := c + r * nCol
  let w := bufs.1
  let wG_m := bufs.2.1
  let wG_v := bufs.2.2
  let wG_m := Function.update wG_m index (beta1 * wG_m index + (1 - beta1) * wG index)
  let wG_v := Function.update wG_v index (beta2 * wG_v index + (1 - beta2) * wG index * wG index)
  let unbiased_m := wG_m index / (1 - beta1t)
  let unbiased_v := wG_v index / (1 - beta2t)
  let w := Function.update w index (w index - learningRate * unbiased_m / (sqrt unbiased_v + 1e-8))
  (w, wG_m, wG_v)

/-- The kernel `UpdateBs_Cuda(learningRate, beta1, beta2, beta1t, beta2t, b, bG, bG_m, bG_v)`.
The buffers it writes are the triple `(b, bG_m, bG_v)`. -/
def UpdateBs_Cuda (sqrt : α → α) (learningRate beta1 beta2 beta1t beta2t : α)
    (bG : Nat → α) (_blockIdx threadIdx : Nat)
    (bufs : (Nat → α) × (Nat → α) × (Nat → α)) : (Nat → α) × (Nat → α) × (Nat → α) :=
  let index := threadIdx
  let b := bufs.1
  let bG_m := bufs.2.1
  let bG_v := bufs.2.2
  let bG_m := Function.update bG_m index (beta1 * bG_m index + (1 - beta1) * bG index)
  let bG_v := Function.update bG_v index (beta2 * bG_v index + (1 - beta2) * bG index * bG index)
  let unbiased_m := bG_m index / (1 - beta1t)
  let unbiased_v := bG_v index / (1 - beta2t)
  let b := Function.update b index (b index - learningRate * unbiased_m / (sqrt unbiased_v + 1e-8))
  (b, bG_m, bG_v)

/-- The kernel `Relu_Cuda(relu_x, x, nCol)`; the result is the buffer `relu_x`. -/
def Relu_Cuda (x : Nat → α) (nCol : Nat) (blockIdx threadIdx : Nat) (relu_x : Nat → α) :
    Nat → α :=
  let r := blockIdx
  let c := threadIdx
  let index := c + r * nCol
  Function.update relu_x index (max (x index) 0)

/-- The kernel `ReluG_Cuda(xG, x, nCol)`; the result is the buffer `xG`.  The cells of `xG` are
optional values, `none` standing for a double that is not finite.  For `x[index] = 0` the
quotient `fmax(x[index], 1e-32) / x[index]` is `1e-32 / 0`, an infinity in IEEE arithmetic, and
the product stored in `xG[index]` is an infinity or a NaN: the cell becomes `none`.  For
`x[index] ≠ 0` the quotient is an element of the field, and the product of a double that is not
finite with it is not finite either. -/
def ReluG_Cuda (x : Nat → α) (nCol : Nat) (blockIdx threadIdx : Nat) (xG : Nat → Option α) :
    Nat → Option α :=
  let r := blockIdx
  let c := threadIdx
  let index := c + r * nCol
  Function.update xG index
    (if x index = 0 then none
     else (xG index).map (fun g => g * (max (x index) 1e-32 / x index)))

/-- The constant `kThreadPerBlock` declared in the body of `ForwardSoftmax_Step1_Cuda`. -/
def ForwardSoftmax_Step1_Cuda.kThreadPerBlock : Nat := 64

/-- The constant `kThreadPerBlock` declared in the body of `ForwardSoftmax_Step2_Cuda`. -/
def ForwardSoftmax_Step2_Cuda.kThreadPerBlock : Nat := 64

/-- The constant `kThreadPerBlock` declared in the body of `SoftmaxLayer::Forward`. -/
def SoftmaxLayer.Forward.kThreadPerBlock : Nat := 64

/-- The kernel `ForwardSoftmax_Step1_Cuda(sum, x, nRow, nCol)`; the result is the buffer `sum`. -/
def ForwardSoftmax_Step1_Cuda (exp : α → α) (x : Nat → α) (nRow nCol : Nat)
    (blockIdx threadIdx : Nat) (sum : Nat → α) : Nat → α :=
  let r := blockIdx * ForwardSoftmax_Step1_Cuda.kThreadPerBlock + threadIdx
  if nRow ≤ r then sum
  else
    (List.range nCol).foldl
      (fun sum i => Function.update sum (0 + r * nCol) (sum (0 + r * nCol) + exp (x (i + r * nCol))))
      (Function.update sum (0 + r * nCol) 1e-8)

/-- The kernel `ForwardSoftmax_Step2_Cuda(softmax, sum, x, nRow, nCol)`; the result is the
buffer `softmax`. -/
def ForwardSoftmax_Step2_Cuda (exp : α → α) (sum x : Nat → α) (nRow nCol : Nat)
    (blockIdx threadIdx : Nat) (softmax : Nat → α) : Nat → α :=
  let r := blockIdx * ForwardSoftmax_Step2_Cuda.kThreadPerBlock + threadIdx
  if nRow ≤ r then softmax
  else
    (List.range nCol).foldl
      (fun softmax i =>
        Function.update softmax (i + r * nCol) (exp (x (i + r * nCol)) / sum (0 + r * nCol)))
      softmax

/-- The conversion `(int)v` of a double: truncation toward zero. -/
def castInt [FloorRing α] (v : α) : Int := if 0 ≤ v then ⌊v⌋ else ⌈v⌉

/-- The kernel `SoftmaxBackward_Cuda(lossG, softmax, yLabel, nCol)`; the result is `lossG`. -/
def SoftmaxBackward_Cuda [FloorRing α] (softmax yLabel : Nat → α) (nCol : Nat) (blockIdx threadIdx : Nat)
    (lossG : Nat → α) : Nat → α :=
  let r := blockIdx
  let c := threadIdx
  let index := c + r * nCol
  let lossG := Function.update lossG index (softmax index)
  if castInt (yLabel r) = (c : Int) then Function.update lossG index (lossG index - 1)
  else lossG

end Kernels

/-- The class `FcLayer`: parameters, their gradients and moment accumulators, the cached
forward input `_pX`, the output `_y` and the input gradient `_xG`.  The tensor that `_pX`
points to is held by value: the caller keeps it alive and unmodified until `Backward`. -/
structure FcLayer (α : Type) where
  w : CudaTensor α
  wG : CudaTensor α
  wG_m : CudaTensor α
  wG_v : CudaTensor α
  b : CudaTensor α
  bG : CudaTensor α
  bG_m : CudaTensor α
  bG_v : CudaTensor α
  pX : Option (CudaTensor α)
  y : CudaTensor α
  xG : CudaTensor α

/-- The class `ReluFcLayer`, derived from `FcLayer`, with the rectified input `_xRelu`. -/
structure ReluFcLayer (α : Type) extends FcLayer α where
  xRelu : CudaTensor α

/-- The class `SoftmaxLayer`. -/
structure SoftmaxLayer (α : Type) where
  softmax : CudaTensor α
  lossG : CudaTensor α

/-- The class `SumOfSquaresLayer`, with the cached prediction `_pY`. -/
structure SumOfSquaresLayer (α : Type) where
  pY : Option (CudaTensor α)
  yG : CudaTensor α

section Layers

variable {α : Type} [LinearOrderedField α]

/-- The method `FcLayer::Forward(x)`; the returned pointer is `&_y` of the resulting state. -/
def FcLayer.Forward (dev : Device α) (s : FcLayer α) (x : CudaTensor α) :
    Except Fault (FcLayer α) := do
  if x.d0 ≠ s.w.d1 then throw Fault.precondition
  let y ← s.y.ResetTensor dev s.w.d0 x.d1 1 1
  let yGpu ← launchChecked dev x.d1 s.w.d0
    (LinearTransform_Cuda x.dataGpu s.w.dataGpu s.b.dataGpu x.d0 s.w.d0) y.dataGpu
  return { s with pX := some x, y := { y with dataGpu := yGpu } }

/-- The method `FcLayer::Backward(yG, layerIndex)`; the returned pointer is `&_xG` of the
resulting state. -/
def FcLayer.Backward (dev : Device α) (s : FcLayer α) (yG : CudaTensor α) (layerIndex : Int) :
    Except Fault (FcLayer α) := do
  if yG.d0 ≠ s.wG.d0 then throw Fault.precondition
  let pX ← match s.pX with
    | some x => pure x
    | none => throw Fault.nullDeref
  let wGGpu ← launchChecked dev s.wG.d1 s.wG.d0
    (ComputeWg_Cuda pX.dataGpu yG.dataGpu pX.d0 pX.d1 s.wG.d0) s.wG.dataGpu
  let s := { s with wG := { s.wG with dataGpu := wGGpu } }
  let bGGpu ← launchChecked dev 1 s.b.d0 (ComputeBg_Cuda yG.dataGpu yG.d1) s.bG.dataGpu
  let s := { s with bG := { s.bG with dataGpu := bGGpu } }
  if layerIndex > 0 then
    if yG.d1 ≠ pX.d1 then throw Fault.precondition
    let xG ← s.xG.ResetTensor dev pX.d0 pX.d1 1 1
    let xGGpu ← launchChecked dev xG.d1 xG.d0
      (ComputeXg_Cuda yG.dataGpu s.w.dataGpu yG.d0 s.w.d0 xG.d0) xG.dataGpu
    return { s with xG := { xG with dataGpu := xGGpu } }
  else
    return s

/-- The method `FcLayer::UpdateWs(learningRate, beta1, beta2, beta1t, beta2t)`. -/
def FcLayer.UpdateWs (dev : Device α) (sqrt : α → α) (s : FcLayer α)
    (learningRate beta1 beta2 beta1t beta2t : α) : Except Fault (FcLayer α) := do
  let ws ← launchChecked dev s.w.d1 s.w.d0
    (UpdateWs_Cuda sqrt s.w.d0 learningRate beta1 beta2 beta1t beta2t s.wG.dataGpu)
    (s.w.dataGpu, s.wG_m.dataGpu, s.wG_v.dataGpu)
  let s := { s with w := { s.w with dataGpu := ws.1 },
                    wG_m := { s.wG_m with dataGpu := ws.2.1 },
                    wG_v := { s.wG_v with dataGpu := ws.2.2 } }
  let bs ← launchChecked dev 1 s.b.d0
    (UpdateBs_Cuda sqrt learningRate beta1 beta2 beta1t beta2t s.bG.dataGpu)
    (s.b.dataGpu, s.bG_m.dataGpu, s.bG_v.dataGpu)
  return { s with b := { s.b with dataGpu := bs.1 },
                  bG_m := { s.bG_m with dataGpu := bs.2.1 },
                  bG_v := { s.bG_v with dataGpu := bs.2.2 } }

/-- The method `ReluFcLayer::Forward(x)`; the returned pointer is `&_y` of the resulting state. -/
def ReluFcLayer.Forward (dev : Device α) (s : ReluFcLayer α) (x : CudaTensor α) :
    Except Fault (ReluFcLayer α) := do
  if x.d0 ≠ s.w.d1 then throw Fault.precondition
  let xRelu ← s.xRelu.ResetTensor dev x.d0 x.d1 1 1
  let xReluGpu ← launchChecked dev xRelu.d1 xRelu.d0 (Relu_Cuda x.dataGpu xRelu.d0) xRelu.dataGpu
  let xRelu := { xRelu with dataGpu := xReluGpu }
  let y ← s.y.ResetTensor dev s.w.d0 xRelu.d1 1 1
  let yGpu ← launchChecked dev xRelu.d1 s.w.d0
    (LinearTransform_Cuda xRelu.dataGpu s.w.dataGpu s.b.dataGpu xRelu.d0 s.w.d0) y.dataGpu
  return { s with pX := some x, xRelu := xRelu, y := { y with dataGpu := yGpu } }

/-- The method `ReluFcLayer::Backward(yG, layerIndex)`; the returned pointer is `&_xG` of the
resulting state.  The launch of `ReluG_Cuda` works on the cells of `_xG` as optional values;
when it leaves a double that is not finite inside the extent of `_xG` (a cell of the cached
input is exactly zero) the source returns `&_xG` all the same, and the embedding, whose tensors
cannot hold that double, gives `Fault.nonFinite`. -/
def ReluFcLayer.Backward (dev : Device α) (s : ReluFcLayer α) (yG : CudaTensor α)
    (layerIndex : Int) : Except Fault (ReluFcLayer α) := do
  if yG.d0 ≠ s.wG.d0 then throw Fault.precondition
  let wGGpu ← launchChecked dev s.wG.d1 s.wG.d0
    (ComputeWg_Cuda s.xRelu.dataGpu yG.dataGpu s.xRelu.d0 s.xRelu.d1 s.wG.d0) s.wG.dataGpu
  let s := { s with wG := { s.wG with dataGpu := wGGpu } }
  let bGGpu ← launchChecked dev 1 s.b.d0 (ComputeBg_Cuda yG.dataGpu yG.d1) s.bG.dataGpu
  let s := { s with bG := { s.bG with dataGpu := bGGpu } }
  if layerIndex > 0 then
    let pX ← match s.pX with
      | some x => pure x
      | none => throw Fault.nullDeref
    if yG.d1 ≠ pX.d1 then throw Fault.precondition
    let xG ← s.xG.ResetTensor dev pX.d0 pX.d1 1 1
    let xGGpu ← launchChecked dev xG.d1 xG.d0
      (ComputeXg_Cuda yG.dataGpu s.w.dataGpu yG.d0 s.w.d0 xG.d0) xG.dataGpu
    let xG := { xG with dataGpu := xGGpu }
    let cells ← launchChecked dev xG.d1 xG.d0 (ReluG_Cuda pX.dataGpu xG.d0)
      (fun i => some (xG.dataGpu i))
    if (List.range (xG.d0 * xG.d1)).all (fun i => (cells i).isSome) then
      return { s with xG := { xG with dataGpu := fun i => (cells i).getD (xG.dataGpu i) } }
    else throw Fault.nonFinite
  else
    return s

/-- The method `SoftmaxLayer::Forward(x)`; the returned pointer is `&_softmax` of the
resulting state. -/
def SoftmaxLayer.Forward (dev : Device α) (exp : α → α) (s : SoftmaxLayer α)
    (x : CudaTensor α) : Except Fault (SoftmaxLayer α) := do
  let softmax ← s.softmax.ResetTensor dev x.d0 x.d1 1 1
  let lossG ← s.lossG.ResetTensor dev x.d0 x.d1 1 1
  let nBlocks :=
    (x.d1 + SoftmaxLayer.Forward.kThreadPerBlock - 1) / SoftmaxLayer.Forward.kThreadPerBlock
  let lossGGpu ← launchChecked dev nBlocks SoftmaxLayer.Forward.kThreadPerBlock
    (ForwardSoftmax_Step1_Cuda exp x.dataGpu x.d1 x.d0) lossG.dataGpu
  let lossG := { lossG with dataGpu := lossGGpu }
  let softmaxGpu ← launchChecked dev nBlocks SoftmaxLayer.Forward.kThreadPerBlock
    (ForwardSoftmax_Step2_Cuda exp lossG.dataGpu x.dataGpu x.d1 x.d0) softmax.dataGpu
  return { s with softmax := { softmax with dataGpu := softmaxGpu }, lossG := lossG }

/-- The method `SoftmaxLayer::Backward(yG, layerIndex)`; the returned pointer is `&_lossG` of
the resulting state. -/
def SoftmaxLayer.Backward [FloorRing α] (dev : Device α) (s : SoftmaxLayer α) (yG : CudaTensor α)
    (_layerIndex : Int) : Except Fault (SoftmaxLayer α) := do
  if yG.d0 ≠ s.lossG.d1 then throw Fault.precondition
  let lossGGpu ← launchChecked dev s.lossG.d1 s.lossG.d0
    (SoftmaxBackward_Cuda s.softmax.dataGpu yG.dataGpu s.lossG.d0) s.lossG.dataGpu
  return { s with lossG := { s.lossG with dataGpu := lossGGpu } }

/-- The method `SumOfSquaresLayer::Forward(x)`; the returned pointer is `x` itself. -/
def SumOfSquaresLayer.Forward (s : SumOfSquaresLayer α) (x : CudaTensor α) :
    SumOfSquaresLayer α :=
  { s with pY := some x }

/-- The method `SumOfSquaresLayer::Backward(yLabel, layerIndex)`; the returned pointer is
`&_yG` of the resulting state. -/
def SumOfSquaresLayer.Backward (dev : Device α) (s : SumOfSquaresLayer α)
    (yLabel : CudaTensor α) (_layerIndex : Int) : Except Fault (SumOfSquaresLayer α) := do
  let yG ← s.yG.ResetTensor dev yLabel.d0 yLabel.d1 1 1
  let pY ← match s.pY with
    | some y => pure y
    | none => throw Fault.nullDeref
  let yGGpu ← launchChecked dev yG.d1 yG.d0
    (ComputeSumOfSquresGradient pY.dataGpu yLabel.dataGpu yG.d0) yG.dataGpu
  return { s with yG := { yG with dataGpu := yGGpu } }

/-- The constructor `FcLayer::FcLayer(inDim, outDim)`.  The members `_y` and `_xG` are
default-constructed tensors; `_wG` and `_bG` are sized but not initialised. -/
def FcLayer.create (dev : Device α) (sqrt : α → α) (samples : Nat → α) (inDim outDim : Nat) :
    Except Fault (FcLayer α) := do
  let w ← (CudaTensor.empty : CudaTensor α).ResetTensor dev outDim inDim 1 1
  let w ← w.Random dev samples (1 / sqrt (inDim : α))
  let wG ← (CudaTensor.empty : CudaTensor α).ResetTensor dev outDim inDim 1 1
  let wG_m ← (CudaTensor.empty : CudaTensor α).ResetTensor dev outDim inDim 1 1
  let wG_m ← wG_m.Zero dev
  let wG_v ← (CudaTensor.empty : CudaTensor α).ResetTensor dev outDim inDim 1 1
  let wG_v ← wG_v.Zero dev
  let b ← (CudaTensor.empty : CudaTensor α).ResetTensor dev outDim 1 1 1
  let b ← b.Zero dev
  let bG ← (CudaTensor.empty : CudaTensor α).ResetTensor dev outDim 1 1 1
  let bG_m ← (CudaTensor.empty : CudaTensor α).ResetTensor dev outDim 1 1 1
  let bG_m ← bG_m.Zero dev
  let bG_v ← (CudaTensor.empty : CudaTensor α).ResetTensor dev outDim 1 1 1
  let bG_v ← bG_v.Zero dev
  return { w := w, wG := wG, wG_m := wG_m, wG_v := wG_v, b := b, bG := bG, bG_m := bG_m,
           bG_v := bG_v, pX := none, y := CudaTensor.empty, xG := CudaTensor.empty }

/-- The constructor `ReluFcLayer::ReluFcLayer(inDim, outDim)`. -/
def ReluFcLayer.create (dev : Device α) (sqrt : α → α) (samples : Nat → α)
    (inDim outDim : Nat) : Except Fault (ReluFcLayer α) := do
  let fc ← FcLayer.create dev sqrt samples inDim outDim
  return { toFcLayer := fc, xRelu := CudaTensor.empty }

/-- The implicit constructor of `SoftmaxLayer`: both tensors default-constructed. -/
def SoftmaxLayer.create : SoftmaxLayer α :=
  { softmax := CudaTensor.empty, lossG := CudaTensor.empty }

/-- The constructor `SumOfSquaresLayer::SumOfSquaresLayer()`. -/
def SumOfSquaresLayer.create : SumOfSquaresLayer α :=
  { pY := none, yG := CudaTensor.empty }

/-- The method `ReluFcLayer::UpdateWs`, inherited from `FcLayer`. -/
def ReluFcLayer.UpdateWs (dev : Device α) (sqrt : α → α) (s : ReluFcLayer α)
    (learningRate beta1 beta2 beta1t beta2t : α) : Except Fault (ReluFcLayer α) := do
  let fc ← s.toFcLayer.UpdateWs dev sqrt learningRate beta1 beta2 beta1t beta2t
  return { s with toFcLayer := fc }

end Layers

/-- The objects that `CudaNn::_layers` points to: one of the four layer classes. -/
inductive Layer (α : Type) where
  | fc (l : FcLayer α)
  | reluFc (l : ReluFcLayer α)
  | softmax (l : SoftmaxLayer α)
  | sumOfSquares (l : SumOfSquaresLayer α)

/-- The class `CudaNn`: the layers in order and the two decay powers. -/
structure CudaNn (α : Type) where
  layers : List (Layer α)
  beta1t : α
  beta2t : α

section Network

variable {α : Type} [LinearOrderedField α] [FloorRing α]

/-- The virtual call `layer->Forward(x)`: the new state of the layer and the tensor that the
returned pointer designates. -/
def Layer.Forward (dev : Device α) (exp : α → α) :
    Layer α → CudaTensor α → Except Fault (Layer α × CudaTensor α)
  | .fc l, x => do
    let l' ← l.Forward dev x
    return (.fc l', l'.y)
  | .reluFc l, x => do
    let l' ← l.Forward dev x
    return (.reluFc l', l'.y)
  | .softmax l, x => do
    let l' ← l.Forward dev exp x
    return (.softmax l', l'.softmax)
  | .sumOfSquares l, x => return (.sumOfSquares (l.Forward x), x)

/-- The virtual call `layer->Backward(yG, layerIndex)`: the new state of the layer and the
tensor that the returned pointer designates. -/
def Layer.Backward (dev : Device α) :
    Layer α → CudaTensor α → Int → Except Fault (Layer α × CudaTensor α)
  | .fc l, yG, layerIndex => do
    let l' ← l.Backward dev yG layerIndex
    return (.fc l', l'.xG)
  | .reluFc l, yG, layerIndex => do
    let l' ← l.Backward dev yG layerIndex
    return (.reluFc l', l'.xG)
  | .softmax l, yG, layerIndex => do
    let l' ← l.Backward dev yG layerIndex
    return (.softmax l', l'.lossG)
  | .sumOfSquares l, yG, layerIndex => do
    let l' ← l.Backward dev yG layerIndex
    return (.sumOfSquares l', l'.yG)

/-- Modelled from the spec: the virtual call `layer->UpdateWs(...)` for the two classes without
parameters, whose definition is in the header `ffCudaNn.h`, is a no-op ("Non-parameterized
variants no-op on update").  For `FcLayer` and `ReluFcLayer` it is `FcLayer::UpdateWs`. -/
def Layer.UpdateWs (dev : Device α) (sqrt : α → α) (learningRate beta1 beta2 beta1t beta2t : α) :
    Layer α → Except Fault (Layer α)
  | .fc l => do
    let l' ← l.UpdateWs dev sqrt learningRate beta1 beta2 beta1t beta2t
    return .fc l'
  | .reluFc l => do
    let l' ← l.UpdateWs dev sqrt learningRate beta1 beta2 beta1t beta2t
    return .reluFc l'
  | .softmax l => return .softmax l
  | .sumOfSquares l => return .sumOfSquares l

/-- The constructor `CudaNn::CudaNn()`.  The constants `kBeta1` and `kBeta2` are declared in
the header `ffCudaNn.h` and are parameters here. -/
def CudaNn.create (kBeta1 kBeta2 : α) : CudaNn α :=
  { layers := [], beta1t := kBeta1, beta2t := kBeta2 }

/-- The method `CudaNn::InitializeCudaNn(desc)`: deletes the layers. -/
def CudaNn.InitializeCudaNn (nn : CudaNn α) : CudaNn α :=
  { nn with layers := [] }

/-- The method `CudaNn::AddFc(inDim, outDim)`. -/
def CudaNn.AddFc (dev : Device α) (sqrt : α → α) (samples : Nat → α) (nn : CudaNn α)
    (inDim outDim : Nat) : Except Fault (CudaNn α) := do
  let l ← FcLayer.create dev sqrt samples inDim outDim
  return { nn with layers := nn.layers ++ [.fc l] }

/-- The method `CudaNn::AddReluFc(inDim, outDim)`. -/
def CudaNn.AddReluFc (dev : Device α) (sqrt : α → α) (samples : Nat → α) (nn : CudaNn α)
    (inDim outDim : Nat) : Except Fault (CudaNn α) := do
  let l ← ReluFcLayer.create dev sqrt samples inDim outDim
  return { nn with layers := nn.layers ++ [.reluFc l] }

/-- The method `CudaNn::AddSoftmax()`. -/
def CudaNn.AddSoftmax (nn : CudaNn α) : CudaNn α :=
  { nn with layers := nn.layers ++ [.softmax SoftmaxLayer.create] }

/-- The method `CudaNn::AddSumOfSquares()`. -/
def CudaNn.AddSumOfSquares (nn : CudaNn α) : CudaNn α :=
  { nn with layers := nn.layers ++ [.sumOfSquares SumOfSquaresLayer.create] }

/-- The loop of `CudaNn::Forward` from layer `i` on: `x` and `y` are the two local pointers
(`none` is `nullptr`), the list holds `_layers[i], _layers[i+1], ...`.  The result is the new
state of these layers and the returned pointer. -/
def CudaNn.ForwardLoop (dev : Device α) (exp : α → α) :
    List (Layer α) → Option (CudaTensor α) → Option (CudaTensor α) →
      Except Fault (List (Layer α) × Option (CudaTensor α))
  | [], _, y => return ([], y)
  | l :: ls, none, _ => return (l :: ls, none)
  | l :: ls, some x, _ => do
    let r ← l.Forward dev exp x
    let rest ← CudaNn.ForwardLoop dev exp ls (some r.2) (some r.2)
    return (r.1 :: rest.1, rest.2)

/-- The method `CudaNn::Forward(x)`; `none` is the null pointer. -/
def CudaNn.Forward (dev : Device α) (exp : α → α) (nn : CudaNn α) (x : Option (CudaTensor α)) :
    Except Fault (CudaNn α × Option (CudaTensor α)) := do
  let r ← CudaNn.ForwardLoop dev exp nn.layers x none
  return ({ nn with layers := r.1 }, r.2)

/-- One iteration `i` of the loop of `CudaNn::Backward`, on the layers and the pointer `y`. -/
def CudaNn.BackwardStep (dev : Device α) (numLayer : Nat)
    (st : List (Layer α) × CudaTensor α) (i : Nat) :
    Except Fault (List (Layer α) × CudaTensor α) :=
  let layerIndex := numLayer - i - 1
  match st.1.get? layerIndex with
  | some l => do
    let r ← l.Backward dev st.2 (layerIndex : Nat)
    return (st.1.set layerIndex r.1, r.2)
  | none => throw Fault.nullDeref

/-- The method `CudaNn::Backward(yLabel)`. -/
def CudaNn.Backward (dev : Device α) (nn : CudaNn α) (yLabel : CudaTensor α) :
    Except Fault (CudaNn α) := do
  let numLayer := nn.layers.length
  let st ← (List.range numLayer).foldlM (CudaNn.BackwardStep dev numLayer) (nn.layers, yLabel)
  return { nn with layers := st.1 }

/-- The method `CudaNn::UpdateWs(learningRate)`. -/
def CudaNn.UpdateWs (dev : Device α) (sqrt : α → α) (kBeta1 kBeta2 : α) (nn : CudaNn α)
    (learningRate : α) : Except Fault (CudaNn α) := do
  let layers ← nn.layers.mapM
    (Layer.UpdateWs dev sqrt learningRate kBeta1 kBeta2 nn.beta1t nn.beta2t)
  return { layers := layers, beta1t := nn.beta1t * kBeta1, beta2t := nn.beta2t * kBeta2 }

/-- Reading of the specification of `Forward`: thread `x` through every layer in order and
return the final layer's output. -/
def specForward (dev : Device α) (exp : α → α) :
    List (Layer α) → CudaTensor α → Except Fault (List (Layer α) × CudaTensor α)
  | [], x => return ([], x)
  | l :: ls, x => do
    let r ← l.Forward dev exp x
    let rest ← specForward dev exp ls r.2
    return (r.1 :: rest.1, rest.2)

/-- Reading of the specification of `Backward`: the layers from index `k` on are called in
reverse order; the last one receives the target, every other one the tensor returned by its
successor, and the layer at index `j` is passed `layerIndex = j`. -/
def specBackward (dev : Device α) :
    Nat → List (Layer α) → CudaTensor α → Except Fault (List (Layer α) × CudaTensor α)
  | _, [], t => return ([], t)
  | k, l :: ls, t => do
    let rest ← specBackward dev (k + 1) ls t
    let r ← l.Backward dev rest.2 (k : Nat)
    return (r.1 :: rest.1, r.2)

/-- The `FcLayer` part of a layer that has parameters (`FcLayer`, `ReluFcLayer`). -/
def Layer.params : Layer α → Option (FcLayer α)
  | .fc l => some l
  | .reluFc l => some l.toFcLayer
  | .softmax _ => none
  | .sumOfSquares _ => none

/-- The second-moment accumulators `_wG_v` and `_bG_v` are non-negative on the elements that
`FcLayer::UpdateWs` updates: the `_w._d0 * _w._d1` weights and the `_b._d0` biases. -/
def FcLayer.momentsNonneg (p : FcLayer α) : Prop :=
  (∀ i, i < p.w.d0 * p.w.d1 → 0 ≤ p.wG_v.dataGpu i) ∧ (∀ i, i < p.b.d0 → 0 ≤ p.bG_v.dataGpu i)

/-- The second-moment accumulators of a layer, when it has parameters, are non-negative. -/
def Layer.Safe (l : Layer α) : Prop :=
  ∀ p, l.params = some p → p.momentsNonneg

/-- A layer with the device contents of its gradient tensors `_wG` and `_bG` cleared. -/
def Layer.clearGradients : Layer α → Layer α
  | .fc l => .fc { l with wG := { l.wG with dataGpu := fun _ => 0 },
                          bG := { l.bG with dataGpu := fun _ => 0 } }
  | .reluFc l => .reluFc { l with wG := { l.wG with dataGpu := fun _ => 0 },
                                  bG := { l.bG with dataGpu := fun _ => 0 } }
  | .softmax l => .softmax l
  | .sumOfSquares l => .sumOfSquares l

/-- The networks a driver can reach: `Run n nn` when `nn` results from `CudaNn::CudaNn()` by
calls of the public methods that returned, `n` of them calls of `UpdateWs`.  The step
`gradients` replaces the contents of the gradient tensors by arbitrary values. -/
inductive Run (dev : Device α) (exp sqrt : α → α) (kBeta1 kBeta2 : α) :
    Nat → CudaNn α → Prop where
  | create : Run dev exp sqrt kBeta1 kBeta2 0 (CudaNn.create kBeta1 kBeta2)
  | clear {n : Nat} {nn : CudaNn α} :
    Run dev exp sqrt kBeta1 kBeta2 n nn → Run dev exp sqrt kBeta1 kBeta2 n nn.InitializeCudaNn
  | addFc {n : Nat} {nn nn' : CudaNn α} (samples : Nat → α) (inDim outDim : Nat) :
    Run dev exp sqrt kBeta1 kBeta2 n nn → nn.AddFc dev sqrt samples inDim outDim = .ok nn' →
    Run dev exp sqrt kBeta1 kBeta2 n nn'
  | addReluFc {n : Nat} {nn nn' : CudaNn α} (samples : Nat → α) (inDim outDim : Nat) :
    Run dev exp sqrt kBeta1 kBeta2 n nn → nn.AddReluFc dev sqrt samples inDim outDim = .ok nn' →
    Run dev exp sqrt kBeta1 kBeta2 n nn'
  | addSoftmax {n : Nat} {nn : CudaNn α} :
    Run dev exp sqrt kBeta1 kBeta2 n nn → Run dev exp sqrt kBeta1 kBeta2 n nn.AddSoftmax
  | addSumOfSquares {n : Nat} {nn : CudaNn α} :
    Run dev exp sqrt kBeta1 kBeta2 n nn → Run dev exp sqrt kBeta1 kBeta2 n nn.AddSumOfSquares
  | forward {n : Nat} {nn nn' : CudaNn α} (x y : Option (CudaTensor α)) :
    Run dev exp sqrt kBeta1 kBeta2 n nn → nn.Forward dev exp x = .ok (nn', y) →
    Run dev exp sqrt kBeta1 kBeta2 n nn'
  | backward {n : Nat} {nn nn' : CudaNn α} (yLabel : CudaTensor α) :
    Run dev exp sqrt kBeta1 kBeta2 n nn → nn.Backward dev yLabel = .ok nn' →
    Run dev exp sqrt kBeta1 kBeta2 n nn'
  | gradients {n : Nat} {nn nn' : CudaNn α} :
    Run dev exp sqrt kBeta1 kBeta2 n nn →
    nn'.layers.map Layer.clearGradients = nn.layers.map Layer.clearGradients →
    nn'.beta1t = nn.beta1t → nn'.beta2t = nn.beta2t → Run dev exp sqrt kBeta1 kBeta2 n nn'
  | update {n : Nat} {nn nn' : CudaNn α} (learningRate : α) :
    Run dev exp sqrt kBeta1 kBeta2 n nn →
    nn.UpdateWs dev sqrt kBeta1 kBeta2 learningRate = .ok nn' →
    Run dev exp sqrt kBeta1 kBeta2 (n + 1) nn'

end Network

section Fixtures

variable {α : Type} [LinearOrderedField α]

/-! ### Concrete devices and states used to evaluate the operations -/

/-- A device that accepts a launch with at least one block and between 1 and 1024 threads per
block, never runs out of memory and hands out zeroed memory. -/
def Device.reference : Device α :=
  { launchOk := fun blocks threads => decide (0 < blocks ∧ 0 < threads ∧ threads ≤ 1024),
    mallocOk := fun _ => true,
    fresh := fun _ => 0,
    memcpyOk := fun _ => true }

/-- A tensor of logical shape `d0 × d1 × 1 × 1` whose host and device buffers both hold the
listed values (zero past the end of the list). -/
def CudaTensor.ofList (d0 d1 : Nat) (l : List α) : CudaTensor α :=
  { d0 := d0, d1 := d1, d2 := 1, d3 := 1, dataSize := d0 * d1, data := l,
    dataGpu := fun i => l.getD i 0, dataGpuSize := d0 * d1 }

/-- A fully-connected layer with the shapes `FcLayer::FcLayer(inDim, outDim)` gives its tensors,
the listed weights and biases, zero gradients and accumulators, and no forward pass yet. -/
def FcLayer.ofLists (inDim outDim : Nat) (w b : List α) : FcLayer α :=
  { w := CudaTensor.ofList outDim inDim w,
    wG := CudaTensor.ofList outDim inDim [],
    wG_m := CudaTensor.ofList outDim inDim [],
    wG_v := CudaTensor.ofList outDim inDim [],
    b := CudaTensor.ofList outDim 1 b,
    bG := CudaTensor.ofList outDim 1 [],
    bG_m := CudaTensor.ofList outDim 1 [],
    bG_v := CudaTensor.ofList outDim 1 [],
    pX := none,
    y := CudaTensor.empty,
    xG := CudaTensor.empty }

/-- A 2 × 2 fully-connected layer (weights `[1, 2, 3, 4]`, zero biases) that has cached the
one-row input `[1, 0]`. -/
def exampleFc : FcLayer ℚ :=
  { FcLayer.ofLists 2 2 [1, 2, 3, 4] [0, 0] with pX := some (CudaTensor.ofList 2 1 [1, 0]) }

/-- An upstream gradient of one row, `[5, 7]`. -/
def exampleYG : CudaTensor ℚ := CudaTensor.ofList 2 1 [5, 7]

/-- A fully-connected layer with the shape of the driver's last one (`inDim = 500`,
`outDim = 10`) and zero parameters, that has cached a zero input of 64 rows. -/
def driverFc : FcLayer ℚ :=
  { FcLayer.ofLists 500 10 [] [] with pX := some (CudaTensor.ofList 500 64 []) }

/-- A zero upstream gradient of shape 64 × 10. -/
def driverYG : CudaTensor ℚ := CudaTensor.ofList 10 64 []

/-- The same upstream gradient of shape 64 × 10, whose device memory holds `1` at flat offset
4041, past the 640 elements of the tensor. -/
def driverYGPast : CudaTensor ℚ :=
  { CudaTensor.ofList 10 64 [] with dataGpu := fun i => if i = 4041 then 1 else 0 }

/-- A prediction of one row of two values, `[1, 2]`. -/
def narrowPrediction : CudaTensor ℚ := CudaTensor.ofList 2 1 [1, 2]

/-- The same prediction, whose device memory holds `1` at flat offset 5, past the 2 elements
of the tensor. -/
def narrowPredictionPast : CudaTensor ℚ :=
  { CudaTensor.ofList 2 1 [1, 2] with dataGpu := fun i => if i = 5 then 1 else [1, 2].getD i 0 }

/-- A target of two rows of three values. -/
def wideTarget : CudaTensor ℚ := CudaTensor.ofList 3 2 [1, 2, 3, 4, 5, 6]

/-- The 2 × 2 fully-connected layer of `exampleFc` after caching an input of two rows,
`[1, 0]` and `[1, 0]`. -/
def twoRowFc : FcLayer ℚ :=
  { FcLayer.ofLists 2 2 [1, 2, 3, 4] [0, 0] with pX := some (CudaTensor.ofList 2 2 [1, 0, 1, 0]) }

/-- The upstream gradient of one row `[5, 7]`, whose device memory holds `1` at flat offset 2,
past the 2 elements of the tensor. -/
def exampleYGPast : CudaTensor ℚ :=
  { CudaTensor.ofList 2 1 [5, 7] with dataGpu := fun i => if i = 2 then 1 else [5, 7].getD i 0 }

end Fixtures

/-! ## Loops and launches -/

section Launch

/-- An accumulation loop `for (i = 0; i < n; ++i) v += f i` computes a finite sum. -/
theorem foldl_range_add {α : Type} [AddCommMonoid α] (f : Nat → α) (a : α) (n : Nat) :
    (List.range n).foldl (fun v i => v + f i) a = a + ∑ i in Finset.range n, f i := by
  induction n with
  | zero => simp
  | succ k ih =>
    rw [List.range_succ, List.foldl_append, ih, Finset.sum_range_succ]
    simp [add_assoc]

/-- A loop of `n` steps in which step `i` rewrites exactly the cells it owns, as a function of
their previous contents, and no cell has two owners: every owned cell ends with the value its
owner gives it, every other cell keeps its contents. -/
theorem foldl_range_owned {σ β : Type} (obs : σ → Nat → β) (F : Nat → σ → σ)
    (owns : Nat → Nat → Prop) (g : Nat → Nat → β → β) (n : Nat)
    (hhit : ∀ i m p, i < n → owns i p → obs (F i m) p = g i p (obs m p))
    (hmiss : ∀ i m p, i < n → ¬ owns i p → obs (F i m) p = obs m p)
    (hdisj : ∀ i j p, i < n → j < n → owns i p → owns j p → i = j) (m : σ) (p : Nat) :
    (∀ i, i < n → owns i p →
        obs ((List.range n).foldl (fun m i => F i m) m) p = g i p (obs m p)) ∧
      ((∀ i, i < n → ¬ owns i p) →
        obs ((List.range n).foldl (fun m i => F i m) m) p = obs m p) := by
  induction n with
  | zero => simp
  | succ k ih =>
    have ih1 := ih (fun i m p hi => hhit i m p (Nat.lt_succ_of_lt hi))
      (fun i m p hi => hmiss i m p (Nat.lt_succ_of_lt hi))
      (fun i j p hi hj => hdisj i j p (Nat.lt_succ_of_lt hi) (Nat.lt_succ_of_lt hj))
    rw [List.range_succ, List.foldl_append]
    simp only [List.foldl_cons, List.foldl_nil]
    constructor
    · intro i hi ho
      by_cases hk : owns k p
      · have hik : i = k := hdisj i k p hi (Nat.lt_succ_self k) ho hk
        subst hik
        rw [hhit i _ p (Nat.lt_succ_self i) ho]
        rw [ih1.2 (fun j hj hoj => absurd (hdisj j i p (Nat.lt_succ_of_lt hj)
          (Nat.lt_succ_self i) hoj ho) (Nat.ne_of_lt hj))]
      · have hik : i ≠ k := fun h => hk (h ▸ ho)
        rw [hmiss k _ p (Nat.lt_succ_self k) hk]
        exact ih1.1 i (Nat.lt_of_le_of_ne (Nat.lt_succ_iff.mp hi) hik) ho
    · intro hno
      rw [hmiss k _ p (Nat.lt_succ_self k) (hno k (Nat.lt_succ_self k))]
      exact ih1.2 (fun j hj => hno j (Nat.lt_succ_of_lt hj))

/-- A launch in which thread `(b, t)` rewrites exactly the cells it owns, as a function of their
previous contents, and no cell has two owners inside the grid: every owned cell ends with the
value its owning thread gives it, every other cell keeps its contents. -/
theorem launch_owned {σ β : Type} (obs : σ → Nat → β) (K : Nat → Nat → σ → σ)
    (owns : Nat → Nat → Nat → Prop) (g : Nat → Nat → Nat → β → β) (blocks threads : Nat)
    (hhit : ∀ b t m p, b < blocks → t < threads → owns b t p →
      obs (K b t m) p = g b t p (obs m p))
    (hmiss : ∀ b t m p, b < blocks → t < threads → ¬ owns b t p → obs (K b t m) p = obs m p)
    (hdisj : ∀ b t b' t' p, b < blocks → t < threads → b' < blocks → t' < threads →
      owns b t p → owns b' t' p → b = b' ∧ t = t') (m : σ) (p : Nat) :
    (∀ b t, b < blocks → t < threads → owns b t p →
        obs (launch blocks threads K m) p = g b t p (obs m p)) ∧
      ((∀ b t, b < blocks → t < threads → ¬ owns b t p) →
        obs (launch blocks threads K m) p = obs m p) := by
  have inner : ∀ b, b < blocks → ∀ m : σ,
      (∀ t, t < threads → owns b t p →
        obs (runThreads threads K b m) p = g b t p (obs m p)) ∧
      ((∀ t, t < threads → ¬ owns b t p) → obs (runThreads threads K b m) p = obs m p) := by
    intro b hb m
    exact foldl_range_owned obs (K b) (owns b) (g b) threads
      (fun t m p ht => hhit b t m p hb ht) (fun t m p ht => hmiss b t m p hb ht)
      (fun t t' p ht ht' h h' => (hdisj b t b t' p hb ht hb ht' h h').2) m p
  unfold launch
  induction blocks with
  | zero => simp
  | succ k ih =>
    have ih1 := ih (fun b t m p hb => hhit b t m p (Nat.lt_succ_of_lt hb))
      (fun b t m p hb => hmiss b t m p (Nat.lt_succ_of_lt hb))
      (fun b t b' t' p hb ht hb' => hdisj b t b' t' p (Nat.lt_succ_of_lt hb) ht
        (Nat.lt_succ_of_lt hb'))
      (fun b hb => inner b (Nat.lt_succ_of_lt hb))
    rw [List.range_succ, List.foldl_append]
    simp only [List.foldl_cons, List.foldl_nil]
    have hin := inner k (Nat.lt_succ_self k)
    constructor
    · intro b t hb ht ho
      by_cases hbk : b = k
      · subst hbk
        rw [(hin _).1 t ht ho]
        rw [ih1.2 (fun b' t' hb' ht' ho' => absurd (hdisj b' t' b t p (Nat.lt_succ_of_lt hb') ht'
          (Nat.lt_succ_self b) ht ho' ho).1 (Nat.ne_of_lt hb'))]
      · have hlt : b < k := Nat.lt_of_le_of_ne (Nat.lt_succ_iff.mp hb) hbk
        rw [(hin _).2 (fun t' ht' ho' => hbk (hdisj b t k t' p hb ht (Nat.lt_succ_self k) ht'
          ho ho').1)]
        exact ih1.1 b t hlt ht ho
    · intro hno
      rw [(hin _).2 (fun t' ht' => hno k t' (Nat.lt_succ_self k) ht')]
      exact ih1.2 (fun b t hb ht => hno b t (Nat.lt_succ_of_lt hb) ht)

/-- Two cells `c + r * n` of a row-major grid with `c < n` coincide only for equal indices. -/
theorem flat_index_inj {n c r c' r' : Nat} (hc : c < n) (hc' : c' < n)
    (h : c + r * n = c' + r' * n) : r = r' ∧ c = c' := by
  have h1 : (c + r * n) / n = r := by
    rw [Nat.add_mul_div_right _ _ (Nat.lt_of_le_of_lt (Nat.zero_le c) hc), Nat.div_eq_of_lt hc,
      Nat.zero_add]
  have h2 : (c' + r' * n) / n = r' := by
    rw [Nat.add_mul_div_right _ _ (Nat.lt_of_le_of_lt (Nat.zero_le c) hc), Nat.div_eq_of_lt hc',
      Nat.zero_add]
  have hr : r = r' := by rw [← h1, ← h2, h]
  subst hr
  exact ⟨rfl, Nat.add_right_cancel h⟩

/-- A launch of a kernel whose thread `(b, t)` only rewrites cell `t + b * n`, with at most `n`
threads per block: the cell of every thread of the grid holds that thread's value, the cells
outside the grid keep their contents. -/
theorem launch_update {β : Type} (n : Nat) (val : Nat → Nat → β → β)
    (K : Nat → Nat → (Nat → β) → (Nat → β))
    (blocks threads : Nat)
    (hK : ∀ b t m, b < blocks → t < threads →
      K b t m = Function.update m (t + b * n) (val b t (m (t + b * n))))
    (hthreads : threads ≤ n) (m : Nat → β) :
    (∀ r c, r < blocks → c < threads →
        launch blocks threads K m (c + r * n) = val r c (m (c + r * n))) ∧
      (∀ p, (∀ r c, r < blocks → c < threads → p ≠ c + r * n) →
        launch blocks threads K m p = m p) := by
  have key := fun p => launch_owned (fun (m : Nat → β) q => m q) K
    (fun b t p => p = t + b * n) (fun b t _ v => val b t v) blocks threads
    (by
      intro b t m p hb ht hp
      subst hp
      simp [hK b t m hb ht])
    (by
      intro b t m p hb ht hp
      simp [hK b t m hb ht, Function.update_noteq hp])
    (by
      intro b t b' t' p _ ht _ ht' h h'
      exact flat_index_inj (Nat.lt_of_lt_of_le ht hthreads) (Nat.lt_of_lt_of_le ht' hthreads)
        (h.symm.trans h'))
    m p
  constructor
  · intro r c hr hc
    exact (key (c + r * n)).1 r c hr hc rfl
  · intro p hp
    exact (key p).2 (fun b t hb ht => hp b t hb ht)

variable {α : Type} [LinearOrderedField α]

/-- Result of the launch in `FcLayer::Forward`: every cell of the grid holds the affine form. -/
theorem launch_LinearTransform (x w b y : Nat → α) (xw ww blocks r c : Nat) (hr : r < blocks)
    (hc : c < ww) :
    launch blocks ww (LinearTransform_Cuda x w b xw ww) y (c + r * ww) =
      (∑ i in Finset.range xw, x (i + r * xw) * w (c + i * ww)) + b c := by
  have h := (launch_update ww
    (fun r c _ => (∑ i in Finset.range xw, x (i + r * xw) * w (c + i * ww)) + b c)
    (LinearTransform_Cuda x w b xw ww) blocks ww
    (by intro b' t m _ _; simp [LinearTransform_Cuda, foldl_range_add])
    (Nat.le_refl ww) y).1 r c hr hc
  exact h

/-- The forward launch as a function of one weight cell: adding `δ` to the weight at flat offset
`c + k * ww` changes output `col` of row `row` by `x[row,k] * δ` when `col = c` and leaves it
unchanged otherwise.  So offset `c + k * ww` is the weight that input feature `k` is multiplied
by to produce output `c`. -/
theorem launch_LinearTransform_weight_cell (x w b y : Nat → α) (xw ww blocks k c : Nat)
    (hk : k < xw) (hc : c < ww) (δ : α) (row col : Nat) (hrow : row < blocks) (hcol : col < ww) :
    launch blocks ww
        (LinearTransform_Cuda x (Function.update w (c + k * ww) (w (c + k * ww) + δ)) b xw ww) y
        (col + row * ww) =
      launch blocks ww (LinearTransform_Cuda x w b xw ww) y (col + row * ww) +
        (if col = c then x (k + row * xw) * δ else 0) := by
  rw [launch_LinearTransform _ _ _ _ _ _ _ row col hrow hcol,
    launch_LinearTransform _ _ _ _ _ _ _ row col hrow hcol]
  have hterm : ∀ i ∈ Finset.range xw,
      x (i + row * xw) * Function.update w (c + k * ww) (w (c + k * ww) + δ) (col + i * ww) =
        x (i + row * xw) * w (col + i * ww) +
          (if i = k then (if col = c then x (k + row * xw) * δ else 0) else 0) := by
    intro i _
    by_cases hik : i = k
    · subst hik
      by_cases hcc : col = c
      · subst hcc
        simp [mul_add]
      · have hne : col + i * ww ≠ c + i * ww := fun h => hcc (Nat.add_right_cancel h)
        simp [Function.update_noteq hne, hcc]
    · have hne : col + i * ww ≠ c + k * ww := fun h => hik (flat_index_inj hcol hc h).1
      simp [Function.update_noteq hne, hik]
  rw [Finset.sum_congr rfl hterm, Finset.sum_add_distrib, Finset.sum_ite_eq',
    if_pos (Finset.mem_range.mpr hk)]
  ring

/-- Result of the weight-gradient launch: every cell of the grid holds the contraction of
column `r` of `x` with column `c` of `yG` over the rows. -/
theorem launch_ComputeWg (x yG wG : Nat → α) (nXcol nXrow nWcol blocks r c : Nat)
    (hr : r < blocks) (hc : c < nWcol) :
    launch blocks nWcol (ComputeWg_Cuda x yG nXcol nXrow nWcol) wG (c + r * nWcol) =
      ∑ i in Finset.range nXrow, x (r + i * nXcol) * yG (c + i * nWcol) := by
  have h := (launch_update nWcol
    (fun r c _ => ∑ i in Finset.range nXrow, x (r + i * nXcol) * yG (c + i * nWcol))
    (ComputeWg_Cuda x yG nXcol nXrow nWcol) blocks nWcol
    (by intro b' t m _ _; simp [ComputeWg_Cuda, foldl_range_add])
    (Nat.le_refl nWcol) wG).1 r c hr hc
  exact h

/-- Result of the launch in `SumOfSquaresLayer::Backward`: every cell of the grid holds twice
the difference of the cells of `y` and `yLabel` at the same offset. -/
theorem launch_ComputeSumOfSquresGradient (y yLabel yG : Nat → α) (nCol blocks r c : Nat)
    (hr : r < blocks) (hc : c < nCol) :
    launch blocks nCol (ComputeSumOfSquresGradient y yLabel nCol) yG (c + r * nCol) =
      2 * (y (c + r * nCol) - yLabel (c + r * nCol)) := by
  have h := (launch_update nCol
    (fun r c _ => 2 * (y (c + r * nCol) - yLabel (c + r * nCol)))
    (ComputeSumOfSquresGradient y yLabel nCol) blocks nCol
    (by intro b' t m _ _; simp [ComputeSumOfSquresGradient])
    (Nat.le_refl nCol) yG).1 r c hr hc
  exact h

/-- Result of the input-gradient launch: every cell of the grid holds the contraction of row
`r` of `yG` with the weights at offsets `i + c * wTh`. -/
theorem launch_ComputeXg (yG w xG : Nat → α) (yGw wTh xGw blocks r c : Nat)
    (hr : r < blocks) (hc : c < xGw) :
    launch blocks xGw (ComputeXg_Cuda yG w yGw wTh xGw) xG (c + r * xGw) =
      ∑ i in Finset.range yGw, yG (i + r * yGw) * w (i + c * wTh) := by
  have h := (launch_update xGw
    (fun r c _ => ∑ i in Finset.range yGw, yG (i + r * yGw) * w (i + c * wTh))
    (ComputeXg_Cuda yG w yGw wTh xGw) blocks xGw
    (by intro b' t m _ _; simp [ComputeXg_Cuda, foldl_range_add])
    (Nat.le_refl xGw) xG).1 r c hr hc
  exact h

/-- The read-modify-write loop of `ComputeBg_Cuda` on cell `c`. -/
theorem foldl_range_update_add (f : Nat → α) (bG : Nat → α) (c : Nat) (a : α) (n : Nat) :
    (List.range n).foldl (fun bG i => Function.update bG c (bG c + f i)) (Function.update bG c a)
      = Function.update bG c (a + ∑ i in Finset.range n, f i) := by
  induction n with
  | zero => simp
  | succ k ih =>
    rw [List.range_succ, List.foldl_append, ih, Finset.sum_range_succ]
    simp [add_assoc]

/-- Result of the bias-gradient launch (one block): cell `c` holds the sum of the cells
`c + i * nYgRow` of `yG` for `i < nYgRow`. -/
theorem launch_ComputeBg (yG bG : Nat → α) (nYgRow threads c : Nat) (hc : c < threads) :
    launch 1 threads (ComputeBg_Cuda yG nYgRow) bG c =
      ∑ i in Finset.range nYgRow, yG (c + i * nYgRow) := by
  have h := (launch_update threads
    (fun _ c _ => ∑ i in Finset.range nYgRow, yG (c + i * nYgRow))
    (ComputeBg_Cuda yG nYgRow) 1 threads
    (by
      intro b' t m hb _
      have hb0 : b' = 0 := Nat.lt_one_iff.mp hb
      subst hb0
      simp [ComputeBg_Cuda, foldl_range_update_add])
    (Nat.le_refl threads) bG).1 0 c Nat.zero_lt_one hc
  simpa using h

/-- Result of the rectifier-gradient launch: every cell of the grid whose input cell is zero
holds no field element, every other cell of the grid is scaled by the ratio
`max(x, 1e-32) / x` of the input cell at the same offset. -/
theorem launch_ReluG (x : Nat → α) (xG : Nat → Option α) (nCol blocks r c : Nat)
    (hr : r < blocks) (hc : c < nCol) :
    launch blocks nCol (ReluG_Cuda x nCol) xG (c + r * nCol) =
      if x (c + r * nCol) = 0 then none
      else (xG (c + r * nCol)).map
        (fun g => g * (max (x (c + r * nCol)) 1e-32 / x (c + r * nCol))) := by
  have h := (launch_update nCol
    (fun r c v => if x (c + r * nCol) = 0 then none
      else v.map (fun g => g * (max (x (c + r * nCol)) 1e-32 / x (c + r * nCol))))
    (ReluG_Cuda x nCol) blocks nCol
    (by intro b' t m _ _; simp [ReluG_Cuda])
    (Nat.le_refl nCol) xG).1 r c hr hc
  exact h

/-- Every row below `nRow` belongs to one thread of the softmax grid. -/
theorem softmax_row_thread (nRow row : Nat) (hrow : row < nRow) :
    row / SoftmaxLayer.Forward.kThreadPerBlock < (nRow + SoftmaxLayer.Forward.kThreadPerBlock - 1)
        / SoftmaxLayer.Forward.kThreadPerBlock ∧
      row % SoftmaxLayer.Forward.kThreadPerBlock < SoftmaxLayer.Forward.kThreadPerBlock ∧
      row / SoftmaxLayer.Forward.kThreadPerBlock * SoftmaxLayer.Forward.kThreadPerBlock + row %
          SoftmaxLayer.Forward.kThreadPerBlock = row := by
  unfold SoftmaxLayer.Forward.kThreadPerBlock
  omega

/-- Two threads of the softmax grid with the same row index are the same thread. -/
theorem softmax_thread_inj {b t b' t' : Nat} (ht : t < SoftmaxLayer.Forward.kThreadPerBlock)
    (ht' : t' < SoftmaxLayer.Forward.kThreadPerBlock)
    (h : b * SoftmaxLayer.Forward.kThreadPerBlock + t = b' * SoftmaxLayer.Forward.kThreadPerBlock +
        t') : b = b' ∧ t = t' := by
  unfold SoftmaxLayer.Forward.kThreadPerBlock at *
  omega

omit [LinearOrderedField α] in
/-- The constant of pass 1 has the value of the constant of `SoftmaxLayer::Forward`. -/
theorem kThreadPerBlock_step1 :
    ForwardSoftmax_Step1_Cuda.kThreadPerBlock = SoftmaxLayer.Forward.kThreadPerBlock := rfl

omit [LinearOrderedField α] in
/-- The constant of pass 2 has the value of the constant of `SoftmaxLayer::Forward`. -/
theorem kThreadPerBlock_step2 :
    ForwardSoftmax_Step2_Cuda.kThreadPerBlock = SoftmaxLayer.Forward.kThreadPerBlock := rfl

/-- Result of pass 1 of the softmax: the cell at offset `row * nCol` of the scratch buffer
holds `1e-8 + Σ_col exp(x[row,col])`. -/
theorem launch_ForwardSoftmax_Step1 (exp : α → α) (x sum : Nat → α) (nRow nCol row : Nat)
    (hrow : row < nRow) (hcol : 0 < nCol) :
    launch ((nRow + SoftmaxLayer.Forward.kThreadPerBlock - 1) /
        SoftmaxLayer.Forward.kThreadPerBlock) SoftmaxLayer.Forward.kThreadPerBlock
        (ForwardSoftmax_Step1_Cuda exp x nRow nCol) sum (0 + row * nCol) =
      1e-8 + ∑ i in Finset.range nCol, exp (x (i + row * nCol)) := by
  obtain ⟨hb, ht, hbt⟩ := softmax_row_thread nRow row hrow
  have key := (launch_owned (fun (m : Nat → α) q => m q)
    (ForwardSoftmax_Step1_Cuda exp x nRow nCol)
    (fun b t p => b * SoftmaxLayer.Forward.kThreadPerBlock + t < nRow ∧ p = 0 + (b *
        SoftmaxLayer.Forward.kThreadPerBlock + t) * nCol)
    (fun b t _ _ =>
      1e-8 + ∑ i in Finset.range nCol, exp (x (i + (b * SoftmaxLayer.Forward.kThreadPerBlock + t) *
          nCol)))
    ((nRow + SoftmaxLayer.Forward.kThreadPerBlock - 1) / SoftmaxLayer.Forward.kThreadPerBlock)
        SoftmaxLayer.Forward.kThreadPerBlock
    (by
      intro b t m p _ _ hp
      obtain ⟨hlt, hp⟩ := hp
      subst hp
      simp [ForwardSoftmax_Step1_Cuda, kThreadPerBlock_step1, Nat.not_le.mpr hlt, foldl_range_update_add])
    (by
      intro b t m p _ _ hp
      by_cases hlt : b * SoftmaxLayer.Forward.kThreadPerBlock + t < nRow
      · have hne : p ≠ 0 + (b * SoftmaxLayer.Forward.kThreadPerBlock + t) * nCol := fun h => hp
          ⟨hlt, h⟩
        simp only [ForwardSoftmax_Step1_Cuda, kThreadPerBlock_step1, Nat.not_le.mpr hlt, if_false,
          foldl_range_update_add]
        exact Function.update_noteq hne _ _
      · simp [ForwardSoftmax_Step1_Cuda, kThreadPerBlock_step1, Nat.le_of_not_lt hlt])
    (by
      intro b t b' t' p _ ht _ ht' h h'
      have heq : (b * SoftmaxLayer.Forward.kThreadPerBlock + t) * nCol = (b' *
          SoftmaxLayer.Forward.kThreadPerBlock + t') * nCol := by
        have := h.2.symm.trans h'.2
        omega
      exact softmax_thread_inj ht ht' (Nat.eq_of_mul_eq_mul_right hcol heq))
    sum (0 + row * nCol)).1 (row / SoftmaxLayer.Forward.kThreadPerBlock) (row %
        SoftmaxLayer.Forward.kThreadPerBlock) hb ht
    (by rw [hbt]; exact ⟨hrow, rfl⟩)
  rw [hbt] at key
  exact key

omit [LinearOrderedField α] in
/-- The write loop of pass 2 of the softmax: cell `i + r * nCol` receives `h i` for `i < nCol`;
the other cells keep their contents. -/
theorem foldl_range_update_row (h : Nat → α) (m : Nat → α) (r nCol p : Nat) :
    (∀ i, i < nCol → p = i + r * nCol →
      (List.range nCol).foldl (fun m i => Function.update m (i + r * nCol) (h i)) m p = h i) ∧
    ((∀ i, i < nCol → p ≠ i + r * nCol) →
      (List.range nCol).foldl (fun m i => Function.update m (i + r * nCol) (h i)) m p = m p) :=
  foldl_range_owned (fun (m : Nat → α) q => m q)
    (fun i m => Function.update m (i + r * nCol) (h i))
    (fun i p => p = i + r * nCol) (fun i _ _ => h i) nCol
    (by intro i m p _ hp; subst hp; simp)
    (by intro i m p _ hp; exact Function.update_noteq hp _ _)
    (by intro i j p _ _ hi hj; exact Nat.add_right_cancel (hi.symm.trans hj)) m p

/-- Result of pass 2 of the softmax: the cell of row `row` and column `col` holds
`exp(x[row,col]) / sum[row]`, where `sum[row]` is the cell at offset `row * nCol` of `sum`. -/
theorem launch_ForwardSoftmax_Step2 (exp : α → α) (sum x softmax : Nat → α)
    (nRow nCol row col : Nat) (hrow : row < nRow) (hcol : col < nCol) :
    launch ((nRow + SoftmaxLayer.Forward.kThreadPerBlock - 1) /
        SoftmaxLayer.Forward.kThreadPerBlock) SoftmaxLayer.Forward.kThreadPerBlock
        (ForwardSoftmax_Step2_Cuda exp sum x nRow nCol) softmax (col + row * nCol) =
      exp (x (col + row * nCol)) / sum (0 + row * nCol) := by
  obtain ⟨hb, ht, hbt⟩ := softmax_row_thread nRow row hrow
  have key := (launch_owned (fun (m : Nat → α) q => m q)
    (ForwardSoftmax_Step2_Cuda exp sum x nRow nCol)
    (fun b t p => b * SoftmaxLayer.Forward.kThreadPerBlock + t < nRow ∧
      ∃ i, i < nCol ∧ p = i + (b * SoftmaxLayer.Forward.kThreadPerBlock + t) * nCol)
    (fun b t p _ => exp (x p) / sum (0 + (b * SoftmaxLayer.Forward.kThreadPerBlock + t) * nCol))
    ((nRow + SoftmaxLayer.Forward.kThreadPerBlock - 1) / SoftmaxLayer.Forward.kThreadPerBlock)
        SoftmaxLayer.Forward.kThreadPerBlock
    (by
      intro b t m p _ _ hp
      obtain ⟨hlt, i, hi, hp⟩ := hp
      simp only [ForwardSoftmax_Step2_Cuda, kThreadPerBlock_step2, Nat.not_le.mpr hlt, if_false]
      rw [(foldl_range_update_row
        (fun i => exp (x (i + (b * SoftmaxLayer.Forward.kThreadPerBlock + t) * nCol)) /
          sum (0 + (b * SoftmaxLayer.Forward.kThreadPerBlock + t) * nCol)) m (b *
              SoftmaxLayer.Forward.kThreadPerBlock + t) nCol p).1 i hi hp,
        hp])
    (by
      intro b t m p _ _ hp
      by_cases hlt : b * SoftmaxLayer.Forward.kThreadPerBlock + t < nRow
      · simp only [ForwardSoftmax_Step2_Cuda, kThreadPerBlock_step2, Nat.not_le.mpr hlt, if_false]
        exact (foldl_range_update_row _ m (b * SoftmaxLayer.Forward.kThreadPerBlock + t) nCol p).2
          (fun i hi h => hp ⟨hlt, i, hi, h⟩)
      · simp [ForwardSoftmax_Step2_Cuda, kThreadPerBlock_step2, Nat.le_of_not_lt hlt])
    (by
      intro b t b' t' p _ ht _ ht' h h'
      obtain ⟨-, i, hi, hp⟩ := h
      obtain ⟨-, i', hi', hp'⟩ := h'
      exact softmax_thread_inj ht ht' (flat_index_inj hi hi' (hp.symm.trans hp')).1)
    softmax (col + row * nCol)).1 (row / SoftmaxLayer.Forward.kThreadPerBlock) (row %
        SoftmaxLayer.Forward.kThreadPerBlock) hb ht
    (by rw [hbt]; exact ⟨hrow, col, hcol, rfl⟩)
  rw [hbt] at key
  exact key

/-- The conversion `(int)v` of a double that holds a natural number returns that number. -/
theorem castInt_natCast [FloorRing α] (n : Nat) : castInt (n : α) = (n : Int) := by
  simp [castInt]

/-- Result of the launch in `SoftmaxLayer::Backward`: every cell of the grid holds the softmax
entry, less one when the truncated label of its row is its column. -/
theorem launch_SoftmaxBackward [FloorRing α] (softmax yLabel lossG : Nat → α)
    (nCol blocks r c : Nat) (hr : r < blocks) (hc : c < nCol) :
    launch blocks nCol (SoftmaxBackward_Cuda softmax yLabel nCol) lossG (c + r * nCol) =
      if castInt (yLabel r) = (c : Int) then softmax (c + r * nCol) - 1
      else softmax (c + r * nCol) := by
  have h := (launch_update nCol
    (fun r c _ => if castInt (yLabel r) = (c : Int) then softmax (c + r * nCol) - 1
      else softmax (c + r * nCol))
    (SoftmaxBackward_Cuda softmax yLabel nCol) blocks nCol
    (by
      intro b' t m _ _
      by_cases hlab : castInt (yLabel b') = (t : Int)
      · simp [SoftmaxBackward_Cuda, hlab]
      · simp [SoftmaxBackward_Cuda, hlab])
    (Nat.le_refl nCol) lossG).1 r c hr hc
  exact h

/-- The new `(parameter, m, v)` of one element under the update of `UpdateWs_Cuda`, as a
function of that element's old `(parameter, m, v)` and gradient `g`. -/
theorem launch_UpdateWs (sqrt : α → α) (learningRate beta1 beta2 beta1t beta2t : α)
    (wG : Nat → α) (bufs : (Nat → α) × (Nat → α) × (Nat → α)) (nCol blocks r c : Nat)
    (hr : r < blocks) (hc : c < nCol) :
    let out := launch blocks nCol
      (UpdateWs_Cuda sqrt nCol learningRate beta1 beta2 beta1t beta2t wG) bufs
    let index := c + r * nCol
    out.2.1 index = beta1 * bufs.2.1 index + (1 - beta1) * wG index ∧
      out.2.2 index = beta2 * bufs.2.2 index + (1 - beta2) * wG index * wG index ∧
      out.1 index = bufs.1 index -
        learningRate * (out.2.1 index / (1 - beta1t)) /
          (sqrt (out.2.2 index / (1 - beta2t)) + 1e-8) := by
  intro out index
  have key := (launch_owned
    (fun (m : (Nat → α) × (Nat → α) × (Nat → α)) q => (m.1 q, m.2.1 q, m.2.2 q))
    (UpdateWs_Cuda sqrt nCol learningRate beta1 beta2 beta1t beta2t wG)
    (fun b t p => p = t + b * nCol)
    (fun _ _ p v =>
      (v.1 - learningRate * ((beta1 * v.2.1 + (1 - beta1) * wG p) / (1 - beta1t)) /
          (sqrt ((beta2 * v.2.2 + (1 - beta2) * wG p * wG p) / (1 - beta2t)) + 1e-8),
        beta1 * v.2.1 + (1 - beta1) * wG p,
        beta2 * v.2.2 + (1 - beta2) * wG p * wG p))
    blocks nCol
    (by
      intro b t m p _ _ hp
      subst hp
      simp [UpdateWs_Cuda])
    (by
      intro b t m p _ _ hp
      simp [UpdateWs_Cuda, Function.update_noteq hp])
    (by
      intro b t b' t' p _ ht _ ht' h h'
      exact flat_index_inj ht ht' (h.symm.trans h'))
    bufs index).1 r c hr hc rfl
  have h1 : out.1 index = _ := congrArg Prod.fst key
  have h2 : out.2.1 index = _ := congrArg (fun v => v.2.1) key
  have h3 : out.2.2 index = _ := congrArg (fun v => v.2.2) key
  refine ⟨h2, h3, ?_⟩
  rw [h1, h2, h3]

/-- The kernel `UpdateBs_Cuda` is `UpdateWs_Cuda` in block 0, whatever the row width. -/
theorem UpdateBs_Cuda_eq (sqrt : α → α) (nCol : Nat) (learningRate beta1 beta2 beta1t beta2t : α)
    (bG : Nat → α) (blockIdx threadIdx : Nat) (bufs : (Nat → α) × (Nat → α) × (Nat → α)) :
    UpdateBs_Cuda sqrt learningRate beta1 beta2 beta1t beta2t bG blockIdx threadIdx bufs =
      UpdateWs_Cuda sqrt nCol learningRate beta1 beta2 beta1t beta2t bG 0 threadIdx bufs := by
  simp [UpdateBs_Cuda, UpdateWs_Cuda]

/-- Two kernels that agree on every thread of block 0 have the same one-block launch. -/
theorem launch_one_congr {σ : Type} (threads : Nat) (K K' : Nat → Nat → σ → σ)
    (h : ∀ t m, K 0 t m = K' 0 t m) (m : σ) : launch 1 threads K m = launch 1 threads K' m := by
  have hK : (fun m t => K 0 t m) = (fun m t => K' 0 t m) := by
    funext m t
    exact h t m
  have h1 : List.range 1 = [0] := rfl
  simp only [launch, runThreads, h1, List.foldl_cons, List.foldl_nil, hK]

end Launch

/-! ## Tensors and layers -/

section LayerLemmas

variable {α : Type} [LinearOrderedField α]

/-- When the allocation of `d0 * d1` elements succeeds, `ResetTensor(d0, d1)` returns a
tensor of that logical shape whose capacity covers it. -/
theorem ResetTensor_ok (dev : Device α) (t : CudaTensor α) (d0 d1 : Nat)
    (hmem : dev.mallocOk (d0 * d1) = true) :
    ∃ t', t.ResetTensor dev d0 d1 1 1 = .ok t' ∧ t'.d0 = d0 ∧ t'.d1 = d1 ∧ t'.d2 = 1 ∧
      t'.d3 = 1 ∧ t'.dataSize = d0 * d1 ∧ t'.dataSize ≤ t'.dataGpuSize := by
  unfold CudaTensor.ResetTensor
  by_cases h : t.dataGpuSize < d0 * d1
  · simp [h, hmem]
  · simp [h]
    exact Nat.le_of_not_lt h

/-- The method `FcLayer::Forward` returns when its assertion holds, the launch is accepted and
memory is available; the new state caches `x` and holds the launch result in `_y`. -/
theorem FcLayer_Forward_ok (dev : Device α) (s : FcLayer α) (x : CudaTensor α)
    (hx : x.d0 = s.w.d1) (hlaunch : dev.launchOk x.d1 s.w.d0 = true)
    (hmem : dev.mallocOk (s.w.d0 * x.d1) = true) :
    ∃ y, s.y.ResetTensor dev s.w.d0 x.d1 1 1 = .ok y ∧ y.d0 = s.w.d0 ∧ y.d1 = x.d1 ∧
      s.Forward dev x = .ok { s with
        pX := some x,
        y := { y with dataGpu := (launch x.d1 s.w.d0
          (LinearTransform_Cuda x.dataGpu s.w.dataGpu s.b.dataGpu x.d0 s.w.d0) y.dataGpu) } } := by
  obtain ⟨y, hy, hy0, hy1, -⟩ := ResetTensor_ok dev s.y s.w.d0 x.d1 hmem
  refine ⟨y, hy, hy0, hy1, ?_⟩
  simp [FcLayer.Forward, hx, hy, launchChecked, hlaunch, bind, Except.bind, pure, Except.pure]

/-- The method `FcLayer::Backward` with `layerIndex ≤ 0`: when its assertion holds, an input is
cached and both launches are accepted, it returns the state in which only the device buffers
of `_wG` and `_bG` are rewritten. -/
theorem FcLayer_Backward_nonpos_ok (dev : Device α) (s : FcLayer α) (yG x : CudaTensor α)
    (layerIndex : Int) (hli : layerIndex ≤ 0) (hyG : yG.d0 = s.wG.d0) (hpX : s.pX = some x)
    (hlw : dev.launchOk s.wG.d1 s.wG.d0 = true) (hlb : dev.launchOk 1 s.b.d0 = true) :
    s.Backward dev yG layerIndex = .ok { s with
      wG := { s.wG with dataGpu := (launch s.wG.d1 s.wG.d0
        (ComputeWg_Cuda x.dataGpu yG.dataGpu x.d0 x.d1 s.wG.d0) s.wG.dataGpu) },
      bG := { s.bG with dataGpu := (launch 1 s.b.d0
        (ComputeBg_Cuda yG.dataGpu yG.d1) s.bG.dataGpu) } } := by
  have hli' : ¬ layerIndex > 0 := not_lt.mpr hli
  simp [FcLayer.Backward, hyG, hpX, launchChecked, hlw, hlb, hli', bind, Except.bind, pure,
    Except.pure]

/-- The method `FcLayer::Backward` with `layerIndex > 0`: when both assertions hold, an input
is cached, the three launches are accepted and memory is available, it returns the state in
which `_wG`, `_bG` are rewritten and `_xG` is reset to the input shape and rewritten. -/
theorem FcLayer_Backward_pos_ok (dev : Device α) (s : FcLayer α) (yG x : CudaTensor α)
    (layerIndex : Int) (hli : 0 < layerIndex) (hyG : yG.d0 = s.wG.d0) (hpX : s.pX = some x)
    (hyG1 : yG.d1 = x.d1)
    (hlw : dev.launchOk s.wG.d1 s.wG.d0 = true) (hlb : dev.launchOk 1 s.b.d0 = true)
    (hlx : dev.launchOk x.d1 x.d0 = true) (hmem : dev.mallocOk (x.d0 * x.d1) = true) :
    ∃ xG, s.xG.ResetTensor dev x.d0 x.d1 1 1 = .ok xG ∧ xG.d0 = x.d0 ∧ xG.d1 = x.d1 ∧
      s.Backward dev yG layerIndex = .ok { s with
        wG := { s.wG with dataGpu := (launch s.wG.d1 s.wG.d0
          (ComputeWg_Cuda x.dataGpu yG.dataGpu x.d0 x.d1 s.wG.d0) s.wG.dataGpu) },
        bG := { s.bG with dataGpu := (launch 1 s.b.d0
          (ComputeBg_Cuda yG.dataGpu yG.d1) s.bG.dataGpu) },
        xG := { xG with dataGpu := (launch x.d1 x.d0
          (ComputeXg_Cuda yG.dataGpu s.w.dataGpu yG.d0 s.w.d0 x.d0) xG.dataGpu) } } := by
  obtain ⟨xG, hxG, hx0, hx1, -⟩ := ResetTensor_ok dev s.xG x.d0 x.d1 hmem
  refine ⟨xG, hxG, hx0, hx1, ?_⟩
  have hli' : layerIndex > 0 := hli
  simp [FcLayer.Backward, hyG, hpX, launchChecked, hlw, hlb, hli', hyG1, hxG, hx0, hx1, hlx,
    bind, Except.bind, pure, Except.pure]

/-- The method `SumOfSquaresLayer::Backward` returns when a prediction is cached, the launch is
accepted and memory is available, whatever the shapes of the prediction and of the target:
`_yG` takes the shape of the target and holds the result of the launch. -/
theorem SumOfSquaresLayer_Backward_ok (dev : Device α) (s : SumOfSquaresLayer α)
    (yLabel y : CudaTensor α) (layerIndex : Int) (hpY : s.pY = some y)
    (hl : dev.launchOk yLabel.d1 yLabel.d0 = true)
    (hmem : dev.mallocOk (yLabel.d0 * yLabel.d1) = true) :
    ∃ yG, s.yG.ResetTensor dev yLabel.d0 yLabel.d1 1 1 = .ok yG ∧ yG.d0 = yLabel.d0 ∧
      yG.d1 = yLabel.d1 ∧
      s.Backward dev yLabel layerIndex = .ok { s with
        yG := { yG with dataGpu := (launch yLabel.d1 yLabel.d0
          (ComputeSumOfSquresGradient y.dataGpu yLabel.dataGpu yLabel.d0) yG.dataGpu) } } := by
  obtain ⟨yG, hyG, h0, h1, -⟩ := ResetTensor_ok dev s.yG yLabel.d0 yLabel.d1 hmem
  refine ⟨yG, hyG, h0, h1, ?_⟩
  simp [SumOfSquaresLayer.Backward, hyG, hpY, h0, h1, hl, launchChecked, bind, Except.bind, pure,
    Except.pure]

/-- The method `SoftmaxLayer::Forward` returns when the launch of its grid is accepted and memory
is available; `_lossG` holds the result of pass 1 and `_softmax` the result of pass 2. -/
theorem SoftmaxLayer_Forward_ok (dev : Device α) (exp : α → α) (s : SoftmaxLayer α)
    (x : CudaTensor α)
    (hlaunch : dev.launchOk ((x.d1 + SoftmaxLayer.Forward.kThreadPerBlock - 1) /
        SoftmaxLayer.Forward.kThreadPerBlock) SoftmaxLayer.Forward.kThreadPerBlock = true)
    (hmem : dev.mallocOk (x.d0 * x.d1) = true) :
    ∃ softmax lossG, s.softmax.ResetTensor dev x.d0 x.d1 1 1 = .ok softmax ∧
      s.lossG.ResetTensor dev x.d0 x.d1 1 1 = .ok lossG ∧
      softmax.d0 = x.d0 ∧ softmax.d1 = x.d1 ∧ lossG.d0 = x.d0 ∧ lossG.d1 = x.d1 ∧
      s.Forward dev exp x = .ok
        { softmax := { softmax with dataGpu :=
            (launch ((x.d1 + SoftmaxLayer.Forward.kThreadPerBlock - 1) /
                SoftmaxLayer.Forward.kThreadPerBlock) SoftmaxLayer.Forward.kThreadPerBlock
              (ForwardSoftmax_Step2_Cuda exp
                (launch ((x.d1 + SoftmaxLayer.Forward.kThreadPerBlock - 1) /
                    SoftmaxLayer.Forward.kThreadPerBlock) SoftmaxLayer.Forward.kThreadPerBlock
                  (ForwardSoftmax_Step1_Cuda exp x.dataGpu x.d1 x.d0) lossG.dataGpu)
                x.dataGpu x.d1 x.d0) softmax.dataGpu) },
          lossG := { lossG with dataGpu :=
            (launch ((x.d1 + SoftmaxLayer.Forward.kThreadPerBlock - 1) /
                SoftmaxLayer.Forward.kThreadPerBlock) SoftmaxLayer.Forward.kThreadPerBlock
              (ForwardSoftmax_Step1_Cuda exp x.dataGpu x.d1 x.d0) lossG.dataGpu) } } := by
  obtain ⟨sm, hsm, hsm0, hsm1, -⟩ := ResetTensor_ok dev s.softmax x.d0 x.d1 hmem
  obtain ⟨lg, hlg, hlg0, hlg1, -⟩ := ResetTensor_ok dev s.lossG x.d0 x.d1 hmem
  refine ⟨sm, lg, hsm, hlg, hsm0, hsm1, hlg0, hlg1, ?_⟩
  simp [SoftmaxLayer.Forward, hsm, hlg, launchChecked, hlaunch, bind, Except.bind, pure,
    Except.pure]

/-- The row sum of the two-pass softmax: with `S = Σ_col exp(x[row,col])`, the entries
`exp(x[row,col]) / (1e-8 + S)` add up to `S / (1e-8 + S)`. -/
theorem softmax_row_sum (exp : α → α) (x : Nat → α) (nCol row : Nat) :
    ∑ col in Finset.range nCol, exp (x (col + row * nCol)) /
        (1e-8 + ∑ i in Finset.range nCol, exp (x (i + row * nCol))) =
      (∑ i in Finset.range nCol, exp (x (i + row * nCol))) /
        (1e-8 + ∑ i in Finset.range nCol, exp (x (i + row * nCol))) := by
  rw [Finset.sum_div]

/-- The distance of `S / (1e-8 + S)` from 1 is at most `1e-6` exactly when `S ≥ 0.00999999`. -/
theorem softmax_deviation_iff (S : α) (hS : 0 ≤ S) :
    |S / (1e-8 + S) - 1| ≤ 1e-6 ↔ 0.00999999 ≤ S := by
  have hpos : (0 : α) < 1e-8 + S := by
    have h : (0 : α) < 1e-8 := by norm_num
    linarith
  have hval : S / (1e-8 + S) - 1 = -(1e-8 / (1e-8 + S)) := by
    field_simp
  rw [hval, abs_neg, abs_of_pos (div_pos (by norm_num) hpos), div_le_iff₀ hpos]
  constructor
  · intro h
    norm_num at h ⊢
    linarith
  · intro h
    norm_num at h ⊢
    linarith

/-- The cells written by `SoftmaxLayer::Forward`: when it returns, the entry of row `row` and
column `col` of `_softmax` is `exp(x[row,col]) / (1e-8 + Σ_i exp(x[row,i]))`. -/
theorem SoftmaxLayer_Forward_cells (dev : Device α) (exp : α → α) (s : SoftmaxLayer α)
    (x : CudaTensor α) (hcol : 0 < x.d0)
    (hlaunch : dev.launchOk ((x.d1 + SoftmaxLayer.Forward.kThreadPerBlock - 1) /
        SoftmaxLayer.Forward.kThreadPerBlock) SoftmaxLayer.Forward.kThreadPerBlock = true)
    (hmem : dev.mallocOk (x.d0 * x.d1) = true) :
    ∃ s', s.Forward dev exp x = .ok s' ∧ s'.softmax.d0 = x.d0 ∧ s'.softmax.d1 = x.d1 ∧
      s'.lossG.d0 = x.d0 ∧ s'.lossG.d1 = x.d1 ∧
      ∀ row col, row < x.d1 → col < x.d0 →
        s'.softmax.dataGpu (col + row * x.d0) =
          exp (x.dataGpu (col + row * x.d0)) /
            (1e-8 + ∑ i in Finset.range x.d0, exp (x.dataGpu (i + row * x.d0))) := by
  obtain ⟨sm, lg, -, -, hsm0, hsm1, hlg0, hlg1, hF⟩ :=
    SoftmaxLayer_Forward_ok dev exp s x hlaunch hmem
  refine ⟨_, hF, hsm0, hsm1, hlg0, hlg1, ?_⟩
  intro row col hrow hc
  show launch _ _ (ForwardSoftmax_Step2_Cuda exp _ x.dataGpu x.d1 x.d0) sm.dataGpu
    (col + row * x.d0) = _
  rw [launch_ForwardSoftmax_Step2 exp _ x.dataGpu sm.dataGpu x.d1 x.d0 row col hrow hc,
    launch_ForwardSoftmax_Step1 exp x.dataGpu lg.dataGpu x.d1 x.d0 row hrow hcol]

end LayerLemmas

/-! ## Affine transform -/

section Affine

variable {α : Type} [LinearOrderedField α]

/-- C1 (as amended): for a layer whose weight tensor has `d0 = outDim` and `d1 = inDim` and an
input of shape batch × inDim, `FcLayer::Forward` returns an output of shape batch × outDim
with `y[row,col] = Σ_{i<inDim} x[row,i] * w[i,col] + b[col]`, where `w[i,col]` is the weight
element at flat offset `col + i * outDim`: the weight is an inDim × outDim matrix whose column
index is the output index. -/
theorem FcLayer_Forward_affine (dev : Device α) (s : FcLayer α) (x : CudaTensor α)
    (inDim outDim batch : Nat) (hw0 : s.w.d0 = outDim) (hw1 : s.w.d1 = inDim)
    (hx0 : x.d0 = inDim) (hx1 : x.d1 = batch) (hlaunch : dev.launchOk batch outDim = true)
    (hmem : dev.mallocOk (outDim * batch) = true) :
    ∃ s', s.Forward dev x = .ok s' ∧ s'.y.d0 = outDim ∧ s'.y.d1 = batch ∧
      ∀ row col, row < batch → col < outDim →
        s'.y.dataGpu (col + row * outDim) =
          (∑ i in Finset.range inDim, x.dataGpu (i + row * inDim) * s.w.dataGpu (col + i * outDim))
            + s.b.dataGpu col := by
  subst hw0 hw1 hx1
  obtain ⟨y, -, hy0, hy1, hF⟩ := FcLayer_Forward_ok dev s x hx0 hlaunch hmem
  refine ⟨_, hF, hy0, hy1, ?_⟩
  intro row col hrow hcol
  simp only [hx0]
  exact launch_LinearTransform _ _ _ _ _ _ _ row col hrow hcol

/-- C1 witness: a 2 × 2 layer applied to a batch of one row. -/
theorem FcLayer_Forward_affine_witness :
    ∃ s', (FcLayer.ofLists 2 2 [1, 2, 3, 4] [0, 0] : FcLayer ℚ).Forward Device.reference
        (CudaTensor.ofList 2 1 [1, 0]) = .ok s' ∧ s'.y.d0 = 2 ∧ s'.y.d1 = 1 ∧
      ∀ row col, row < 1 → col < 2 →
        s'.y.dataGpu (col + row * 2) =
          (∑ i in Finset.range 2, (CudaTensor.ofList 2 1 [1, 0] : CudaTensor ℚ).dataGpu (i + row * 2) *
            (FcLayer.ofLists 2 2 [1, 2, 3, 4] [0, 0] : FcLayer ℚ).w.dataGpu (col + i * 2))
            + (FcLayer.ofLists 2 2 [1, 2, 3, 4] [0, 0] : FcLayer ℚ).b.dataGpu col :=
  FcLayer_Forward_affine Device.reference _ _ 2 2 1 rfl rfl rfl rfl (by decide) rfl

/-- C1 counterexample: with weights `[1, 2, 3, 4]` (inDim = outDim = 2), zero biases and the
input row `[1, 0]`, `FcLayer::Forward` writes `y[0,1] = 2`, while the sum that reads the weight
at offset `i + col * inDim` gives `3`. -/
theorem FcLayer_Forward_affine_counterexample :
    ∃ s', (FcLayer.ofLists 2 2 [1, 2, 3, 4] [0, 0] : FcLayer ℚ).Forward Device.reference
        (CudaTensor.ofList 2 1 [1, 0]) = .ok s' ∧ s'.y.dataGpu (1 + 0 * 2) = 2 ∧
      (∑ i in Finset.range 2, (CudaTensor.ofList 2 1 [1, 0] : CudaTensor ℚ).dataGpu (i + 0 * 2) *
          (FcLayer.ofLists 2 2 [1, 2, 3, 4] [0, 0] : FcLayer ℚ).w.dataGpu (i + 1 * 2))
        + (FcLayer.ofLists 2 2 [1, 2, 3, 4] [0, 0] : FcLayer ℚ).b.dataGpu 1 = 3 := by
  obtain ⟨y, -, -, -, hF⟩ := FcLayer_Forward_ok Device.reference
    (FcLayer.ofLists 2 2 [1, 2, 3, 4] [0, 0] : FcLayer ℚ) (CudaTensor.ofList 2 1 [1, 0])
    rfl (by decide) rfl
  refine ⟨_, hF, ?_, ?_⟩
  · have h := launch_LinearTransform (CudaTensor.ofList 2 1 [1, 0] : CudaTensor ℚ).dataGpu
      (FcLayer.ofLists 2 2 [1, 2, 3, 4] [0, 0] : FcLayer ℚ).w.dataGpu
      (FcLayer.ofLists 2 2 [1, 2, 3, 4] [0, 0] : FcLayer ℚ).b.dataGpu y.dataGpu 2 2 1 0 1
      (by decide) (by decide)
    norm_num [Finset.sum_range_succ, CudaTensor.ofList, FcLayer.ofLists] at h
    exact h
  · norm_num [Finset.sum_range_succ, CudaTensor.ofList, FcLayer.ofLists]

end Affine

/-! ## Gradients of the fully-connected layer -/

section Gradients

variable {α : Type} [LinearOrderedField α]

/-- C2 (failing input): a layer with outDim = 3 runs `Forward` on a batch of 2 rows and then
`Backward` on the upstream gradient with rows `[1, 2, 3]` and `[4, 5, 6]`.  The column sum
`Σ_row yG[row,0]` is `1 + 4 = 5`, but `ComputeBg_Cuda` strides by `nYgRow = 2` instead of the row
width 3 and leaves `bG[0] = yG[0] + yG[2] = 4`. -/
theorem FcLayer_Backward_bias_gradient_failing_input :
    ∃ s1 s2, (FcLayer.ofLists 1 3 [1, 1, 1] [0, 0, 0] : FcLayer ℚ).Forward Device.reference
        (CudaTensor.ofList 1 2 [1, 1]) = .ok s1 ∧
      s1.Backward Device.reference (CudaTensor.ofList 3 2 [1, 2, 3, 4, 5, 6]) 0 = .ok s2 ∧
      s2.bG.dataGpu 0 = 4 ∧
      ∑ row in Finset.range 2,
        (CudaTensor.ofList 3 2 [1, 2, 3, 4, 5, 6] : CudaTensor ℚ).dataGpu (0 + row * 3) = 5 := by
  obtain ⟨y, -, -, -, hF⟩ := FcLayer_Forward_ok Device.reference
    (FcLayer.ofLists 1 3 [1, 1, 1] [0, 0, 0] : FcLayer ℚ) (CudaTensor.ofList 1 2 [1, 1])
    rfl (by decide) rfl
  refine ⟨_, _, hF, FcLayer_Backward_nonpos_ok Device.reference _
    (CudaTensor.ofList 3 2 [1, 2, 3, 4, 5, 6]) (CudaTensor.ofList 1 2 [1, 1]) 0 (le_refl 0)
    rfl rfl rfl rfl, ?_, ?_⟩
  · have h := launch_ComputeBg (CudaTensor.ofList 3 2 [1, 2, 3, 4, 5, 6] : CudaTensor ℚ).dataGpu
      (FcLayer.ofLists 1 3 [1, 1, 1] [0, 0, 0] : FcLayer ℚ).bG.dataGpu 2 3 0 (by decide)
    norm_num [Finset.sum_range_succ, CudaTensor.ofList] at h
    exact h
  · norm_num [Finset.sum_range_succ, CudaTensor.ofList]

/-- C3: for a cached input `x` (batch × inDim) and an upstream gradient `yG` (batch × outDim),
`FcLayer::Backward` returns with `wG` of the shape of the weight tensor and, for `r < inDim`
and `c < outDim`, `wG` at flat offset `c + r * outDim` equal to `Σ_{i<batch} x[i,r] * yG[i,c]`;
that offset of the weight buffer is the weight that `LinearTransform_Cuda` multiplies input
feature `r` by when it produces output `c`. -/
theorem FcLayer_Backward_weight_gradient (dev : Device α) (s : FcLayer α) (yG x : CudaTensor α)
    (layerIndex : Int) (inDim outDim batch : Nat)
    (hw0 : s.w.d0 = outDim) (hw1 : s.w.d1 = inDim)
    (hwG0 : s.wG.d0 = outDim) (hwG1 : s.wG.d1 = inDim)
    (hpX : s.pX = some x) (hx0 : x.d0 = inDim) (hx1 : x.d1 = batch)
    (hyG0 : yG.d0 = outDim) (hyG1 : yG.d1 = batch)
    (hlw : dev.launchOk inDim outDim = true) (hlb : dev.launchOk 1 s.b.d0 = true)
    (hpos : 0 < layerIndex →
      dev.launchOk batch inDim = true ∧ dev.mallocOk (inDim * batch) = true) :
    ∃ s', s.Backward dev yG layerIndex = .ok s' ∧ s'.wG.d0 = s.w.d0 ∧ s'.wG.d1 = s.w.d1 ∧
      (∀ r c, r < inDim → c < outDim →
        s'.wG.dataGpu (c + r * outDim) =
          ∑ i in Finset.range batch, x.dataGpu (r + i * inDim) * yG.dataGpu (c + i * outDim)) ∧
      (∀ r c, r < inDim → c < outDim →
        ∀ (δ : α) (x' b y : Nat → α) (rows row col : Nat), row < rows → col < outDim →
          launch rows outDim (LinearTransform_Cuda x'
              (Function.update s.w.dataGpu (c + r * outDim) (s.w.dataGpu (c + r * outDim) + δ))
              b inDim outDim) y (col + row * outDim) =
            launch rows outDim (LinearTransform_Cuda x' s.w.dataGpu b inDim outDim) y
                (col + row * outDim) +
              (if col = c then x' (r + row * inDim) * δ else 0)) := by
  subst hx0 hx1 hwG0
  have hcell : ∀ r c, r < x.d0 → c < s.wG.d0 →
      launch s.wG.d1 s.wG.d0 (ComputeWg_Cuda x.dataGpu yG.dataGpu x.d0 x.d1 s.wG.d0)
          s.wG.dataGpu (c + r * s.wG.d0) =
        ∑ i in Finset.range x.d1, x.dataGpu (r + i * x.d0) * yG.dataGpu (c + i * s.wG.d0) :=
    fun r c hr hc => launch_ComputeWg _ _ _ _ _ _ _ r c (hwG1 ▸ hr) hc
  have hfw : ∀ r c, r < x.d0 → c < s.wG.d0 →
      ∀ (δ : α) (x' b y : Nat → α) (rows row col : Nat), row < rows → col < s.wG.d0 →
        launch rows s.wG.d0 (LinearTransform_Cuda x'
            (Function.update s.w.dataGpu (c + r * s.wG.d0) (s.w.dataGpu (c + r * s.wG.d0) + δ))
            b x.d0 s.wG.d0) y (col + row * s.wG.d0) =
          launch rows s.wG.d0 (LinearTransform_Cuda x' s.w.dataGpu b x.d0 s.wG.d0) y
              (col + row * s.wG.d0) +
            (if col = c then x' (r + row * x.d0) * δ else 0) :=
    fun r c hr hc δ x' b y rows row col hrow hcol =>
      launch_LinearTransform_weight_cell x' s.w.dataGpu b y x.d0 s.wG.d0 rows r c hr hc δ row col
        hrow hcol
  rcases le_or_lt layerIndex 0 with hli | hli
  · exact ⟨_, FcLayer_Backward_nonpos_ok dev s yG x layerIndex hli hyG0 hpX (by rw [hwG1]; exact hlw)
      hlb, hw0.symm, hwG1.trans hw1.symm, hcell, hfw⟩
  · obtain ⟨hlx, hmem⟩ := hpos hli
    obtain ⟨xG, -, -, -, hB⟩ := FcLayer_Backward_pos_ok dev s yG x layerIndex hli hyG0 hpX hyG1
      (by rw [hwG1]; exact hlw) hlb hlx hmem
    exact ⟨_, hB, hw0.symm, hwG1.trans hw1.symm, hcell, hfw⟩

/-- C3 witness: the 2 × 2 example layer, one cached row, `layerIndex = 1`. -/
theorem FcLayer_Backward_weight_gradient_witness :
    ∃ s', exampleFc.Backward Device.reference exampleYG 1 = .ok s' ∧
      s'.wG.d0 = exampleFc.w.d0 ∧ s'.wG.d1 = exampleFc.w.d1 ∧
      ∀ r c, r < 2 → c < 2 →
        s'.wG.dataGpu (c + r * 2) =
          ∑ i in Finset.range 1, (CudaTensor.ofList 2 1 [1, 0] : CudaTensor ℚ).dataGpu (r + i * 2) *
            exampleYG.dataGpu (c + i * 2) :=
  let ⟨s', h1, h2, h3, h4, _⟩ := FcLayer_Backward_weight_gradient Device.reference exampleFc
    exampleYG (CudaTensor.ofList 2 1 [1, 0]) 1 2 2 1 rfl rfl rfl rfl rfl rfl rfl rfl rfl rfl rfl
    (fun _ => ⟨rfl, rfl⟩)
  ⟨s', h1, h2, h3, h4⟩

/-- C4: for `layerIndex > 0`, a cached input of shape batch × inDim and an upstream gradient of
shape batch × outDim, `FcLayer::Backward` resizes `xG` to `d0 = inDim`, `d1 = batch` and sets
`xG[row,k] = Σ_{c<outDim} yG[row,c] * W[k,c]`, where `W[k,c]`, the weight at flat offset
`c + k * outDim`, is the weight that the forward launch multiplies input feature `k` by to
produce output `c`. -/
theorem FcLayer_Backward_input_gradient (dev : Device α) (s : FcLayer α) (yG x : CudaTensor α)
    (layerIndex : Int) (inDim outDim batch : Nat) (hli : 0 < layerIndex)
    (hw0 : s.w.d0 = outDim) (hwG0 : s.wG.d0 = outDim)
    (hpX : s.pX = some x) (hx0 : x.d0 = inDim) (hx1 : x.d1 = batch)
    (hyG0 : yG.d0 = outDim) (hyG1 : yG.d1 = batch)
    (hlw : dev.launchOk s.wG.d1 outDim = true) (hlb : dev.launchOk 1 s.b.d0 = true)
    (hlx : dev.launchOk batch inDim = true) (hmem : dev.mallocOk (inDim * batch) = true) :
    ∃ s', s.Backward dev yG layerIndex = .ok s' ∧ s'.xG.d0 = inDim ∧ s'.xG.d1 = batch ∧
      (∀ row k, row < batch → k < inDim →
        s'.xG.dataGpu (k + row * inDim) =
          ∑ c in Finset.range outDim,
            yG.dataGpu (c + row * outDim) * s.w.dataGpu (c + k * outDim)) ∧
      (∀ k c, k < inDim → c < outDim →
        ∀ (δ : α) (x' b y : Nat → α) (rows row col : Nat), row < rows → col < outDim →
          launch rows outDim (LinearTransform_Cuda x'
              (Function.update s.w.dataGpu (c + k * outDim) (s.w.dataGpu (c + k * outDim) + δ))
              b inDim outDim) y (col + row * outDim) =
            launch rows outDim (LinearTransform_Cuda x' s.w.dataGpu b inDim outDim) y
                (col + row * outDim) +
              (if col = c then x' (k + row * inDim) * δ else 0)) := by
  subst hx0 hx1 hw0
  obtain ⟨xG, -, hxG0, hxG1, hB⟩ := FcLayer_Backward_pos_ok dev s yG x layerIndex hli
    (hyG0.trans hwG0.symm) hpX hyG1 (by rw [hwG0]; exact hlw) hlb hlx hmem
  refine ⟨_, hB, hxG0, hxG1, ?_, ?_⟩
  · intro row k hrow hk
    have h := launch_ComputeXg yG.dataGpu s.w.dataGpu xG.dataGpu yG.d0 s.w.d0 x.d0 x.d1 row k
      hrow hk
    show launch x.d1 x.d0 (ComputeXg_Cuda yG.dataGpu s.w.dataGpu yG.d0 s.w.d0 x.d0) xG.dataGpu
      (k + row * x.d0) = _
    rw [h, hyG0]
  · intro k c hk hc δ x' b y rows row col hrow hcol
    exact launch_LinearTransform_weight_cell x' s.w.dataGpu b y x.d0 s.w.d0 rows k c hk hc δ
      row col hrow hcol

/-- C4 witness: the 2 × 2 example layer, one cached row, `layerIndex = 1`. -/
theorem FcLayer_Backward_input_gradient_witness :
    ∃ s', exampleFc.Backward Device.reference exampleYG 1 = .ok s' ∧
      s'.xG.d0 = 2 ∧ s'.xG.d1 = 1 ∧
      ∀ row k, row < 1 → k < 2 →
        s'.xG.dataGpu (k + row * 2) =
          ∑ c in Finset.range 2, exampleYG.dataGpu (c + row * 2) * exampleFc.w.dataGpu (c + k * 2) :=
  let ⟨s', h1, h2, h3, h4, _⟩ := FcLayer_Backward_input_gradient Device.reference exampleFc
    exampleYG (CudaTensor.ofList 2 1 [1, 0]) 1 2 2 1 Int.one_pos rfl rfl rfl rfl rfl rfl rfl rfl
    rfl rfl rfl
  ⟨s', h1, h2, h3, h4⟩

end Gradients

/-! ## Softmax -/

section Softmax

variable {α : Type} [LinearOrderedField α]

/-- C6 (as amended): in exact arithmetic with a positive `exp`, for an input of `nRow` rows and
`nCol ≥ 1` columns `SoftmaxLayer::Forward` returns with
`softmax[row,col] = exp(x[row,col]) / (1e-8 + Σ_i exp(x[row,i]))`, and the row sum is within
`1e-6` of 1 exactly for the rows with `Σ_col exp(x[row,col]) ≥ 0.00999999`. -/
theorem SoftmaxLayer_Forward_row_sum (dev : Device α) (exp : α → α) (hexp : ∀ v, 0 < exp v)
    (s : SoftmaxLayer α) (x : CudaTensor α) (nRow nCol : Nat) (hx0 : x.d0 = nCol)
    (hx1 : x.d1 = nRow) (hcol : 1 ≤ nCol)
    (hlaunch : dev.launchOk ((nRow + SoftmaxLayer.Forward.kThreadPerBlock - 1) /
        SoftmaxLayer.Forward.kThreadPerBlock) SoftmaxLayer.Forward.kThreadPerBlock = true)
    (hmem : dev.mallocOk (nCol * nRow) = true) :
    ∃ s', s.Forward dev exp x = .ok s' ∧ ∀ row, row < nRow →
      (∀ col, col < nCol →
        s'.softmax.dataGpu (col + row * nCol) =
          exp (x.dataGpu (col + row * nCol)) /
            (1e-8 + ∑ i in Finset.range nCol, exp (x.dataGpu (i + row * nCol)))) ∧
      (|(∑ col in Finset.range nCol, s'.softmax.dataGpu (col + row * nCol)) - 1| ≤ 1e-6 ↔
        0.00999999 ≤ ∑ col in Finset.range nCol, exp (x.dataGpu (col + row * nCol))) := by
  subst hx0 hx1
  obtain ⟨s', hF, -, -, -, -, hcells⟩ := SoftmaxLayer_Forward_cells dev exp s x hcol hlaunch hmem
  refine ⟨s', hF, ?_⟩
  intro row hrow
  refine ⟨fun col hc => hcells row col hrow hc, ?_⟩
  rw [Finset.sum_congr rfl (fun col hc => hcells row col hrow (Finset.mem_range.mp hc)),
    softmax_row_sum]
  exact softmax_deviation_iff _ (Finset.sum_nonneg (fun i _ => le_of_lt (hexp _)))

/-- C6 witness: the row `[0, 0]` with the real exponential; its row sum is within `1e-6` of 1. -/
theorem SoftmaxLayer_Forward_row_sum_witness :
    ∃ s', ({ softmax := CudaTensor.empty, lossG := CudaTensor.empty } : SoftmaxLayer ℝ).Forward
        Device.reference Real.exp (CudaTensor.ofList 2 1 [0, 0]) = .ok s' ∧
      |(∑ col in Finset.range 2, s'.softmax.dataGpu (col + 0 * 2)) - 1| ≤ 1e-6 := by
  obtain ⟨s', hF, h⟩ := SoftmaxLayer_Forward_row_sum (Device.reference : Device ℝ) Real.exp
    Real.exp_pos { softmax := CudaTensor.empty, lossG := CudaTensor.empty }
    (CudaTensor.ofList 2 1 [0, 0]) 1 2 rfl rfl (by decide) rfl rfl
  refine ⟨s', hF, (h 0 Nat.zero_lt_one).2.mpr ?_⟩
  norm_num [Finset.sum_range_succ, CudaTensor.ofList]

/-- C6 counterexample: for the single row `[-10, -10]` and the real exponential,
`SoftmaxLayer::Forward` returns a row whose sum is farther than `1e-6` from 1. -/
theorem SoftmaxLayer_Forward_row_sum_counterexample :
    ∃ s', ({ softmax := CudaTensor.empty, lossG := CudaTensor.empty } : SoftmaxLayer ℝ).Forward
        Device.reference Real.exp (CudaTensor.ofList 2 1 [-10, -10]) = .ok s' ∧
      ¬ |(∑ col in Finset.range 2, s'.softmax.dataGpu (col + 0 * 2)) - 1| ≤ 1e-6 := by
  obtain ⟨s', hF, -, -, -, -, hcells⟩ := SoftmaxLayer_Forward_cells (Device.reference : Device ℝ)
    Real.exp { softmax := CudaTensor.empty, lossG := CudaTensor.empty }
    (CudaTensor.ofList 2 1 [-10, -10]) (by decide)
    (by simp [Device.reference, CudaTensor.ofList, SoftmaxLayer.Forward.kThreadPerBlock]) rfl
  refine ⟨s', hF, ?_⟩
  have hrow : ∑ col in Finset.range 2, s'.softmax.dataGpu (col + 0 * 2) =
      (∑ i in Finset.range 2,
        Real.exp ((CudaTensor.ofList 2 1 [-10, -10] : CudaTensor ℝ).dataGpu (i + 0 * 2))) /
      (1e-8 + ∑ i in Finset.range 2,
        Real.exp ((CudaTensor.ofList 2 1 [-10, -10] : CudaTensor ℝ).dataGpu (i + 0 * 2))) := by
    rw [← softmax_row_sum]
    exact Finset.sum_congr rfl
      (fun col hc => hcells 0 col Nat.zero_lt_one (Finset.mem_range.mp hc))
  rw [hrow, softmax_deviation_iff _
    (Finset.sum_nonneg (fun i _ => le_of_lt (Real.exp_pos _)))]
  have h1 : (2 : ℝ) < Real.exp 1 := lt_trans (by norm_num) Real.exp_one_gt_d9
  have h10 : Real.exp 10 = Real.exp 1 ^ 10 := by
    rw [← Real.exp_nat_mul]
    norm_num
  have hbig : (1024 : ℝ) < Real.exp 10 := by
    rw [h10]
    calc (1024 : ℝ) = 2 ^ 10 := by norm_num
      _ < Real.exp 1 ^ 10 := pow_lt_pow_left₀ h1 (by norm_num) (by norm_num)
  have hsmall : Real.exp (-10) < 1 / 1024 := by
    rw [Real.exp_neg, inv_eq_one_div]
    exact one_div_lt_one_div_of_lt (by norm_num) hbig
  norm_num [Finset.sum_range_succ, CudaTensor.ofList]
  linarith

/-- C7: for a softmax layer of shape batch × nCol and a label tensor that holds one class
index `label[row] < nCol` per row, `SoftmaxLayer::Backward` returns with
`lossG[row,col] = softmax[row,col] - 1` when `col = label[row]` and
`lossG[row,col] = softmax[row,col]` otherwise; exactly one entry of every row differs from the
softmax output. -/
theorem SoftmaxLayer_Backward_gradient [FloorRing α] (dev : Device α) (s : SoftmaxLayer α)
    (yG : CudaTensor α) (layerIndex : Int) (batch nCol : Nat) (label : Nat → Nat)
    (hl0 : s.lossG.d0 = nCol) (hl1 : s.lossG.d1 = batch) (hyG : yG.d0 = batch)
    (hlabel : ∀ row, row < batch → yG.dataGpu row = (label row : α) ∧ label row < nCol)
    (hlaunch : dev.launchOk batch nCol = true) :
    ∃ s', s.Backward dev yG layerIndex = .ok s' ∧ s'.softmax = s.softmax ∧
      ∀ row, row < batch →
        (∀ col, col < nCol →
          s'.lossG.dataGpu (col + row * nCol) =
            if col = label row then s.softmax.dataGpu (col + row * nCol) - 1
            else s.softmax.dataGpu (col + row * nCol)) ∧
        (∃! col, col < nCol ∧
          s'.lossG.dataGpu (col + row * nCol) ≠ s.softmax.dataGpu (col + row * nCol)) := by
  subst hl0 hl1
  have hB : s.Backward dev yG layerIndex = .ok { s with
      lossG := { s.lossG with dataGpu := (launch s.lossG.d1 s.lossG.d0
        (SoftmaxBackward_Cuda s.softmax.dataGpu yG.dataGpu s.lossG.d0) s.lossG.dataGpu) } } := by
    simp [SoftmaxLayer.Backward, hyG, launchChecked, hlaunch, bind, Except.bind, pure,
      Except.pure]
  have hcell : ∀ row, row < s.lossG.d1 → ∀ col, col < s.lossG.d0 →
      launch s.lossG.d1 s.lossG.d0
          (SoftmaxBackward_Cuda s.softmax.dataGpu yG.dataGpu s.lossG.d0) s.lossG.dataGpu
          (col + row * s.lossG.d0) =
        if col = label row then s.softmax.dataGpu (col + row * s.lossG.d0) - 1
        else s.softmax.dataGpu (col + row * s.lossG.d0) := by
    intro row hrow col hc
    rw [launch_SoftmaxBackward _ _ _ _ _ row col hrow hc, (hlabel row hrow).1, castInt_natCast]
    by_cases h : col = label row
    · simp [h]
    · have h' : ¬ ((label row : Int) = (col : Int)) := fun e => h (Int.ofNat.inj e).symm
      simp [h, h']
  refine ⟨_, hB, rfl, ?_⟩
  intro row hrow
  refine ⟨hcell row hrow, label row, ⟨(hlabel row hrow).2, ?_⟩, ?_⟩
  · intro heq
    have h := hcell row hrow _ (hlabel row hrow).2
    rw [if_pos rfl] at h
    have h' := h.symm.trans heq
    linarith
  · rintro col ⟨hc, hne⟩
    by_contra hcol
    have h := hcell row hrow col hc
    rw [if_neg hcol] at h
    exact hne h

/-- C7 witness: two rows of three classes with labels 2 and 0. -/
theorem SoftmaxLayer_Backward_gradient_witness :
    ∃ s', ({ softmax := CudaTensor.ofList 3 2 [1/2, 1/4, 1/4, 1/3, 1/3, 1/3],
             lossG := CudaTensor.ofList 3 2 [] } : SoftmaxLayer ℚ).Backward Device.reference
        (CudaTensor.ofList 2 1 [2, 0]) 1 = .ok s' ∧
      s'.lossG.dataGpu (2 + 0 * 3) = 1/4 - 1 ∧ s'.lossG.dataGpu (0 + 1 * 3) = 1/3 - 1 ∧
      s'.lossG.dataGpu (1 + 0 * 3) = 1/4 := by
  obtain ⟨s', hB, -, h⟩ := SoftmaxLayer_Backward_gradient (Device.reference : Device ℚ)
    { softmax := CudaTensor.ofList 3 2 [1/2, 1/4, 1/4, 1/3, 1/3, 1/3],
      lossG := CudaTensor.ofList 3 2 [] }
    (CudaTensor.ofList 2 1 [2, 0]) 1 2 3 (fun row => if row = 0 then 2 else 0) rfl rfl rfl
    (by
      intro row hrow
      interval_cases row <;> simp [CudaTensor.ofList])
    rfl
  refine ⟨s', hB, ?_, ?_, ?_⟩
  · rw [(h 0 (by decide)).1 2 (by decide)]
    simp [CudaTensor.ofList]
  · rw [(h 1 (by decide)).1 0 (by decide)]
    simp [CudaTensor.ofList]
  · rw [(h 0 (by decide)).1 1 (by decide)]
    simp [CudaTensor.ofList]

end Softmax

/-! ## Gradient of the rectifier -/

section Relu

variable {α : Type} [LinearOrderedField α]

/-- C8 (as amended): for an original input `x ≥ 1e-32` the launch of `ReluG_Cuda` leaves the
upstream gradient unchanged; for `0 < x < 1e-32` it multiplies it by `1e-32 / x`. -/
theorem ReluG_Cuda_positive (x : Nat → α) (xG : Nat → Option α) (nCol blocks r c : Nat)
    (hr : r < blocks) (hc : c < nCol) :
    (1e-32 ≤ x (c + r * nCol) →
      launch blocks nCol (ReluG_Cuda x nCol) xG (c + r * nCol) = xG (c + r * nCol)) ∧
    (0 < x (c + r * nCol) → x (c + r * nCol) < 1e-32 →
      launch blocks nCol (ReluG_Cuda x nCol) xG (c + r * nCol) =
        (xG (c + r * nCol)).map (fun g => g * (1e-32 / x (c + r * nCol)))) := by
  rw [launch_ReluG x xG nCol blocks r c hr hc]
  constructor
  · intro hx
    have hpos : (0 : α) < x (c + r * nCol) := lt_of_lt_of_le (by norm_num) hx
    rw [if_neg (ne_of_gt hpos), max_eq_left hx, div_self (ne_of_gt hpos)]
    simp
  · intro hpos hx
    rw [if_neg (ne_of_gt hpos), max_eq_right (le_of_lt hx)]

/-- C8 witness: the gradient `5` of the input `3` is returned unchanged. -/
theorem ReluG_Cuda_positive_witness :
    launch 1 2 (ReluG_Cuda (CudaTensor.ofList 2 1 [3, 1e-33] : CudaTensor ℚ).dataGpu 2)
        (fun i => some ((CudaTensor.ofList 2 1 [5, 7] : CudaTensor ℚ).dataGpu i)) (0 + 0 * 2) =
      some ((CudaTensor.ofList 2 1 [5, 7] : CudaTensor ℚ).dataGpu (0 + 0 * 2)) :=
  (ReluG_Cuda_positive (CudaTensor.ofList 2 1 [3, 1e-33] : CudaTensor ℚ).dataGpu
    (fun i => some ((CudaTensor.ofList 2 1 [5, 7] : CudaTensor ℚ).dataGpu i)) 2 1 0 0
    (by decide) (by decide)).1 (by norm_num [CudaTensor.ofList])

/-- C8 counterexample: the input `1e-33` is strictly positive, its upstream gradient is `7`, and
the launch of `ReluG_Cuda` returns `70`. -/
theorem ReluG_Cuda_positive_counterexample :
    0 < (CudaTensor.ofList 2 1 [3, 1e-33] : CudaTensor ℚ).dataGpu (1 + 0 * 2) ∧
      (CudaTensor.ofList 2 1 [5, 7] : CudaTensor ℚ).dataGpu (1 + 0 * 2) = 7 ∧
      launch 1 2 (ReluG_Cuda (CudaTensor.ofList 2 1 [3, 1e-33] : CudaTensor ℚ).dataGpu 2)
        (fun i => some ((CudaTensor.ofList 2 1 [5, 7] : CudaTensor ℚ).dataGpu i)) (1 + 0 * 2) =
          some 70 := by
  refine ⟨by norm_num [CudaTensor.ofList], by norm_num [CudaTensor.ofList], ?_⟩
  rw [launch_ReluG _ _ 2 1 0 1 (by decide) (by decide)]
  norm_num [CudaTensor.ofList]

/-- C9 (as amended): for an original input `x < 0` the launch of `ReluG_Cuda` multiplies the
upstream gradient by `1e-32 / x`; this factor has absolute value at most `1e-6` exactly when
`x ≤ -1e-26`, and then the result is at most `1e-6` times the upstream gradient in absolute
value. -/
theorem ReluG_Cuda_negative (x : Nat → α) (xG : Nat → Option α) (nCol blocks r c : Nat)
    (hr : r < blocks) (hc : c < nCol) (hx : x (c + r * nCol) < 0) :
    launch blocks nCol (ReluG_Cuda x nCol) xG (c + r * nCol) =
        (xG (c + r * nCol)).map (fun g => g * (1e-32 / x (c + r * nCol))) ∧
      (|max (x (c + r * nCol)) 1e-32 / x (c + r * nCol)| ≤ 1e-6 ↔ x (c + r * nCol) ≤ -1e-26) ∧
      (x (c + r * nCol) ≤ -1e-26 → ∀ g, xG (c + r * nCol) = some g →
        ∃ v, launch blocks nCol (ReluG_Cuda x nCol) xG (c + r * nCol) = some v ∧
          |v| ≤ 1e-6 * |g|) := by
  have hmax : max (x (c + r * nCol)) 1e-32 = 1e-32 :=
    max_eq_right (le_trans (le_of_lt hx) (by norm_num))
  have hneg : (0 : α) < -x (c + r * nCol) := neg_pos.mpr hx
  have habs : |(1e-32 : α) / x (c + r * nCol)| = 1e-32 / -x (c + r * nCol) := by
    rw [abs_div, abs_of_neg hx, abs_of_pos (by norm_num)]
  have hiff : |(1e-32 : α) / x (c + r * nCol)| ≤ 1e-6 ↔ x (c + r * nCol) ≤ -1e-26 := by
    rw [habs, div_le_iff₀ hneg]
    constructor
    · intro h
      norm_num at h ⊢
      linarith
    · intro h
      norm_num at h ⊢
      linarith
  rw [launch_ReluG x xG nCol blocks r c hr hc, if_neg (ne_of_lt hx), hmax]
  refine ⟨rfl, hiff, ?_⟩
  intro hle g hg
  refine ⟨g * (1e-32 / x (c + r * nCol)), by rw [hg]; rfl, ?_⟩
  rw [abs_mul, mul_comm]
  exact mul_le_mul_of_nonneg_right (hiff.mpr hle) (abs_nonneg _)

/-- C9 witness: the input `-1`, whose factor is `-1e-32`, and the upstream gradient `5`. -/
theorem ReluG_Cuda_negative_witness :
    ∃ v, launch 1 2 (ReluG_Cuda (CudaTensor.ofList 2 1 [-1, -1e-30] : CudaTensor ℚ).dataGpu 2)
        (fun i => some ((CudaTensor.ofList 2 1 [5, 7] : CudaTensor ℚ).dataGpu i)) (0 + 0 * 2) =
          some v ∧ |v| ≤ 1e-6 * |(5 : ℚ)| :=
  (ReluG_Cuda_negative (CudaTensor.ofList 2 1 [-1, -1e-30] : CudaTensor ℚ).dataGpu
    (fun i => some ((CudaTensor.ofList 2 1 [5, 7] : CudaTensor ℚ).dataGpu i)) 2 1 0 0
    (by decide) (by decide) (by norm_num [CudaTensor.ofList])).2.2
    (by norm_num [CudaTensor.ofList]) 5 (by simp [CudaTensor.ofList])

/-- C9 counterexample: the input `-1e-30` is strictly negative and the factor
`max(x, 1e-32) / x` is `-1/100`, of absolute value above `1e-6`; the upstream gradient `7`
becomes `-7/100`. -/
theorem ReluG_Cuda_negative_counterexample :
    (CudaTensor.ofList 2 1 [-1, -1e-30] : CudaTensor ℚ).dataGpu (1 + 0 * 2) < 0 ∧
      ¬ |max ((CudaTensor.ofList 2 1 [-1, -1e-30] : CudaTensor ℚ).dataGpu (1 + 0 * 2)) 1e-32 /
          (CudaTensor.ofList 2 1 [-1, -1e-30] : CudaTensor ℚ).dataGpu (1 + 0 * 2)| ≤ 1e-6 ∧
      launch 1 2 (ReluG_Cuda (CudaTensor.ofList 2 1 [-1, -1e-30] : CudaTensor ℚ).dataGpu 2)
        (fun i => some ((CudaTensor.ofList 2 1 [5, 7] : CudaTensor ℚ).dataGpu i)) (1 + 0 * 2) =
          some (-7 / 100) := by
  refine ⟨by norm_num [CudaTensor.ofList], ?_, ?_⟩
  · norm_num [CudaTensor.ofList, abs_of_pos]
  · rw [launch_ReluG _ _ 2 1 0 1 (by decide) (by decide)]
    norm_num [CudaTensor.ofList]

end Relu

/-! ## Optimizer update -/

section Optimizer

variable {α : Type} [LinearOrderedField α]

/-- C10: one call of `FcLayer::UpdateWs` returns, when both launches are accepted, a state in
which every element of the weight tensor and of the bias tensor has
`m' = β1 * m + (1 - β1) * g`, `v' = β2 * v + (1 - β2) * g ^ 2` and
`param' = param - lr * (m' / (1 - β1t)) / (sqrt (v' / (1 - β2t)) + 1e-8)`, computed from that
element's own `m`, `v` and `g`; the gradient tensors are unchanged, and `UpdateBs_Cuda` is the
function `UpdateWs_Cuda` computes in block 0, so the bias launch is the weight launch on a
one-row tensor. -/
theorem FcLayer_UpdateWs_adam (dev : Device α) (sqrt : α → α) (s : FcLayer α)
    (learningRate beta1 beta2 beta1t beta2t : α)
    (hlw : dev.launchOk s.w.d1 s.w.d0 = true) (hlb : dev.launchOk 1 s.b.d0 = true) :
    ∃ s', s.UpdateWs dev sqrt learningRate beta1 beta2 beta1t beta2t = .ok s' ∧
      s'.wG = s.wG ∧ s'.bG = s.bG ∧
      (∀ index, index < s.w.d0 * s.w.d1 →
        s'.wG_m.dataGpu index =
            beta1 * s.wG_m.dataGpu index + (1 - beta1) * s.wG.dataGpu index ∧
          s'.wG_v.dataGpu index =
            beta2 * s.wG_v.dataGpu index + (1 - beta2) * s.wG.dataGpu index ^ 2 ∧
          s'.w.dataGpu index = s.w.dataGpu index -
            learningRate * (s'.wG_m.dataGpu index / (1 - beta1t)) /
              (sqrt (s'.wG_v.dataGpu index / (1 - beta2t)) + 1e-8)) ∧
      (∀ index, index < s.b.d0 →
        s'.bG_m.dataGpu index =
            beta1 * s.bG_m.dataGpu index + (1 - beta1) * s.bG.dataGpu index ∧
          s'.bG_v.dataGpu index =
            beta2 * s.bG_v.dataGpu index + (1 - beta2) * s.bG.dataGpu index ^ 2 ∧
          s'.b.dataGpu index = s.b.dataGpu index -
            learningRate * (s'.bG_m.dataGpu index / (1 - beta1t)) /
              (sqrt (s'.bG_v.dataGpu index / (1 - beta2t)) + 1e-8)) ∧
      (∀ (nCol : Nat) (g : Nat → α) (blockIdx threadIdx : Nat)
          (bufs : (Nat → α) × (Nat → α) × (Nat → α)),
        UpdateBs_Cuda sqrt learningRate beta1 beta2 beta1t beta2t g blockIdx threadIdx bufs =
          UpdateWs_Cuda sqrt nCol learningRate beta1 beta2 beta1t beta2t g 0 threadIdx bufs) ∧
      (s'.b.dataGpu, s'.bG_m.dataGpu, s'.bG_v.dataGpu) =
        launch 1 s.b.d0
          (UpdateWs_Cuda sqrt s.b.d0 learningRate beta1 beta2 beta1t beta2t s.bG.dataGpu)
          (s.b.dataGpu, s.bG_m.dataGpu, s.bG_v.dataGpu) := by
  have hbias : launch 1 s.b.d0
      (UpdateBs_Cuda sqrt learningRate beta1 beta2 beta1t beta2t s.bG.dataGpu)
      (s.b.dataGpu, s.bG_m.dataGpu, s.bG_v.dataGpu) =
    launch 1 s.b.d0
      (UpdateWs_Cuda sqrt s.b.d0 learningRate beta1 beta2 beta1t beta2t s.bG.dataGpu)
      (s.b.dataGpu, s.bG_m.dataGpu, s.bG_v.dataGpu) :=
    launch_one_congr _ _ _ (fun t m => UpdateBs_Cuda_eq sqrt s.b.d0 _ _ _ _ _ _ 0 t m) _
  have hU : s.UpdateWs dev sqrt learningRate beta1 beta2 beta1t beta2t = .ok
      { s with
        w := { s.w with dataGpu := (launch s.w.d1 s.w.d0
          (UpdateWs_Cuda sqrt s.w.d0 learningRate beta1 beta2 beta1t beta2t s.wG.dataGpu)
          (s.w.dataGpu, s.wG_m.dataGpu, s.wG_v.dataGpu)).1 },
        wG_m := { s.wG_m with dataGpu := (launch s.w.d1 s.w.d0
          (UpdateWs_Cuda sqrt s.w.d0 learningRate beta1 beta2 beta1t beta2t s.wG.dataGpu)
          (s.w.dataGpu, s.wG_m.dataGpu, s.wG_v.dataGpu)).2.1 },
        wG_v := { s.wG_v with dataGpu := (launch s.w.d1 s.w.d0
          (UpdateWs_Cuda sqrt s.w.d0 learningRate beta1 beta2 beta1t beta2t s.wG.dataGpu)
          (s.w.dataGpu, s.wG_m.dataGpu, s.wG_v.dataGpu)).2.2 },
        b := { s.b with dataGpu := (launch 1 s.b.d0
          (UpdateBs_Cuda sqrt learningRate beta1 beta2 beta1t beta2t s.bG.dataGpu)
          (s.b.dataGpu, s.bG_m.dataGpu, s.bG_v.dataGpu)).1 },
        bG_m := { s.bG_m with dataGpu := (launch 1 s.b.d0
          (UpdateBs_Cuda sqrt learningRate beta1 beta2 beta1t beta2t s.bG.dataGpu)
          (s.b.dataGpu, s.bG_m.dataGpu, s.bG_v.dataGpu)).2.1 },
        bG_v := { s.bG_v with dataGpu := (launch 1 s.b.d0
          (UpdateBs_Cuda sqrt learningRate beta1 beta2 beta1t beta2t s.bG.dataGpu)
          (s.b.dataGpu, s.bG_m.dataGpu, s.bG_v.dataGpu)).2.2 } } := by
    simp [FcLayer.UpdateWs, launchChecked, hlw, hlb, bind, Except.bind, pure, Except.pure]
  refine ⟨_, hU, rfl, rfl, ?_, ?_, ?_, ?_⟩
  · intro index hindex
    have hd0 : 0 < s.w.d0 := by
      rcases Nat.eq_zero_or_pos s.w.d0 with h | h
      · rw [h, Nat.zero_mul] at hindex
        exact absurd hindex (Nat.not_lt_zero _)
      · exact h
    have hr : index / s.w.d0 < s.w.d1 := by
      rw [Nat.div_lt_iff_lt_mul hd0, Nat.mul_comm]
      exact hindex
    have hidx : index % s.w.d0 + index / s.w.d0 * s.w.d0 = index := by
      rw [Nat.mul_comm]
      exact Nat.mod_add_div index s.w.d0
    have h := launch_UpdateWs sqrt learningRate beta1 beta2 beta1t beta2t s.wG.dataGpu
      (s.w.dataGpu, s.wG_m.dataGpu, s.wG_v.dataGpu) s.w.d0 s.w.d1 (index / s.w.d0)
      (index % s.w.d0) hr (Nat.mod_lt _ hd0)
    simp only [hidx] at h
    refine ⟨h.1, ?_, h.2.2⟩
    rw [show (1 - beta2) * s.wG.dataGpu index ^ 2 =
      (1 - beta2) * s.wG.dataGpu index * s.wG.dataGpu index by ring]
    exact h.2.1
  · intro index hindex
    have h := launch_UpdateWs sqrt learningRate beta1 beta2 beta1t beta2t s.bG.dataGpu
      (s.b.dataGpu, s.bG_m.dataGpu, s.bG_v.dataGpu) s.b.d0 1 0 index Nat.zero_lt_one hindex
    simp only [Nat.zero_mul, Nat.add_zero] at h
    rw [← hbias] at h
    refine ⟨h.1, ?_, h.2.2⟩
    rw [show (1 - beta2) * s.bG.dataGpu index ^ 2 =
      (1 - beta2) * s.bG.dataGpu index * s.bG.dataGpu index by ring]
    exact h.2.1
  · intro nCol g blockIdx threadIdx bufs
    exact UpdateBs_Cuda_eq sqrt nCol _ _ _ _ _ g blockIdx threadIdx bufs
  · exact hbias

/-- C10 witness: the 2 × 2 example layer over the reals with the real square root and the
usual decay rates. -/
theorem FcLayer_UpdateWs_adam_witness :
    ∃ s', (FcLayer.ofLists 2 2 [1, 2, 3, 4] [0, 0] : FcLayer ℝ).UpdateWs Device.reference
        Real.sqrt (1 / 100000) (9 / 10) (999 / 1000) (9 / 10) (999 / 1000) = .ok s' ∧
      s'.wG = (FcLayer.ofLists 2 2 [1, 2, 3, 4] [0, 0] : FcLayer ℝ).wG ∧
      s'.bG = (FcLayer.ofLists 2 2 [1, 2, 3, 4] [0, 0] : FcLayer ℝ).bG :=
  let ⟨s', h1, h2, h3, _⟩ := FcLayer_UpdateWs_adam (Device.reference : Device ℝ) Real.sqrt
    (FcLayer.ofLists 2 2 [1, 2, 3, 4] [0, 0]) (1 / 100000) (9 / 10) (999 / 1000) (9 / 10)
    (999 / 1000) rfl rfl
  ⟨s', h1, h2, h3⟩

end Optimizer

/-! ## Tensor capacity -/

section Capacity

variable {α : Type} [LinearOrderedField α]

/-- The host vector has the requested length after `resize`. -/
theorem vectorResize_length (v : List α) (n : Nat) : (vectorResize v n).length = n := by
  simp only [vectorResize, List.length_append, List.length_take, List.length_replicate]
  omega

/-- One `ResetTensor` call that can allocate: it returns, the logical size is the requested
count and the capacity is the larger of the old capacity and the requested count. -/
theorem ResetTensor_step (dev : Device α) (t : CudaTensor α) (d : Nat × Nat × Nat × Nat)
    (hmem : dev.mallocOk (elementCount d) = true) :
    ∃ t', t.ResetTensor dev d.1 d.2.1 d.2.2.1 d.2.2.2 = .ok t' ∧
      t'.d0 = d.1 ∧ t'.d1 = d.2.1 ∧ t'.d2 = d.2.2.1 ∧ t'.d3 = d.2.2.2 ∧
      t'.dataSize = elementCount d ∧ t'.data.length = elementCount d ∧
      t'.dataGpuSize = max t.dataGpuSize (elementCount d) := by
  unfold elementCount at *
  unfold CudaTensor.ResetTensor
  by_cases h : t.dataGpuSize < d.1 * d.2.1 * d.2.2.1 * d.2.2.2
  · simp [h, hmem, vectorResize_length, max_eq_right (Nat.le_of_lt h)]
  · simp [h, vectorResize_length, max_eq_left (Nat.le_of_not_lt h)]

/-- A sequence of `ResetTensor` calls followed by one more call is the longer sequence. -/
theorem resets_append_one (dev : Device α) (t : CudaTensor α)
    (pre : List (Nat × Nat × Nat × Nat)) (d : Nat × Nat × Nat × Nat) :
    CudaTensor.resets dev t (pre ++ [d]) =
      (CudaTensor.resets dev t pre) >>= fun t0 => t0.ResetTensor dev d.1 d.2.1 d.2.2.1 d.2.2.2 := by
  induction pre generalizing t with
  | nil =>
    simp only [List.nil_append, CudaTensor.resets, bind, Except.bind]
    cases t.ResetTensor dev d.1 d.2.1 d.2.2.1 d.2.2.2 <;> rfl
  | cons c cs ih =>
    simp only [List.cons_append, CudaTensor.resets, bind, Except.bind]
    cases h : t.ResetTensor dev c.1 c.2.1 c.2.2.1 c.2.2.2 with
    | error e => rfl
    | ok t' => exact ih t'

/-- A sequence of `ResetTensor` calls that can allocate returns, with the capacity equal to the
largest of the initial capacity and the requested counts. -/
theorem resets_capacity (dev : Device α) (hmem : ∀ n, dev.mallocOk n = true) (t : CudaTensor α)
    (calls : List (Nat × Nat × Nat × Nat)) :
    ∃ t', CudaTensor.resets dev t calls = .ok t' ∧
      t'.dataGpuSize = (calls.map elementCount).foldl max t.dataGpuSize := by
  induction calls generalizing t with
  | nil => exact ⟨t, rfl, rfl⟩
  | cons c cs ih =>
    obtain ⟨t1, h1, -, -, -, -, -, -, hcap⟩ := ResetTensor_step dev t c (hmem _)
    obtain ⟨t', h', hcap'⟩ := ih t1
    refine ⟨t', ?_, ?_⟩
    · simp only [CudaTensor.resets, h1, bind, Except.bind]
      exact h'
    · rw [hcap', hcap]
      rfl

/-- C14: on a device that can allocate, for every tensor `t` and every sequence `pre` of
`ResetTensor` calls followed by a call `d`, all calls return and after the call `d` the capacity
is at least the logical element count `d0 * d1 * d2 * d3`, is not smaller than before the call,
and equals the largest of the initial capacity and the counts requested so far; for a tensor
that starts from the default constructor (capacity 0) that is the largest count requested so
far. -/
theorem CudaTensor_capacity_invariant (dev : Device α) (hmem : ∀ n, dev.mallocOk n = true)
    (t : CudaTensor α) (pre : List (Nat × Nat × Nat × Nat)) (d : Nat × Nat × Nat × Nat) :
    ∃ t0 t1, CudaTensor.resets dev t pre = .ok t0 ∧
      t0.ResetTensor dev d.1 d.2.1 d.2.2.1 d.2.2.2 = .ok t1 ∧
      CudaTensor.resets dev t (pre ++ [d]) = .ok t1 ∧
      t1.dataSize = d.1 * d.2.1 * d.2.2.1 * d.2.2.2 ∧
      t1.dataSize ≤ t1.dataGpuSize ∧
      t0.dataGpuSize ≤ t1.dataGpuSize ∧
      t1.dataGpuSize = ((pre ++ [d]).map elementCount).foldl max t.dataGpuSize ∧
      (t.dataGpuSize = 0 →
        t1.dataGpuSize = ((pre ++ [d]).map elementCount).foldl max 0) := by
  obtain ⟨t0, h0, hcap0⟩ := resets_capacity dev hmem t pre
  obtain ⟨t1, h1, -, -, -, -, hsize, -, hcap1⟩ := ResetTensor_step dev t0 d (hmem _)
  have hall : t1.dataGpuSize = ((pre ++ [d]).map elementCount).foldl max t.dataGpuSize := by
    rw [List.map_append, List.foldl_append, ← hcap0, hcap1]
    rfl
  refine ⟨t0, t1, h0, h1, ?_, hsize, ?_, ?_, hall, ?_⟩
  · rw [resets_append_one, h0]
    exact h1
  · rw [hsize, hcap1]
    exact le_max_right _ _
  · rw [hcap1]
    exact le_max_left _ _
  · intro hz
    rw [hall, hz]

/-- C14 witness: a tensor from the default constructor, reset to 6, then 2, then 12 elements. -/
theorem CudaTensor_capacity_invariant_witness :
    ∃ t0 t1, CudaTensor.resets Device.reference (CudaTensor.empty : CudaTensor ℚ)
        [(3, 2, 1, 1), (2, 1, 1, 1)] = .ok t0 ∧
      t0.ResetTensor Device.reference 3 4 1 1 = .ok t1 ∧
      t0.dataGpuSize = 6 ∧ t1.dataSize = 12 ∧ t1.dataGpuSize = 12 := by
  obtain ⟨t0, t1, h0, h1, -, hsize, -, -, hcap, -⟩ := CudaTensor_capacity_invariant
    (Device.reference : Device ℚ) (fun _ => rfl) CudaTensor.empty
    [(3, 2, 1, 1), (2, 1, 1, 1)] (3, 4, 1, 1)
  obtain ⟨t0', h0', hcap0⟩ := resets_capacity (Device.reference : Device ℚ) (fun _ => rfl)
    CudaTensor.empty [(3, 2, 1, 1), (2, 1, 1, 1)]
  have hEq : t0' = t0 := Except.ok.inj (h0'.symm.trans h0)
  subst hEq
  refine ⟨t0', t1, h0, h1, ?_, hsize, ?_⟩
  · rw [hcap0]
    decide
  · rw [hcap]
    decide

/-- The counted `ResetTensor` returns the tensor that `ResetTensor` returns. -/
theorem ResetTensorCounted_fst (dev : Device α) (t : CudaTensor α) (d0 d1 d2 d3 : Nat) :
    Except.map Prod.fst (t.ResetTensorCounted dev d0 d1 d2 d3) = t.ResetTensor dev d0 d1 d2 d3 := by
  unfold CudaTensor.ResetTensorCounted CudaTensor.ResetTensor
  by_cases h : t.dataGpuSize < d0 * d1 * d2 * d3
  · by_cases hm : dev.mallocOk (d0 * d1 * d2 * d3) = true
    · simp [h, hm, Except.map]
    · simp [h, hm, Except.map]
  · simp [h, Except.map]

/-- One counted `ResetTensor` call: when it returns, it has allocated exactly when the requested
count exceeds the old capacity, and the host length, logical size and dimensions are the
requested ones. -/
theorem ResetTensorCounted_spec (dev : Device α) (t t' : CudaTensor α) (d0 d1 d2 d3 k : Nat)
    (h : t.ResetTensorCounted dev d0 d1 d2 d3 = .ok (t', k)) :
    (k = 1 ↔ t.dataGpuSize < d0 * d1 * d2 * d3) ∧ (k = 0 ↔ ¬ t.dataGpuSize < d0 * d1 * d2 * d3) ∧
      t'.d0 = d0 ∧ t'.d1 = d1 ∧ t'.d2 = d2 ∧ t'.d3 = d3 ∧
      t'.dataSize = d0 * d1 * d2 * d3 ∧ t'.data.length = d0 * d1 * d2 * d3 ∧
      t'.dataGpuSize = max t.dataGpuSize (d0 * d1 * d2 * d3) := by
  unfold CudaTensor.ResetTensorCounted at h
  by_cases hlt : t.dataGpuSize < d0 * d1 * d2 * d3
  · by_cases hm : dev.mallocOk (d0 * d1 * d2 * d3) = true
    · simp only [hlt, hm, if_true] at h
      obtain ⟨ht, hk⟩ := Prod.mk.inj (Except.ok.inj h)
      subst ht hk
      simp [hlt, vectorResize_length, max_eq_right (Nat.le_of_lt hlt)]
    · simp [hlt, hm] at h
  · simp only [hlt, if_false] at h
    obtain ⟨ht, hk⟩ := Prod.mk.inj (Except.ok.inj h)
    subst ht hk
    simp [hlt, vectorResize_length, max_eq_left (Nat.le_of_not_lt hlt)]

/-- One counted `ResetTensor` call returns when no allocation is needed or the allocation
succeeds. -/
theorem ResetTensorCounted_ok (dev : Device α) (t : CudaTensor α) (d0 d1 d2 d3 : Nat)
    (hmem : t.dataGpuSize < d0 * d1 * d2 * d3 → dev.mallocOk (d0 * d1 * d2 * d3) = true) :
    ∃ t' k, t.ResetTensorCounted dev d0 d1 d2 d3 = .ok (t', k) := by
  unfold CudaTensor.ResetTensorCounted
  by_cases hlt : t.dataGpuSize < d0 * d1 * d2 * d3
  · simp [hlt, hmem hlt]
  · simp [hlt]

/-- C15: a `ResetTensor` call allocates device memory if and only if the requested element
count strictly exceeds the current capacity.  Hence, for dimensions `a` with a positive count
and dimensions `b` with a count that is not larger, creating a tensor with `a`, resetting it to
`b` and then to `a` makes exactly one allocation in total, the one of the creation, while the
host length, the logical size and the dimensions follow every call. -/
theorem CudaTensor_reallocation_count (dev : Device α) (a b : Nat × Nat × Nat × Nat)
    (hpos : 0 < elementCount a) (hle : elementCount b ≤ elementCount a)
    (hmem : dev.mallocOk (elementCount a) = true) :
    (∀ (t t' : CudaTensor α) (d0 d1 d2 d3 k : Nat),
      t.ResetTensorCounted dev d0 d1 d2 d3 = .ok (t', k) →
        t.ResetTensor dev d0 d1 d2 d3 = .ok t' ∧
        (k = 1 ↔ t.dataGpuSize < d0 * d1 * d2 * d3) ∧
        (k = 0 ↔ ¬ t.dataGpuSize < d0 * d1 * d2 * d3)) ∧
    ∃ t1 t2 t3 k1 k2 k3,
      (CudaTensor.empty : CudaTensor α).ResetTensorCounted dev a.1 a.2.1 a.2.2.1 a.2.2.2
        = .ok (t1, k1) ∧
      t1.ResetTensorCounted dev b.1 b.2.1 b.2.2.1 b.2.2.2 = .ok (t2, k2) ∧
      t2.ResetTensorCounted dev a.1 a.2.1 a.2.2.1 a.2.2.2 = .ok (t3, k3) ∧
      k1 = 1 ∧ k2 = 0 ∧ k3 = 0 ∧ k1 + k2 + k3 = 1 ∧
      t1.data.length = elementCount a ∧ t2.data.length = elementCount b ∧
      t3.data.length = elementCount a ∧
      (t1.d0, t1.d1, t1.d2, t1.d3) = a ∧ (t2.d0, t2.d1, t2.d2, t2.d3) = b ∧
      (t3.d0, t3.d1, t3.d2, t3.d3) = a := by
  unfold elementCount at *
  constructor
  · intro t t' d0 d1 d2 d3 k h
    have hs := ResetTensorCounted_spec dev t t' d0 d1 d2 d3 k h
    refine ⟨?_, hs.1, hs.2.1⟩
    rw [← ResetTensorCounted_fst, h]
    rfl
  · obtain ⟨t1, k1, h1⟩ := ResetTensorCounted_ok dev (CudaTensor.empty : CudaTensor α)
      a.1 a.2.1 a.2.2.1 a.2.2.2 (fun _ => hmem)
    have s1 := ResetTensorCounted_spec dev _ t1 _ _ _ _ k1 h1
    have hcap1 : t1.dataGpuSize = a.1 * a.2.1 * a.2.2.1 * a.2.2.2 := by
      rw [s1.2.2.2.2.2.2.2.2]
      exact max_eq_right (Nat.zero_le _)
    obtain ⟨t2, k2, h2⟩ := ResetTensorCounted_ok dev t1 b.1 b.2.1 b.2.2.1 b.2.2.2
      (fun hlt => absurd hlt (by rw [hcap1]; exact Nat.not_lt.mpr hle))
    have s2 := ResetTensorCounted_spec dev _ t2 _ _ _ _ k2 h2
    have hcap2 : t2.dataGpuSize = a.1 * a.2.1 * a.2.2.1 * a.2.2.2 := by
      rw [s2.2.2.2.2.2.2.2.2, hcap1]
      exact max_eq_left hle
    obtain ⟨t3, k3, h3⟩ := ResetTensorCounted_ok dev t2 a.1 a.2.1 a.2.2.1 a.2.2.2
      (fun hlt => absurd hlt (by rw [hcap2]; exact Nat.lt_irrefl _))
    have s3 := ResetTensorCounted_spec dev _ t3 _ _ _ _ k3 h3
    have hk1 : k1 = 1 := s1.1.mpr hpos
    have hk2 : k2 = 0 := s2.2.1.mpr (by rw [hcap1]; exact Nat.not_lt.mpr hle)
    have hk3 : k3 = 0 := s3.2.1.mpr (by rw [hcap2]; exact Nat.lt_irrefl _)
    refine ⟨t1, t2, t3, k1, k2, k3, h1, h2, h3, hk1, hk2, hk3, by rw [hk1, hk2, hk3],
      s1.2.2.2.2.2.2.2.1, s2.2.2.2.2.2.2.2.1, s3.2.2.2.2.2.2.2.1, ?_, ?_, ?_⟩
    · rw [s1.2.2.1, s1.2.2.2.1, s1.2.2.2.2.1, s1.2.2.2.2.2.1]
    · rw [s2.2.2.1, s2.2.2.2.1, s2.2.2.2.2.1, s2.2.2.2.2.2.1]
    · rw [s3.2.2.1, s3.2.2.2.1, s3.2.2.2.2.1, s3.2.2.2.2.2.1]

/-- C15 witness: a tensor of 3 × 4 elements reset to 2 × 2 and back to 3 × 4. -/
theorem CudaTensor_reallocation_count_witness :
    ∃ t1 t2 t3 k1 k2 k3,
      (CudaTensor.empty : CudaTensor ℚ).ResetTensorCounted Device.reference 3 4 1 1
        = .ok (t1, k1) ∧
      t1.ResetTensorCounted Device.reference 2 2 1 1 = .ok (t2, k2) ∧
      t2.ResetTensorCounted Device.reference 3 4 1 1 = .ok (t3, k3) ∧
      k1 + k2 + k3 = 1 ∧ t2.data.length = 4 ∧ t3.data.length = 12 :=
  let ⟨t1, t2, t3, k1, k2, k3, h1, h2, h3, _, _, _, hk, _, hl2, hl3, _⟩ :=
    (CudaTensor_reallocation_count (Device.reference : Device ℚ) (3, 4, 1, 1) (2, 2, 1, 1)
      (by decide) (by decide) rfl).2
  ⟨t1, t2, t3, k1, k2, k3, h1, h2, h3, hk, hl2, hl3⟩

end Capacity

/-! ## Shape checks of the layers -/

section ShapeChecks

variable {α : Type} [LinearOrderedField α]

/-- `ResetTensor` can only fail in the allocation. -/
theorem ResetTensor_error (dev : Device α) (t : CudaTensor α) (d0 d1 d2 d3 : Nat) (e : Fault)
    (h : t.ResetTensor dev d0 d1 d2 d3 = .error e) : e = Fault.alloc := by
  unfold CudaTensor.ResetTensor at h
  by_cases hlt : t.dataGpuSize < d0 * d1 * d2 * d3
  · by_cases hm : dev.mallocOk (d0 * d1 * d2 * d3) = true
    · simp [hlt, hm] at h
    · simp only [hlt, hm, if_true] at h
      exact (Except.error.inj h).symm
  · simp [hlt] at h

/-- The dimensions of the tensor that `ResetTensor` returns. -/
theorem ResetTensor_dims (dev : Device α) (t t' : CudaTensor α) (d0 d1 d2 d3 : Nat)
    (h : t.ResetTensor dev d0 d1 d2 d3 = .ok t') : t'.d0 = d0 ∧ t'.d1 = d1 := by
  unfold CudaTensor.ResetTensor at h
  by_cases hlt : t.dataGpuSize < d0 * d1 * d2 * d3
  · by_cases hm : dev.mallocOk (d0 * d1 * d2 * d3) = true
    · simp only [hlt, hm, if_true] at h
      rw [← Except.ok.inj h]
      exact ⟨rfl, rfl⟩
    · simp [hlt, hm] at h
  · simp only [hlt, if_false] at h
    rw [← Except.ok.inj h]
    exact ⟨rfl, rfl⟩

/-- Every outcome of `FcLayer::Forward`: the precondition fault exactly when the widths differ,
otherwise an allocation fault, a launch fault, or the state that caches `x` and holds the launch
result in `_y`. -/
theorem FcLayer_Forward_cases (dev : Device α) (s : FcLayer α) (x : CudaTensor α) :
    (x.d0 ≠ s.w.d1 ∧ s.Forward dev x = .error Fault.precondition) ∨
    (x.d0 = s.w.d1 ∧ s.Forward dev x = .error Fault.alloc) ∨
    (x.d0 = s.w.d1 ∧ s.Forward dev x = .error Fault.launch) ∨
    (x.d0 = s.w.d1 ∧ dev.launchOk x.d1 s.w.d0 = true ∧
      ∃ y, s.y.ResetTensor dev s.w.d0 x.d1 1 1 = .ok y ∧
        s.Forward dev x = .ok { s with
          pX := some x,
          y := { y with dataGpu := (launch x.d1 s.w.d0
            (LinearTransform_Cuda x.dataGpu s.w.dataGpu s.b.dataGpu x.d0 s.w.d0) y.dataGpu) } }) := by
  by_cases hx : x.d0 = s.w.d1
  · cases hy : s.y.ResetTensor dev s.w.d0 x.d1 1 1 with
    | error e =>
      have he := ResetTensor_error dev _ _ _ _ _ e hy
      subst he
      right; left
      refine ⟨hx, ?_⟩
      simp [FcLayer.Forward, hx, hy, bind, Except.bind, pure, Except.pure]
    | ok y =>
      by_cases hl : dev.launchOk x.d1 s.w.d0 = true
      · right; right; right
        refine ⟨hx, hl, y, rfl, ?_⟩
        simp [FcLayer.Forward, hx, hy, hl, launchChecked, bind, Except.bind, pure, Except.pure]
      · right; right; left
        refine ⟨hx, ?_⟩
        simp [FcLayer.Forward, hx, hy, hl, launchChecked, bind, Except.bind, pure, Except.pure]
  · left
    refine ⟨hx, ?_⟩
    simp [FcLayer.Forward, hx, bind, Except.bind, pure, Except.pure, throw, throwThe,
      MonadExceptOf.throw]

/-- Every outcome of `ReluFcLayer::Forward`: the precondition fault exactly when the widths
differ, otherwise an allocation fault, a launch fault, or a state that caches `x` and whose
`_y` has `d0 = _w._d0` and `d1 = x._d1`. -/
theorem ReluFcLayer_Forward_cases (dev : Device α) (s : ReluFcLayer α) (x : CudaTensor α) :
    (x.d0 ≠ s.w.d1 ∧ s.Forward dev x = .error Fault.precondition) ∨
    (x.d0 = s.w.d1 ∧ s.Forward dev x = .error Fault.alloc) ∨
    (x.d0 = s.w.d1 ∧ s.Forward dev x = .error Fault.launch) ∨
    (x.d0 = s.w.d1 ∧ dev.launchOk x.d1 x.d0 = true ∧ dev.launchOk x.d1 s.w.d0 = true ∧
      ∃ s', s.Forward dev x = .ok s' ∧ s'.toFcLayer = { s.toFcLayer with pX := some x, y := s'.y } ∧
        s'.y.d0 = s.w.d0 ∧ s'.y.d1 = x.d1 ∧ s'.xRelu.d0 = x.d0 ∧ s'.xRelu.d1 = x.d1) := by
  by_cases hx : x.d0 = s.w.d1
  · simp only [hx, true_and, ne_eq, not_true_eq_false, false_and, false_or]
    cases hr : s.xRelu.ResetTensor dev s.w.d1 x.d1 1 1 with
    | error e =>
      have he := ResetTensor_error dev _ _ _ _ _ e hr
      subst he
      left
      simp [ReluFcLayer.Forward, hx, hr, bind, Except.bind, pure, Except.pure]
    | ok xRelu =>
      obtain ⟨hr0, hr1⟩ := ResetTensor_dims dev _ _ _ _ _ _ hr
      by_cases hl1 : dev.launchOk x.d1 s.w.d1 = true
      · cases hy : s.y.ResetTensor dev s.w.d0 x.d1 1 1 with
        | error e =>
          have he := ResetTensor_error dev _ _ _ _ _ e hy
          subst he
          left
          simp [ReluFcLayer.Forward, hx, hr, hr0, hr1, hl1, hy, launchChecked, bind, Except.bind,
            pure, Except.pure]
        | ok y =>
          obtain ⟨hy0, hy1⟩ := ResetTensor_dims dev _ _ _ _ _ _ hy
          by_cases hl2 : dev.launchOk x.d1 s.w.d0 = true
          · right; right
            refine ⟨hl1, hl2, ?_⟩
            simp [ReluFcLayer.Forward, hx, hr, hr0, hr1, hl1, hy, hy0, hy1, hl2, launchChecked,
              bind, Except.bind, pure, Except.pure]
          · right; left
            simp [ReluFcLayer.Forward, hx, hr, hr0, hr1, hl1, hy, hl2, launchChecked, bind,
              Except.bind, pure, Except.pure]
      · right; left
        simp [ReluFcLayer.Forward, hx, hr, hr0, hr1, hl1, launchChecked, bind, Except.bind,
          pure, Except.pure]
  · left
    refine ⟨hx, ?_⟩
    simp [ReluFcLayer.Forward, hx, bind, Except.bind, pure, Except.pure, throw, throwThe,
      MonadExceptOf.throw]

/-- A sequence of two steps returns only when the first step returns and the second returns on
its result. -/
theorem Except_bind_ok {ε β γ : Type} {x : Except ε β} {f : β → Except ε γ} {c : γ}
    (h : x >>= f = .ok c) : ∃ b, x = .ok b ∧ f b = .ok c := by
  cases x with
  | error e => simp [bind, Except.bind] at h
  | ok b => exact ⟨b, rfl, h⟩

/-- The transfer to the device keeps the dimensions and copies the first `_dataSize` host
elements. -/
theorem copyToDevice_ok (dev : Device α) (t t' : CudaTensor α)
    (h : CudaTensor.copyToDevice dev t = .ok t') :
    t'.d0 = t.d0 ∧ t'.d1 = t.d1 ∧ t'.dataSize = t.dataSize ∧
      ∀ i, i < t.dataSize → t'.dataGpu i = t.data.getD i 0 := by
  unfold CudaTensor.copyToDevice at h
  by_cases hm : dev.memcpyOk t.dataSize = true
  · simp only [hm, if_true] at h
    rw [← Except.ok.inj h]
    refine ⟨rfl, rfl, rfl, ?_⟩
    intro i hi
    simp [hi]
  · simp [hm] at h

/-- After `Zero()` the dimensions are the same and the first `_dataSize` device elements are
zero. -/
theorem Zero_ok (dev : Device α) (t t' : CudaTensor α) (h : t.Zero dev = .ok t') :
    t'.d0 = t.d0 ∧ t'.d1 = t.d1 ∧ t'.dataSize = t.dataSize ∧
      ∀ i, i < t.dataSize → t'.dataGpu i = 0 := by
  obtain ⟨h0, h1, hs, hd⟩ := copyToDevice_ok dev _ t' h
  refine ⟨h0, h1, hs, ?_⟩
  intro i hi
  rw [hd i hi]
  simp only [List.getD_eq_getElem?_getD, List.getElem?_replicate]
  split <;> rfl

/-- After `Random(multiplier)` the dimensions are the same. -/
theorem Random_ok (dev : Device α) (samples : Nat → α) (t t' : CudaTensor α) (m : α)
    (h : t.Random dev samples m = .ok t') : t'.d0 = t.d0 ∧ t'.d1 = t.d1 := by
  obtain ⟨h0, h1, -, -⟩ := copyToDevice_ok dev _ t' h
  exact ⟨h0, h1⟩

/-- The tensor that `ResetTensor(d0, d1)` returns has the logical size `d0 * d1`. -/
theorem ResetTensor_dataSize (dev : Device α) (t t' : CudaTensor α) (d0 d1 : Nat)
    (h : t.ResetTensor dev d0 d1 1 1 = .ok t') : t'.dataSize = d0 * d1 := by
  unfold CudaTensor.ResetTensor at h
  by_cases hlt : t.dataGpuSize < d0 * d1 * 1 * 1
  · by_cases hm : dev.mallocOk (d0 * d1 * 1 * 1) = true
    · simp only [hlt, hm, if_true] at h
      rw [← Except.ok.inj h]
      simp
    · simp only [hlt, hm, if_true] at h
      exact absurd h (by simp)
  · simp only [hlt, if_false] at h
    rw [← Except.ok.inj h]
    simp

/-- A tensor that is reset to `d0 × d1` and then zeroed has these dimensions and zero device
contents on its logical extent. -/
theorem ResetTensor_Zero_ok (dev : Device α) (t t1 t2 : CudaTensor α) (d0 d1 : Nat)
    (h1 : t.ResetTensor dev d0 d1 1 1 = .ok t1) (h2 : t1.Zero dev = .ok t2) :
    t2.d0 = d0 ∧ t2.d1 = d1 ∧ ∀ i, i < d0 * d1 → t2.dataGpu i = 0 := by
  obtain ⟨hd0, hd1⟩ := ResetTensor_dims dev _ _ _ _ _ _ h1
  have hs := ResetTensor_dataSize dev _ _ _ _ h1
  obtain ⟨z0, z1, -, hz⟩ := Zero_ok dev t1 t2 h2
  refine ⟨z0.trans hd0, z1.trans hd1, ?_⟩
  intro i hi
  exact hz i (hs ▸ hi)

/-- The state that `FcLayer::FcLayer(inDim, outDim)` builds: the weight tensors have
`d0 = outDim` and `d1 = inDim`, the bias tensors have `d0 = outDim`, and the moment accumulators
are zero on their logical extents. -/
theorem FcLayer_create_ok (dev : Device α) (sqrt : α → α) (samples : Nat → α)
    (inDim outDim : Nat) (s : FcLayer α)
    (h : FcLayer.create dev sqrt samples inDim outDim = .ok s) :
    s.w.d0 = outDim ∧ s.w.d1 = inDim ∧ s.wG.d0 = outDim ∧ s.wG.d1 = inDim ∧
      s.b.d0 = outDim ∧ s.pX = none ∧
      (∀ i, i < outDim * inDim → s.wG_m.dataGpu i = 0) ∧
      (∀ i, i < outDim * inDim → s.wG_v.dataGpu i = 0) ∧
      (∀ i, i < outDim → s.bG_m.dataGpu i = 0) ∧
      (∀ i, i < outDim → s.bG_v.dataGpu i = 0) := by
  unfold FcLayer.create at h
  obtain ⟨w0, hw0, h⟩ := Except_bind_ok h
  obtain ⟨w, hw, h⟩ := Except_bind_ok h
  obtain ⟨wG, hwG, h⟩ := Except_bind_ok h
  obtain ⟨wGm0, hwGm0, h⟩ := Except_bind_ok h
  obtain ⟨wGm, hwGm, h⟩ := Except_bind_ok h
  obtain ⟨wGv0, hwGv0, h⟩ := Except_bind_ok h
  obtain ⟨wGv, hwGv, h⟩ := Except_bind_ok h
  obtain ⟨b0, hb0, h⟩ := Except_bind_ok h
  obtain ⟨b, hb, h⟩ := Except_bind_ok h
  obtain ⟨bG, hbG, h⟩ := Except_bind_ok h
  obtain ⟨bGm0, hbGm0, h⟩ := Except_bind_ok h
  obtain ⟨bGm, hbGm, h⟩ := Except_bind_ok h
  obtain ⟨bGv0, hbGv0, h⟩ := Except_bind_ok h
  obtain ⟨bGv, hbGv, h⟩ := Except_bind_ok h
  have hs : s = _ := (Except.ok.inj h).symm
  subst hs
  obtain ⟨hw00, hw01⟩ := ResetTensor_dims dev _ _ _ _ _ _ hw0
  obtain ⟨hw0', hw1'⟩ := Random_ok dev samples w0 w _ hw
  obtain ⟨hwG0, hwG1⟩ := ResetTensor_dims dev _ _ _ _ _ _ hwG
  obtain ⟨-, -, hm⟩ := ResetTensor_Zero_ok dev _ _ _ _ _ hwGm0 hwGm
  obtain ⟨-, -, hv⟩ := ResetTensor_Zero_ok dev _ _ _ _ _ hwGv0 hwGv
  obtain ⟨hbd0, -, -⟩ := ResetTensor_Zero_ok dev _ _ _ _ _ hb0 hb
  obtain ⟨-, -, hbm⟩ := ResetTensor_Zero_ok dev _ _ _ _ _ hbGm0 hbGm
  obtain ⟨-, -, hbv⟩ := ResetTensor_Zero_ok dev _ _ _ _ _ hbGv0 hbGv
  refine ⟨hw0'.trans hw00, hw1'.trans hw01, hwG0, hwG1, hbd0, rfl, hm, hv, ?_, ?_⟩
  · intro i hi
    exact hbm i (by rw [Nat.mul_one]; exact hi)
  · intro i hi
    exact hbv i (by rw [Nat.mul_one]; exact hi)

/-- The constructor `FcLayer::FcLayer(inDim, outDim)` returns when the allocations and the
transfers succeed. -/
theorem FcLayer_create_returns (dev : Device α) (sqrt : α → α) (samples : Nat → α)
    (inDim outDim : Nat) (hmem : ∀ n, dev.mallocOk n = true)
    (hcopy : ∀ n, dev.memcpyOk n = true) :
    ∃ s, FcLayer.create dev sqrt samples inDim outDim = .ok s := by
  have hreset : ∀ (t : CudaTensor α) (d0 d1 : Nat), ∃ t', t.ResetTensor dev d0 d1 1 1 = .ok t' :=
    fun t d0 d1 => (ResetTensor_ok dev t d0 d1 (hmem _)).imp (fun _ h => h.1)
  have hzero : ∀ (t : CudaTensor α), ∃ t', t.Zero dev = .ok t' := by
    intro t
    simp [CudaTensor.Zero, CudaTensor.copyToDevice, hcopy]
  have hrandom : ∀ (t : CudaTensor α) (m : α), ∃ t', t.Random dev samples m = .ok t' := by
    intro t m
    simp [CudaTensor.Random, CudaTensor.copyToDevice, hcopy]
  unfold FcLayer.create
  obtain ⟨w0, hw0⟩ := hreset (CudaTensor.empty : CudaTensor α) outDim inDim
  obtain ⟨w, hw⟩ := hrandom w0 (1 / sqrt (inDim : α))
  obtain ⟨z, hz⟩ := hzero w0
  obtain ⟨b0, hb0⟩ := hreset (CudaTensor.empty : CudaTensor α) outDim 1
  obtain ⟨bz, hbz⟩ := hzero b0
  simp only [hw0, hw, hz, hb0, hbz, bind, Except.bind, pure, Except.pure]
  exact ⟨_, rfl⟩

/-- The method `ReluFcLayer::Forward` returns when its assertion holds, both launches are
accepted and memory is available. -/
theorem ReluFcLayer_Forward_ok (dev : Device α) (s : ReluFcLayer α) (x : CudaTensor α)
    (hx : x.d0 = s.w.d1) (hl1 : dev.launchOk x.d1 x.d0 = true)
    (hl2 : dev.launchOk x.d1 s.w.d0 = true) (hm1 : dev.mallocOk (x.d0 * x.d1) = true)
    (hm2 : dev.mallocOk (s.w.d0 * x.d1) = true) : ∃ s', s.Forward dev x = .ok s' := by
  obtain ⟨xRelu, hr, hr0, hr1, -⟩ := ResetTensor_ok dev s.xRelu x.d0 x.d1 hm1
  obtain ⟨y, hy, -⟩ := ResetTensor_ok dev s.y s.w.d0 x.d1 hm2
  rw [hx] at hr hl1 hr0
  simp [ReluFcLayer.Forward, hx, hr, hr0, hr1, hl1, hy, hl2, launchChecked, bind, Except.bind,
    pure, Except.pure]

/-- C16: for a layer whose weight tensor has the shape that `FcLayer::FcLayer(inDim, outDim)`
or `ReluFcLayer::ReluFcLayer(inDim, outDim)` gives it, `Forward` fails with the precondition
fault if and only if `x._d0` differs from `inDim`; when it returns, `_y` has `d0 = outDim` and
`d1 = x._d1` and the cached input is `x`; and it does return when the widths agree, the launches
are accepted and memory is available. -/
theorem Forward_shape_check (dev : Device α) (x : CudaTensor α) (inDim outDim : Nat) :
    (∀ s : FcLayer α, s.w.d0 = outDim → s.w.d1 = inDim →
      (s.Forward dev x = .error Fault.precondition ↔ x.d0 ≠ inDim) ∧
      (∀ s', s.Forward dev x = .ok s' → s'.y.d0 = outDim ∧ s'.y.d1 = x.d1 ∧ s'.pX = some x) ∧
      (x.d0 = inDim → dev.launchOk x.d1 outDim = true → dev.mallocOk (outDim * x.d1) = true →
        ∃ s', s.Forward dev x = .ok s')) ∧
    (∀ s : ReluFcLayer α, s.w.d0 = outDim → s.w.d1 = inDim →
      (s.Forward dev x = .error Fault.precondition ↔ x.d0 ≠ inDim) ∧
      (∀ s', s.Forward dev x = .ok s' → s'.y.d0 = outDim ∧ s'.y.d1 = x.d1 ∧ s'.pX = some x) ∧
      (x.d0 = inDim → dev.launchOk x.d1 inDim = true → dev.launchOk x.d1 outDim = true →
        dev.mallocOk (inDim * x.d1) = true → dev.mallocOk (outDim * x.d1) = true →
        ∃ s', s.Forward dev x = .ok s')) ∧
    (∀ (sqrt : α → α) (samples : Nat → α) (s : FcLayer α),
      FcLayer.create dev sqrt samples inDim outDim = .ok s → s.w.d0 = outDim ∧ s.w.d1 = inDim) ∧
    (∀ (sqrt : α → α) (samples : Nat → α) (s : ReluFcLayer α),
      ReluFcLayer.create dev sqrt samples inDim outDim = .ok s →
        s.w.d0 = outDim ∧ s.w.d1 = inDim) := by
  refine ⟨?_, ?_, ?_, ?_⟩
  · intro s hw0 hw1
    subst hw0 hw1
    refine ⟨?_, ?_, ?_⟩
    · rcases FcLayer_Forward_cases dev s x with h | h | h | ⟨hx, -, y, -, h⟩
      · exact ⟨fun _ => h.1, fun _ => h.2⟩
      · rw [h.2]
        exact ⟨fun e => absurd (Except.error.inj e) (by decide), fun e => absurd h.1 e⟩
      · rw [h.2]
        exact ⟨fun e => absurd (Except.error.inj e) (by decide), fun e => absurd h.1 e⟩
      · rw [h]
        exact ⟨fun e => Except.noConfusion e, fun e => absurd hx e⟩
    · intro s' hs'
      rcases FcLayer_Forward_cases dev s x with h | h | h | ⟨-, -, y, hy, h⟩
      · rw [h.2] at hs'
        cases hs'
      · rw [h.2] at hs'
        cases hs'
      · rw [h.2] at hs'
        cases hs'
      · rw [h] at hs'
        obtain ⟨hy0, hy1⟩ := ResetTensor_dims dev _ _ _ _ _ _ hy
        rw [← Except.ok.inj hs']
        exact ⟨hy0, hy1, rfl⟩
    · intro hx hl hm
      obtain ⟨y, -, -, -, h⟩ := FcLayer_Forward_ok dev s x hx hl hm
      exact ⟨_, h⟩
  · intro s hw0 hw1
    subst hw0 hw1
    refine ⟨?_, ?_, ?_⟩
    · rcases ReluFcLayer_Forward_cases dev s x with h | h | h | ⟨hx, -, -, s', h, -⟩
      · exact ⟨fun _ => h.1, fun _ => h.2⟩
      · rw [h.2]
        exact ⟨fun e => absurd (Except.error.inj e) (by decide), fun e => absurd h.1 e⟩
      · rw [h.2]
        exact ⟨fun e => absurd (Except.error.inj e) (by decide), fun e => absurd h.1 e⟩
      · rw [h]
        exact ⟨fun e => Except.noConfusion e, fun e => absurd hx e⟩
    · intro s' hs'
      rcases ReluFcLayer_Forward_cases dev s x with h | h | h | ⟨-, -, -, s'', h, hfc, hy0, hy1, -⟩
      · rw [h.2] at hs'
        cases hs'
      · rw [h.2] at hs'
        cases hs'
      · rw [h.2] at hs'
        cases hs'
      · rw [h] at hs'
        have hEq : s'' = s' := Except.ok.inj hs'
        subst hEq
        refine ⟨hy0, hy1, ?_⟩
        show s''.toFcLayer.pX = some x
        rw [hfc]
    · intro hx hl1 hl2 hm1 hm2
      exact ReluFcLayer_Forward_ok dev s x hx (by rw [hx]; exact hl1) hl2
        (by rw [hx]; exact hm1) hm2
  · intro sqrt samples s h
    obtain ⟨h0, h1, -⟩ := FcLayer_create_ok dev sqrt samples inDim outDim s h
    exact ⟨h0, h1⟩
  · intro sqrt samples s h
    unfold ReluFcLayer.create at h
    obtain ⟨fc, hfc, h⟩ := Except_bind_ok h
    obtain ⟨h0, h1, -⟩ := FcLayer_create_ok dev sqrt samples inDim outDim fc hfc
    rw [← Except.ok.inj h]
    exact ⟨h0, h1⟩

/-- C16 witness: a layer built with `(2, 3)` rejects an input of width 3 with the precondition
fault and accepts an input of width 2 with 4 rows, returning an output of shape 4 × 3. -/
theorem Forward_shape_check_witness :
    ∃ s, FcLayer.create (Device.reference : Device ℚ) (fun v => v) (fun _ => 1) 2 3 = .ok s ∧
      s.Forward Device.reference (CudaTensor.ofList 3 4 []) = .error Fault.precondition ∧
      ∃ s', s.Forward Device.reference (CudaTensor.ofList 2 4 []) = .ok s' ∧
        s'.y.d0 = 3 ∧ s'.y.d1 = 4 ∧ s'.pX = some (CudaTensor.ofList 2 4 []) := by
  obtain ⟨s, hs⟩ := FcLayer_create_returns (Device.reference : Device ℚ) (fun v => v)
    (fun _ => 1) 2 3 (fun _ => rfl) (fun _ => rfl)
  obtain ⟨hw0, hw1⟩ := (Forward_shape_check (Device.reference : Device ℚ)
    (CudaTensor.ofList 2 4 []) 2 3).2.2.1 _ _ s hs
  refine ⟨s, hs, ?_, ?_⟩
  · exact ((Forward_shape_check (Device.reference : Device ℚ) (CudaTensor.ofList 3 4 []) 2 3).1
      s hw0 hw1).1.mpr (by decide)
  · have h := (Forward_shape_check (Device.reference : Device ℚ) (CudaTensor.ofList 2 4 []) 2 3).1
      s hw0 hw1
    obtain ⟨s', hs'⟩ := h.2.2 rfl rfl rfl
    obtain ⟨h0, h1, h2⟩ := h.2.1 s' hs'
    exact ⟨s', hs', h0, h1, h2⟩

/-- The shape assertions that the `Backward` methods make.  `Backward` of `FcLayer` and of
`ReluFcLayer` fails with the precondition fault, on every device and so before any launch, when
the width `_d0` of its argument differs from `_wG._d0`; `Backward` of `SoftmaxLayer` does so
when the label count `_d0` differs from the batch extent `_lossG._d1`.  With `layerIndex > 0`,
`FcLayer` and `ReluFcLayer` also fail with the precondition fault when the batch extent `_d1`
differs from that of the cached input, once the weight-gradient and bias-gradient launches have
been accepted.  `Backward` of `SumOfSquaresLayer` never fails with the precondition fault. -/
theorem Backward_shape_check [FloorRing α] (dev : Device α) (yG : CudaTensor α)
    (layerIndex : Int) :
    (∀ s : FcLayer α, yG.d0 ≠ s.wG.d0 →
      s.Backward dev yG layerIndex = .error Fault.precondition) ∧
    (∀ s : ReluFcLayer α, yG.d0 ≠ s.wG.d0 →
      s.Backward dev yG layerIndex = .error Fault.precondition) ∧
    (∀ s : SoftmaxLayer α, yG.d0 ≠ s.lossG.d1 →
      s.Backward dev yG layerIndex = .error Fault.precondition) ∧
    (∀ (s : FcLayer α) (x : CudaTensor α), 0 < layerIndex → s.pX = some x →
      yG.d0 = s.wG.d0 → yG.d1 ≠ x.d1 →
      dev.launchOk s.wG.d1 s.wG.d0 = true → dev.launchOk 1 s.b.d0 = true →
      s.Backward dev yG layerIndex = .error Fault.precondition) ∧
    (∀ (s : ReluFcLayer α) (x : CudaTensor α), 0 < layerIndex → s.pX = some x →
      yG.d0 = s.wG.d0 → yG.d1 ≠ x.d1 →
      dev.launchOk s.wG.d1 s.wG.d0 = true → dev.launchOk 1 s.b.d0 = true →
      s.Backward dev yG layerIndex = .error Fault.precondition) ∧
    (∀ s : SumOfSquaresLayer α, s.Backward dev yG layerIndex ≠ .error Fault.precondition) := by
  refine ⟨?_, ?_, ?_, ?_, ?_, ?_⟩
  · intro s h
    simp [FcLayer.Backward, h, bind, Except.bind, throw, throwThe, MonadExceptOf.throw]
  · intro s h
    simp [ReluFcLayer.Backward, h, bind, Except.bind, throw, throwThe, MonadExceptOf.throw]
  · intro s h
    simp [SoftmaxLayer.Backward, h, bind, Except.bind, throw, throwThe, MonadExceptOf.throw]
  · intro s x hli hpX hyG hd1 hlw hlb
    have hli' : layerIndex > 0 := hli
    simp [FcLayer.Backward, hyG, hpX, hd1, hli', hlw, hlb, launchChecked, bind, Except.bind,
      pure, Except.pure, throw, throwThe, MonadExceptOf.throw]
  · intro s x hli hpX hyG hd1 hlw hlb
    have hli' : layerIndex > 0 := hli
    simp [ReluFcLayer.Backward, hyG, hpX, hd1, hli', hlw, hlb, launchChecked, bind, Except.bind,
      pure, Except.pure, throw, throwThe, MonadExceptOf.throw]
  · intro s
    cases hy : s.yG.ResetTensor dev yG.d0 yG.d1 1 1 with
    | error e =>
      have he := ResetTensor_error dev _ _ _ _ _ e hy
      subst he
      simp [SumOfSquaresLayer.Backward, hy, bind, Except.bind]
    | ok t =>
      cases hp : s.pY with
      | none =>
        simp [SumOfSquaresLayer.Backward, hy, hp, bind, Except.bind, throw, throwThe,
          MonadExceptOf.throw]
      | some y =>
        by_cases hl : dev.launchOk t.d1 t.d0 = true
        · simp [SumOfSquaresLayer.Backward, hy, hp, hl, launchChecked, bind, Except.bind, pure,
            Except.pure]
        · simp [SumOfSquaresLayer.Backward, hy, hp, hl, launchChecked, bind, Except.bind, pure,
            Except.pure]

/-- C17 (failing input): two `Backward` calls whose argument is inconsistent with what `Forward`
cached, and which return after launching their kernels instead of failing with the precondition
fault.  A `SumOfSquaresLayer` that cached a prediction of shape 1 × 2 is given a target of shape
2 × 3: the launch reads the prediction at offsets up to 5, past its 2 elements, so that two
predictions that agree on their whole extent give different values of `yG[5]`.  The example
`FcLayer`, after caching two input rows, is given a gradient of one row with `layerIndex = 0`:
the weight-gradient launch reads the gradient at offset 2, past its 2 elements, so that two
gradients that agree on their whole extent give different values of `wG[0]`. -/
theorem Backward_shape_check_failing_input :
    (narrowPrediction.d0 = 2 ∧ narrowPrediction.d1 = 1 ∧ wideTarget.d0 = 3 ∧ wideTarget.d1 = 2 ∧
      narrowPredictionPast.d0 = 2 ∧ narrowPredictionPast.d1 = 1 ∧
      (∀ p, p < 2 → narrowPrediction.dataGpu p = narrowPredictionPast.dataGpu p) ∧
      ∃ s1 s2,
        ((SumOfSquaresLayer.create : SumOfSquaresLayer ℚ).Forward narrowPrediction).Backward
          Device.reference wideTarget 1 = .ok s1 ∧
        ((SumOfSquaresLayer.create : SumOfSquaresLayer ℚ).Forward narrowPredictionPast).Backward
          Device.reference wideTarget 1 = .ok s2 ∧
        s1.yG.dataGpu 5 = -12 ∧ s2.yG.dataGpu 5 = -10) ∧
    (twoRowFc.pX = some (CudaTensor.ofList 2 2 [1, 0, 1, 0]) ∧
      exampleYG.d0 = 2 ∧ exampleYG.d1 = 1 ∧ exampleYGPast.d0 = 2 ∧ exampleYGPast.d1 = 1 ∧
      (∀ p, p < 2 → exampleYG.dataGpu p = exampleYGPast.dataGpu p) ∧
      ∃ s1 s2, twoRowFc.Backward Device.reference exampleYG 0 = .ok s1 ∧
        twoRowFc.Backward Device.reference exampleYGPast 0 = .ok s2 ∧
        s1.wG.dataGpu 0 = 5 ∧ s2.wG.dataGpu 0 = 6) := by
  constructor
  · obtain ⟨yG1, -, -, -, h1⟩ := SumOfSquaresLayer_Backward_ok (Device.reference : Device ℚ)
      ((SumOfSquaresLayer.create : SumOfSquaresLayer ℚ).Forward narrowPrediction) wideTarget
      narrowPrediction 1 rfl rfl rfl
    obtain ⟨yG2, -, -, -, h2⟩ := SumOfSquaresLayer_Backward_ok (Device.reference : Device ℚ)
      ((SumOfSquaresLayer.create : SumOfSquaresLayer ℚ).Forward narrowPredictionPast) wideTarget
      narrowPredictionPast 1 rfl rfl rfl
    refine ⟨rfl, rfl, rfl, rfl, rfl, rfl, ?_, _, _, h1, h2, ?_, ?_⟩
    · intro p hp
      have hne : p ≠ 5 := by omega
      simp [narrowPrediction, narrowPredictionPast, CudaTensor.ofList, hne]
    · have h := launch_ComputeSumOfSquresGradient narrowPrediction.dataGpu wideTarget.dataGpu
        yG1.dataGpu wideTarget.d0 wideTarget.d1 1 2 (show 1 < 2 by decide)
        (show 2 < 3 by decide)
      refine Eq.trans h ?_
      norm_num [narrowPrediction, wideTarget, CudaTensor.ofList]
    · have h := launch_ComputeSumOfSquresGradient narrowPredictionPast.dataGpu
        wideTarget.dataGpu yG2.dataGpu wideTarget.d0 wideTarget.d1 1 2 (show 1 < 2 by decide)
        (show 2 < 3 by decide)
      refine Eq.trans h ?_
      norm_num [narrowPredictionPast, wideTarget, CudaTensor.ofList]
  · refine ⟨rfl, rfl, rfl, rfl, rfl, ?_, _, _,
      FcLayer_Backward_nonpos_ok Device.reference twoRowFc exampleYG
        (CudaTensor.ofList 2 2 [1, 0, 1, 0]) 0 (le_refl 0) rfl rfl rfl rfl,
      FcLayer_Backward_nonpos_ok Device.reference twoRowFc exampleYGPast
        (CudaTensor.ofList 2 2 [1, 0, 1, 0]) 0 (le_refl 0) rfl rfl rfl rfl, ?_, ?_⟩
    · intro p hp
      have hne : p ≠ 2 := by omega
      simp [exampleYG, exampleYGPast, CudaTensor.ofList, hne]
    · have h := launch_ComputeWg (CudaTensor.ofList 2 2 [1, 0, 1, 0] : CudaTensor ℚ).dataGpu
        exampleYG.dataGpu twoRowFc.wG.dataGpu 2 2 2 2 0 0 (by decide) (by decide)
      refine Eq.trans h ?_
      norm_num [Finset.sum_range_succ, exampleYG, CudaTensor.ofList]
    · have h := launch_ComputeWg (CudaTensor.ofList 2 2 [1, 0, 1, 0] : CudaTensor ℚ).dataGpu
        exampleYGPast.dataGpu twoRowFc.wG.dataGpu 2 2 2 2 0 0 (by decide) (by decide)
      refine Eq.trans h ?_
      norm_num [Finset.sum_range_succ, exampleYGPast, CudaTensor.ofList]

end ShapeChecks

/-! ## Row partition of the softmax launch -/

section Partition

variable {α : Type} [LinearOrderedField α]

end Partition

/-! ## Index safety of the backward pass -/

section IndexSafety

/-- C19 (failing input): for the shape of the driver's last layer (`outDim = 10`, batch 64)
two upstream gradients that agree on all 640 offsets of their logical extent, and differ only
in the device memory at offset 4041, make `FcLayer::Backward` return different values of
`bG[9]`: thread 9 of `ComputeBg_Cuda` reads `yG[9 + 63 * 64]`, outside the extent of `yG`. -/
theorem FcLayer_Backward_index_failing_input :
    driverYG.d0 * driverYG.d1 = 640 ∧ driverYGPast.d0 * driverYGPast.d1 = 640 ∧
    (∀ p, p < 640 → driverYG.dataGpu p = driverYGPast.dataGpu p) ∧
    ∃ s1 s2, driverFc.Backward Device.reference driverYG 0 = .ok s1 ∧
      driverFc.Backward Device.reference driverYGPast 0 = .ok s2 ∧
      s1.bG.dataGpu 9 = 0 ∧ s2.bG.dataGpu 9 = 1 := by
  refine ⟨rfl, rfl, ?_, _, _,
    FcLayer_Backward_nonpos_ok Device.reference driverFc driverYG (CudaTensor.ofList 500 64 []) 0
      (le_refl 0) rfl rfl rfl rfl,
    FcLayer_Backward_nonpos_ok Device.reference driverFc driverYGPast
      (CudaTensor.ofList 500 64 []) 0 (le_refl 0) rfl rfl rfl rfl, ?_, ?_⟩
  · intro p hp
    have hne : p ≠ 4041 := by omega
    simp [driverYG, driverYGPast, CudaTensor.ofList, hne]
  · have h := launch_ComputeBg driverYG.dataGpu driverFc.bG.dataGpu driverYG.d1 driverFc.b.d0 9
      (show 9 < 10 by decide)
    have hz : ∀ i, driverYG.dataGpu i = 0 := by
      intro i
      simp [driverYG, CudaTensor.ofList]
    simp only [hz, Finset.sum_const_zero] at h
    exact h
  · have h := launch_ComputeBg driverYGPast.dataGpu driverFc.bG.dataGpu driverYGPast.d1
      driverFc.b.d0 9 (show 9 < 10 by decide)
    have hd : driverYGPast.d1 = 64 := rfl
    rw [Finset.sum_eq_single 63] at h
    · refine Eq.trans h ?_
      rw [hd]
      simp [driverYGPast]
    · intro i _ hi
      have hne : 9 + i * 64 ≠ 4041 := by omega
      rw [hd]
      simp [driverYGPast, hne]
    · intro h63
      rw [hd] at h63
      exact absurd (Finset.mem_range.mpr (by decide)) h63

end IndexSafety

/-! ## Network orchestration -/

section NetworkForward

variable {α : Type} [LinearOrderedField α]

/-- The loop of `CudaNn::Forward` entered with a non-null `x` threads `x` through the layers. -/
theorem ForwardLoop_some (dev : Device α) (exp : α → α) (ls : List (Layer α))
    (x : CudaTensor α) :
    CudaNn.ForwardLoop dev exp ls (some x) (some x) =
      Except.map (fun r => (r.1, some r.2)) (specForward dev exp ls x) := by
  induction ls generalizing x with
  | nil => rfl
  | cons l ls ih =>
    simp only [CudaNn.ForwardLoop, specForward, bind, Except.bind, pure, Except.pure]
    cases hl : l.Forward dev exp x with
    | error e => rfl
    | ok r =>
      simp only [ih r.2]
      cases specForward dev exp ls r.2 <;> rfl

/-- The loop of `CudaNn::Forward` on at least one layer and a non-null `x`, whatever `y` is. -/
theorem ForwardLoop_cons_some (dev : Device α) (exp : α → α) (l : Layer α)
    (ls : List (Layer α)) (x : CudaTensor α) (y : Option (CudaTensor α)) :
    CudaNn.ForwardLoop dev exp (l :: ls) (some x) y =
      Except.map (fun r => (r.1, some r.2)) (specForward dev exp (l :: ls) x) := by
  simp only [CudaNn.ForwardLoop, specForward, bind, Except.bind, pure, Except.pure]
  cases hl : l.Forward dev exp x with
  | error e => rfl
  | ok r =>
    simp only [ForwardLoop_some dev exp ls r.2]
    cases specForward dev exp ls r.2 <;> rfl

/-- The loop of `CudaNn::Forward` entered with a null `x` returns null and calls no layer. -/
theorem ForwardLoop_none (dev : Device α) (exp : α → α) (ls : List (Layer α)) :
    CudaNn.ForwardLoop dev exp ls none none = .ok (ls, none) := by
  cases ls <;> rfl

/-- C12: `CudaNn::Forward` on a null input returns null and leaves every layer as it was.  On a
non-null input and at least one layer it is the threading of the input through the layers in
order 0, 1, …, n-1, each layer receiving the tensor returned by the previous one: it returns
exactly when every call in the chain returns, with the updated layers and the non-null output
of the last layer.  Whenever it returns, the result is null if and only if the input is null or
the network has no layers. -/
theorem CudaNn_Forward_threads (dev : Device α) (exp : α → α) (nn : CudaNn α) :
    nn.Forward dev exp none = .ok (nn, none) ∧
    (∀ x : CudaTensor α, nn.layers ≠ [] →
      nn.Forward dev exp (some x) =
        Except.map (fun r => ({ nn with layers := r.1 }, some r.2))
          (specForward dev exp nn.layers x)) ∧
    (∀ (x : Option (CudaTensor α)) (nn' : CudaNn α) (y : Option (CudaTensor α)),
      nn.Forward dev exp x = .ok (nn', y) → (y = none ↔ x = none ∨ nn.layers = [])) := by
  refine ⟨?_, ?_, ?_⟩
  · simp [CudaNn.Forward, ForwardLoop_none, bind, Except.bind, pure, Except.pure]
  · intro x hne
    obtain ⟨l, ls, hls⟩ := List.exists_cons_of_ne_nil hne
    simp only [CudaNn.Forward, hls, ForwardLoop_cons_some, bind, Except.bind, pure, Except.pure]
    cases specForward dev exp (l :: ls) x <;> rfl
  · intro x nn' y h
    cases x with
    | none =>
      simp only [CudaNn.Forward, ForwardLoop_none, bind, Except.bind, pure, Except.pure] at h
      have hy : y = none := (congrArg Prod.snd (Except.ok.inj h)).symm
      simp [hy]
    | some x =>
      cases hls : nn.layers with
      | nil =>
        simp only [CudaNn.Forward, hls, CudaNn.ForwardLoop, bind, Except.bind, pure,
          Except.pure] at h
        have hy : y = none := (congrArg Prod.snd (Except.ok.inj h)).symm
        simp [hy]
      | cons l ls =>
        simp only [CudaNn.Forward, hls, ForwardLoop_cons_some, bind, Except.bind, pure,
          Except.pure] at h
        cases hs : specForward dev exp (l :: ls) x with
        | error e =>
          rw [hs] at h
          cases h
        | ok r =>
          rw [hs] at h
          have hy : y = some r.2 := (congrArg Prod.snd (Except.ok.inj h)).symm
          simp [hy]

/-- C12 witness: a network of one sum-of-squares layer returns its non-null input. -/
theorem CudaNn_Forward_threads_witness :
    ((CudaNn.create (9 / 10) (999 / 1000) : CudaNn ℚ).AddSumOfSquares).Forward Device.reference
        (fun v => v) (some exampleYG) =
      Except.map (fun r => ({ (CudaNn.create (9 / 10) (999 / 1000) : CudaNn ℚ).AddSumOfSquares
          with layers := r.1 }, some r.2))
        (specForward Device.reference (fun v => v)
          ((CudaNn.create (9 / 10) (999 / 1000) : CudaNn ℚ).AddSumOfSquares).layers exampleYG) :=
  (CudaNn_Forward_threads Device.reference (fun v => v)
    ((CudaNn.create (9 / 10) (999 / 1000) : CudaNn ℚ).AddSumOfSquares)).2.1 exampleYG
    (by simp [CudaNn.AddSumOfSquares, CudaNn.create])

end NetworkForward

section NetworkBackward

variable {α : Type} [LinearOrderedField α] [FloorRing α]

/-- The element at the position of the length of the left part of a list. -/
theorem get?_length_append {β : Type} (ps : List β) (l : β) (rs : List β) :
    (ps ++ l :: rs).get? ps.length = some l := by
  induction ps with
  | nil => rfl
  | cons p ps ih => simpa using ih

/-- Replacing the element at the position of the length of the left part of a list. -/
theorem set_length_append {β : Type} (ps : List β) (l v : β) (rs : List β) :
    (ps ++ l :: rs).set ps.length v = ps ++ v :: rs := by
  induction ps with
  | nil => rfl
  | cons p ps ih => simp

/-- The first `suf.length` iterations of the loop of `CudaNn::Backward` on the layers
`pre ++ suf` call the layers of `suf` from the last to the first, each with its index. -/
theorem Backward_loop_suffix (dev : Device α) (t : CudaTensor α) (suf pre : List (Layer α)) :
    (List.range suf.length).foldlM (CudaNn.BackwardStep dev (pre.length + suf.length))
        (pre ++ suf, t) =
      Except.map (fun r => (pre ++ r.1, r.2)) (specBackward dev pre.length suf t) := by
  induction suf generalizing pre with
  | nil => simp [specBackward, Except.map, pure, Except.pure]
  | cons l suf ih =>
    have hlen : pre.length + (suf.length + 1) = (pre ++ [l]).length + suf.length := by
      simp only [List.length_cons, List.length_append, List.length_nil]
      omega
    have hsplit : pre ++ l :: suf = (pre ++ [l]) ++ suf := by simp
    have hidx : (pre ++ [l]).length + suf.length - suf.length - 1 = pre.length := by
      simp only [List.length_append, List.length_cons, List.length_nil]
      omega
    rw [List.length_cons, List.range_succ, List.foldlM_append, hlen, hsplit, ih (pre ++ [l])]
    simp only [List.length_append, List.length_cons, List.length_nil, Nat.zero_add, specBackward,
      bind, Except.bind, pure, Except.pure]
    cases hrest : specBackward dev (pre.length + 1) suf t with
    | error e => rfl
    | ok rest =>
      simp only [Except.map, List.foldlM_cons, List.foldlM_nil, bind, Except.bind, pure,
        Except.pure, CudaNn.BackwardStep]
      have hi : pre.length + 1 + suf.length - suf.length - 1 = pre.length := by omega
      rw [hi]
      have hget : (pre ++ [l] ++ rest.1).get? pre.length = some l := by
        rw [List.append_assoc]
        exact get?_length_append pre l rest.1
      have hset : ∀ v, (pre ++ [l] ++ rest.1).set pre.length v = pre ++ v :: rest.1 := by
        intro v
        rw [List.append_assoc]
        exact set_length_append pre l v rest.1
      simp only [hget, hset]
      cases l.Backward dev rest.2 (pre.length : Nat) <;> rfl

/-- The method `CudaNn::Backward` calls the layers as the specification reads. -/
theorem CudaNn_Backward_eq (dev : Device α) (nn : CudaNn α) (yLabel : CudaTensor α) :
    nn.Backward dev yLabel =
      Except.map (fun r => { nn with layers := r.1 }) (specBackward dev 0 nn.layers yLabel) := by
  have h := Backward_loop_suffix dev yLabel nn.layers []
  simp only [List.length_nil, Nat.zero_add, List.nil_append] at h
  simp only [CudaNn.Backward, h, bind, Except.bind, pure, Except.pure]
  cases specBackward dev 0 nn.layers yLabel <;> rfl

/-- When the reverse chain of calls returns, layer `j` of the result is what one call of
`Backward` on layer `j` returns, with `layerIndex = k + j` and the tensor `g (j + 1)` returned
by its successor (the target for the last layer). -/
theorem specBackward_chain (dev : Device α) (ls : List (Layer α)) (k : Nat) (t : CudaTensor α)
    (ls' : List (Layer α)) (g0 : CudaTensor α) (h : specBackward dev k ls t = .ok (ls', g0)) :
    ls'.length = ls.length ∧ ∃ g : Nat → CudaTensor α, g ls.length = t ∧ g 0 = g0 ∧
      ∀ j, j < ls.length → ∃ l l', ls.get? j = some l ∧ ls'.get? j = some l' ∧
        l.Backward dev (g (j + 1)) ((k + j : Nat) : Int) = .ok (l', g j) := by
  induction ls generalizing k ls' g0 with
  | nil =>
    simp only [specBackward, pure, Except.pure] at h
    obtain ⟨h1, h2⟩ := Prod.mk.inj (Except.ok.inj h)
    subst h1 h2
    exact ⟨rfl, fun _ => t, rfl, rfl, fun j hj => absurd hj (Nat.not_lt_zero j)⟩
  | cons l ls ih =>
    simp only [specBackward] at h
    obtain ⟨rest, hrest, h⟩ := Except_bind_ok h
    obtain ⟨r, hr, h⟩ := Except_bind_ok h
    obtain ⟨h1, h2⟩ := Prod.mk.inj (Except.ok.inj h)
    subst h1 h2
    obtain ⟨hlen, g', hg't, hg'0, hchain⟩ := ih (k + 1) rest.1 rest.2 hrest
    refine ⟨by simp [hlen], fun j => Nat.casesOn j r.2 (fun i => g' i), hg't, rfl, ?_⟩
    intro j hj
    cases j with
    | zero =>
      refine ⟨l, r.1, rfl, rfl, ?_⟩
      show l.Backward dev (g' 0) ((k + 0 : Nat) : Int) = .ok (r.1, r.2)
      rw [hg'0, Nat.add_zero]
      exact hr
    | succ i =>
      obtain ⟨a, a', ha, ha', hcall⟩ := hchain i (Nat.lt_of_succ_lt_succ hj)
      refine ⟨a, a', by simpa using ha, by simpa using ha', ?_⟩
      have hk : k + (i + 1) = k + 1 + i := by omega
      rw [hk]
      exact hcall

/-- When every layer `j` returns from one call of `Backward` with `layerIndex = k + j` on the
tensor `g (j + 1)`, giving the tensor `g j`, the reverse chain of calls returns these layers. -/
theorem specBackward_of_chain (dev : Device α) (ls ls' : List (Layer α)) (k : Nat)
    (g : Nat → CudaTensor α) (hlen : ls'.length = ls.length)
    (hchain : ∀ j, j < ls.length → ∃ l l', ls.get? j = some l ∧ ls'.get? j = some l' ∧
      l.Backward dev (g (j + 1)) ((k + j : Nat) : Int) = .ok (l', g j)) :
    specBackward dev k ls (g ls.length) = .ok (ls', g 0) := by
  induction ls generalizing k ls' g with
  | nil =>
    have hnil : ls' = [] := List.length_eq_zero.mp hlen
    subst hnil
    rfl
  | cons l ls ih =>
    cases ls' with
    | nil => simp at hlen
    | cons l' ls'' =>
      have hlen' : ls''.length = ls.length := by simpa using hlen
      have hrest := ih ls'' (k + 1) (fun j => g (j + 1)) hlen' (by
        intro j hj
        obtain ⟨a, a', ha, ha', hcall⟩ := hchain (j + 1) (Nat.succ_lt_succ hj)
        refine ⟨a, a', by simpa using ha, by simpa using ha', ?_⟩
        have hk : k + 1 + j = k + (j + 1) := by omega
        rw [hk]
        exact hcall)
      obtain ⟨a, a', ha, ha', hcall⟩ := hchain 0 (Nat.succ_pos _)
      have e1 : a = l := by simpa using ha.symm
      have e2 : a' = l' := by simpa using ha'.symm
      subst e1 e2
      have hcall' : a.Backward dev (g (0 + 1)) ((k : Nat) : Int) = .ok (a', g 0) := hcall
      simp only [specBackward, List.length_cons, hrest, hcall', bind, Except.bind, pure,
        Except.pure]

/-- C13: `CudaNn::Backward(target)` returns exactly when there are tensors `g 0, …, g n` with
`g n = target` such that every layer `k < n` returns from one call of its `Backward` with
argument `g (k + 1)` and `layerIndex = k`, giving the tensor `g k`; the network it returns
holds the layers these calls return and the same decay powers.  So the layers are called once
each, the last one on the target and layer `k` on what layer `k + 1` returned (order n-1, …,
0), and `layerIndex = 0` goes to the first layer only. -/
theorem CudaNn_Backward_order (dev : Device α) (nn nn' : CudaNn α) (yLabel : CudaTensor α) :
    (nn.Backward dev yLabel =
      Except.map (fun r => { nn with layers := r.1 }) (specBackward dev 0 nn.layers yLabel)) ∧
    (nn.Backward dev yLabel = .ok nn' ↔
      nn'.beta1t = nn.beta1t ∧ nn'.beta2t = nn.beta2t ∧
      nn'.layers.length = nn.layers.length ∧
      ∃ g : Nat → CudaTensor α, g nn.layers.length = yLabel ∧
        ∀ k, k < nn.layers.length → ∃ l l', nn.layers.get? k = some l ∧
          nn'.layers.get? k = some l' ∧
          l.Backward dev (g (k + 1)) ((k : Nat) : Int) = .ok (l', g k)) := by
  refine ⟨CudaNn_Backward_eq dev nn yLabel, ?_⟩
  rw [CudaNn_Backward_eq]
  constructor
  · intro h
    cases hs : specBackward dev 0 nn.layers yLabel with
    | error e =>
      rw [hs] at h
      cases h
    | ok r =>
      rw [hs] at h
      have hnn : nn' = { nn with layers := r.1 } := (Except.ok.inj h).symm
      subst hnn
      obtain ⟨hlen, g, hgt, -, hchain⟩ := specBackward_chain dev nn.layers 0 yLabel r.1 r.2 hs
      refine ⟨rfl, rfl, hlen, g, hgt, ?_⟩
      intro k hk
      obtain ⟨l, l', hl, hl', hcall⟩ := hchain k hk
      rw [Nat.zero_add] at hcall
      exact ⟨l, l', hl, hl', hcall⟩
  · rintro ⟨hb1, hb2, hlen, g, hgt, hchain⟩
    have hs := specBackward_of_chain dev nn.layers nn'.layers 0 g hlen (by
      intro j hj
      obtain ⟨l, l', hl, hl', hcall⟩ := hchain j hj
      refine ⟨l, l', hl, hl', ?_⟩
      rw [Nat.zero_add]
      exact hcall)
    rw [hgt] at hs
    rw [hs]
    simp only [Except.map]
    congr 1
    cases nn'
    simp only at hb1 hb2
    subst hb1 hb2
    rfl

/-- C13 witness: a network of a softmax layer followed by a sum-of-squares layer is run
backward as the reverse chain from index 0 reads: layer 1 on the target, then layer 0. -/
theorem CudaNn_Backward_order_witness :
    ((CudaNn.create (9 / 10) (999 / 1000) : CudaNn ℚ).AddSoftmax.AddSumOfSquares).Backward
        Device.reference exampleYG =
      Except.map (fun r => { (CudaNn.create (9 / 10) (999 / 1000) : CudaNn ℚ).AddSoftmax.AddSumOfSquares
          with layers := r.1 })
        (specBackward Device.reference 0
          ((CudaNn.create (9 / 10) (999 / 1000) : CudaNn ℚ).AddSoftmax.AddSumOfSquares).layers
          exampleYG) :=
  (CudaNn_Backward_order Device.reference
    ((CudaNn.create (9 / 10) (999 / 1000) : CudaNn ℚ).AddSoftmax.AddSumOfSquares)
    ((CudaNn.create (9 / 10) (999 / 1000) : CudaNn ℚ).AddSoftmax.AddSumOfSquares) exampleYG).1

end NetworkBackward

/-! ## Decay powers and safety of the optimizer update -/

section Frames

variable {α : Type} [LinearOrderedField α]

/-- `FcLayer::Forward` leaves the weights, the biases and the second-moment accumulators as
they are. -/
theorem FcLayer_Forward_frame (dev : Device α) (s s' : FcLayer α) (x : CudaTensor α)
    (h : s.Forward dev x = .ok s') :
    s'.w = s.w ∧ s'.b = s.b ∧ s'.wG_v = s.wG_v ∧ s'.bG_v = s.bG_v := by
  unfold FcLayer.Forward at h
  simp only [bind, Except.bind, pure, Except.pure, launchChecked, throw, throwThe,
    MonadExceptOf.throw] at h
  repeat' split at h
  all_goals first
    | (cases h; exact ⟨rfl, rfl, rfl, rfl⟩)
    | cases h

/-- `FcLayer::Backward` leaves the weights, the biases and the second-moment accumulators as
they are. -/
theorem FcLayer_Backward_frame (dev : Device α) (s s' : FcLayer α) (yG : CudaTensor α)
    (layerIndex : Int) (h : s.Backward dev yG layerIndex = .ok s') :
    s'.w = s.w ∧ s'.b = s.b ∧ s'.wG_v = s.wG_v ∧ s'.bG_v = s.bG_v := by
  unfold FcLayer.Backward at h
  simp only [bind, Except.bind, pure, Except.pure, launchChecked, throw, throwThe,
    MonadExceptOf.throw] at h
  repeat' split at h
  all_goals first
    | (cases h; exact ⟨rfl, rfl, rfl, rfl⟩)
    | cases h

/-- `ReluFcLayer::Forward` leaves the weights, the biases and the second-moment accumulators as
they are. -/
theorem ReluFcLayer_Forward_frame (dev : Device α) (s s' : ReluFcLayer α) (x : CudaTensor α)
    (h : s.Forward dev x = .ok s') :
    s'.w = s.w ∧ s'.b = s.b ∧ s'.wG_v = s.wG_v ∧ s'.bG_v = s.bG_v := by
  unfold ReluFcLayer.Forward at h
  simp only [bind, Except.bind, pure, Except.pure, launchChecked, throw, throwThe,
    MonadExceptOf.throw] at h
  repeat' split at h
  all_goals first
    | (cases h; exact ⟨rfl, rfl, rfl, rfl⟩)
    | cases h

/-- `ReluFcLayer::Backward` leaves the weights, the biases and the second-moment accumulators as
they are. -/
theorem ReluFcLayer_Backward_frame (dev : Device α) (s s' : ReluFcLayer α) (yG : CudaTensor α)
    (layerIndex : Int) (h : s.Backward dev yG layerIndex = .ok s') :
    s'.w = s.w ∧ s'.b = s.b ∧ s'.wG_v = s.wG_v ∧ s'.bG_v = s.bG_v := by
  unfold ReluFcLayer.Backward at h
  simp only [bind, Except.bind, pure, Except.pure, launchChecked, throw, throwThe,
    MonadExceptOf.throw] at h
  repeat' split at h
  all_goals first
    | (cases h; exact ⟨rfl, rfl, rfl, rfl⟩)
    | cases h

/-- The property of the second-moment accumulators only depends on the weights, the biases and
the accumulators themselves. -/
theorem momentsNonneg_of_frame (p p' : FcLayer α)
    (h : p'.w = p.w ∧ p'.b = p.b ∧ p'.wG_v = p.wG_v ∧ p'.bG_v = p.bG_v)
    (hp : p.momentsNonneg) : p'.momentsNonneg := by
  obtain ⟨hw, hb, hwv, hbv⟩ := h
  unfold FcLayer.momentsNonneg at *
  rw [hw, hb, hwv, hbv]
  exact hp

/-- When `FcLayer::UpdateWs` returns, the dimensions of the weights and biases are unchanged and
every second-moment accumulator on the logical extents is `β2 * v + (1 - β2) * g * g`. -/
theorem FcLayer_UpdateWs_moments (dev : Device α) (sqrt : α → α) (s s' : FcLayer α)
    (learningRate beta1 beta2 beta1t beta2t : α)
    (h : s.UpdateWs dev sqrt learningRate beta1 beta2 beta1t beta2t = .ok s') :
    s'.w.d0 = s.w.d0 ∧ s'.w.d1 = s.w.d1 ∧ s'.b.d0 = s.b.d0 ∧
      (∀ i, i < s.w.d0 * s.w.d1 → s'.wG_v.dataGpu i =
        beta2 * s.wG_v.dataGpu i + (1 - beta2) * s.wG.dataGpu i * s.wG.dataGpu i) ∧
      (∀ i, i < s.b.d0 → s'.bG_v.dataGpu i =
        beta2 * s.bG_v.dataGpu i + (1 - beta2) * s.bG.dataGpu i * s.bG.dataGpu i) := by
  by_cases hlw : dev.launchOk s.w.d1 s.w.d0 = true
  · by_cases hlb : dev.launchOk 1 s.b.d0 = true
    · simp only [FcLayer.UpdateWs, launchChecked, hlw, hlb, if_true, bind, Except.bind, pure,
        Except.pure] at h
      have hs := (Except.ok.inj h).symm
      subst hs
      refine ⟨rfl, rfl, rfl, ?_, ?_⟩
      · intro index hindex
        have hd0 : 0 < s.w.d0 := by
          rcases Nat.eq_zero_or_pos s.w.d0 with h0 | h0
          · rw [h0, Nat.zero_mul] at hindex
            exact absurd hindex (Nat.not_lt_zero _)
          · exact h0
        have hr : index / s.w.d0 < s.w.d1 := by
          rw [Nat.div_lt_iff_lt_mul hd0, Nat.mul_comm]
          exact hindex
        have hidx : index % s.w.d0 + index / s.w.d0 * s.w.d0 = index := by
          rw [Nat.mul_comm]
          exact Nat.mod_add_div index s.w.d0
        have hu := launch_UpdateWs sqrt learningRate beta1 beta2 beta1t beta2t s.wG.dataGpu
          (s.w.dataGpu, s.wG_m.dataGpu, s.wG_v.dataGpu) s.w.d0 s.w.d1 (index / s.w.d0)
          (index % s.w.d0) hr (Nat.mod_lt _ hd0)
        simp only [hidx] at hu
        exact hu.2.1
      · intro index hindex
        have hu := launch_UpdateWs sqrt learningRate beta1 beta2 beta1t beta2t s.bG.dataGpu
          (s.b.dataGpu, s.bG_m.dataGpu, s.bG_v.dataGpu) s.b.d0 1 0 index Nat.zero_lt_one hindex
        simp only [Nat.zero_mul, Nat.add_zero] at hu
        rw [← launch_one_congr s.b.d0 _ _
          (fun t m => UpdateBs_Cuda_eq sqrt s.b.d0 learningRate beta1 beta2 beta1t beta2t
            s.bG.dataGpu 0 t m)] at hu
        exact hu.2.1
    · simp [FcLayer.UpdateWs, launchChecked, hlw, hlb, bind, Except.bind, pure,
        Except.pure] at h
  · simp [FcLayer.UpdateWs, launchChecked, hlw, bind, Except.bind, pure, Except.pure] at h

/-- `FcLayer::UpdateWs` with `0 ≤ β2 ≤ 1` keeps the second-moment accumulators non-negative,
whatever the gradients are. -/
theorem FcLayer_UpdateWs_safe (dev : Device α) (sqrt : α → α) (s s' : FcLayer α)
    (learningRate beta1 beta2 beta1t beta2t : α) (h0 : 0 ≤ beta2) (h1 : beta2 ≤ 1)
    (h : s.UpdateWs dev sqrt learningRate beta1 beta2 beta1t beta2t = .ok s')
    (hs : s.momentsNonneg) : s'.momentsNonneg := by
  obtain ⟨hd0, hd1, hb0, hw, hb⟩ := FcLayer_UpdateWs_moments dev sqrt s s' _ _ _ _ _ h
  have hstep : ∀ v g : α, 0 ≤ v → 0 ≤ beta2 * v + (1 - beta2) * g * g := by
    intro v g hv
    have hg : 0 ≤ (1 - beta2) * (g * g) := mul_nonneg (by linarith) (mul_self_nonneg g)
    have hv' : 0 ≤ beta2 * v := mul_nonneg h0 hv
    linarith [mul_assoc (1 - beta2) g g]
  constructor
  · intro i hi
    rw [hd0, hd1] at hi
    rw [hw i hi]
    exact hstep _ _ (hs.1 i hi)
  · intro i hi
    rw [hb0] at hi
    rw [hb i hi]
    exact hstep _ _ (hs.2 i hi)

end Frames

section Schedule

variable {α : Type} [LinearOrderedField α] [FloorRing α]

omit [FloorRing α] in
/-- The virtual `Forward` keeps a layer safe. -/
theorem Layer_Forward_safe (dev : Device α) (exp : α → α) (l l' : Layer α)
    (x o : CudaTensor α) (h : l.Forward dev exp x = .ok (l', o)) (hl : l.Safe) : l'.Safe := by
  cases l with
  | fc s =>
    simp only [Layer.Forward] at h
    obtain ⟨s', hs', h⟩ := Except_bind_ok h
    obtain ⟨h1, -⟩ := Prod.mk.inj (Except.ok.inj h)
    subst h1
    intro p hp
    obtain rfl : s' = p := Option.some.inj hp
    exact momentsNonneg_of_frame s s' (FcLayer_Forward_frame dev s s' x hs') (hl s rfl)
  | reluFc s =>
    simp only [Layer.Forward] at h
    obtain ⟨s', hs', h⟩ := Except_bind_ok h
    obtain ⟨h1, -⟩ := Prod.mk.inj (Except.ok.inj h)
    subst h1
    intro p hp
    obtain rfl : s'.toFcLayer = p := Option.some.inj hp
    exact momentsNonneg_of_frame s.toFcLayer s'.toFcLayer
      (ReluFcLayer_Forward_frame dev s s' x hs') (hl s.toFcLayer rfl)
  | softmax s =>
    simp only [Layer.Forward] at h
    obtain ⟨s', -, h⟩ := Except_bind_ok h
    obtain ⟨h1, -⟩ := Prod.mk.inj (Except.ok.inj h)
    subst h1
    intro p hp
    cases hp
  | sumOfSquares s =>
    simp only [Layer.Forward, pure, Except.pure] at h
    obtain ⟨h1, -⟩ := Prod.mk.inj (Except.ok.inj h)
    subst h1
    intro p hp
    cases hp

/-- The virtual `Backward` keeps a layer safe. -/
theorem Layer_Backward_safe (dev : Device α) (l l' : Layer α) (yG o : CudaTensor α)
    (layerIndex : Int) (h : l.Backward dev yG layerIndex = .ok (l', o)) (hl : l.Safe) :
    l'.Safe := by
  cases l with
  | fc s =>
    simp only [Layer.Backward] at h
    obtain ⟨s', hs', h⟩ := Except_bind_ok h
    obtain ⟨h1, -⟩ := Prod.mk.inj (Except.ok.inj h)
    subst h1
    intro p hp
    obtain rfl : s' = p := Option.some.inj hp
    exact momentsNonneg_of_frame s s' (FcLayer_Backward_frame dev s s' yG layerIndex hs')
      (hl s rfl)
  | reluFc s =>
    simp only [Layer.Backward] at h
    obtain ⟨s', hs', h⟩ := Except_bind_ok h
    obtain ⟨h1, -⟩ := Prod.mk.inj (Except.ok.inj h)
    subst h1
    intro p hp
    obtain rfl : s'.toFcLayer = p := Option.some.inj hp
    exact momentsNonneg_of_frame s.toFcLayer s'.toFcLayer
      (ReluFcLayer_Backward_frame dev s s' yG layerIndex hs') (hl s.toFcLayer rfl)
  | softmax s =>
    simp only [Layer.Backward] at h
    obtain ⟨s', -, h⟩ := Except_bind_ok h
    obtain ⟨h1, -⟩ := Prod.mk.inj (Except.ok.inj h)
    subst h1
    intro p hp
    cases hp
  | sumOfSquares s =>
    simp only [Layer.Backward] at h
    obtain ⟨s', -, h⟩ := Except_bind_ok h
    obtain ⟨h1, -⟩ := Prod.mk.inj (Except.ok.inj h)
    subst h1
    intro p hp
    cases hp

omit [FloorRing α] in
/-- The virtual `UpdateWs` with `0 ≤ β2 ≤ 1` keeps a layer safe. -/
theorem Layer_UpdateWs_safe (dev : Device α) (sqrt : α → α)
    (learningRate beta1 beta2 beta1t beta2t : α) (h0 : 0 ≤ beta2) (h1 : beta2 ≤ 1)
    (l l' : Layer α)
    (h : l.UpdateWs dev sqrt learningRate beta1 beta2 beta1t beta2t = .ok l') (hl : l.Safe) :
    l'.Safe := by
  cases l with
  | fc s =>
    simp only [Layer.UpdateWs] at h
    obtain ⟨s', hs', h⟩ := Except_bind_ok h
    obtain rfl := Except.ok.inj h
    intro p hp
    obtain rfl : s' = p := Option.some.inj hp
    exact FcLayer_UpdateWs_safe dev sqrt s s' _ _ _ _ _ h0 h1 hs' (hl s rfl)
  | reluFc s =>
    simp only [Layer.UpdateWs] at h
    obtain ⟨s', hs', h⟩ := Except_bind_ok h
    obtain rfl := Except.ok.inj h
    intro p hp
    obtain rfl : s'.toFcLayer = p := Option.some.inj hp
    unfold ReluFcLayer.UpdateWs at hs'
    obtain ⟨fc, hfc, hs'⟩ := Except_bind_ok hs'
    obtain rfl := Except.ok.inj hs'
    exact FcLayer_UpdateWs_safe dev sqrt s.toFcLayer fc _ _ _ _ _ h0 h1 hfc (hl s.toFcLayer rfl)
  | softmax s =>
    simp only [Layer.UpdateWs, pure, Except.pure] at h
    obtain rfl := Except.ok.inj h
    exact hl
  | sumOfSquares s =>
    simp only [Layer.UpdateWs, pure, Except.pure] at h
    obtain rfl := Except.ok.inj h
    exact hl

omit [FloorRing α] in
/-- Clearing the gradients does not change whether a layer is safe. -/
theorem Layer_clearGradients_safe (l : Layer α) : l.clearGradients.Safe ↔ l.Safe := by
  cases l with
  | fc s =>
    constructor
    · intro h p hp
      obtain rfl : s = p := Option.some.inj hp
      exact momentsNonneg_of_frame
        { s with wG := { s.wG with dataGpu := fun _ => 0 },
                 bG := { s.bG with dataGpu := fun _ => 0 } } s ⟨rfl, rfl, rfl, rfl⟩ (h _ rfl)
    · intro h p hp
      obtain rfl := Option.some.inj hp
      exact momentsNonneg_of_frame s _ ⟨rfl, rfl, rfl, rfl⟩ (h s rfl)
  | reluFc s =>
    constructor
    · intro h p hp
      obtain rfl : s.toFcLayer = p := Option.some.inj hp
      exact momentsNonneg_of_frame
        { s.toFcLayer with wG := { s.wG with dataGpu := fun _ => 0 },
                           bG := { s.bG with dataGpu := fun _ => 0 } } s.toFcLayer
        ⟨rfl, rfl, rfl, rfl⟩ (h _ rfl)
    · intro h p hp
      obtain rfl := Option.some.inj hp
      exact momentsNonneg_of_frame s.toFcLayer _ ⟨rfl, rfl, rfl, rfl⟩ (h s.toFcLayer rfl)
  | softmax s => exact Iff.rfl
  | sumOfSquares s => exact Iff.rfl

/-- A loop that calls `f` on every element and returns: the result has the same length and
its element `k` is what `f` returns on element `k`. -/
theorem mapM_ok_get {ε β γ : Type} (f : β → Except ε γ) (ls : List β) (ls' : List γ)
    (h : ls.mapM f = .ok ls') :
    ls'.length = ls.length ∧
      ∀ k l, ls.get? k = some l → ∃ l', ls'.get? k = some l' ∧ f l = .ok l' := by
  induction ls generalizing ls' with
  | nil =>
    simp only [List.mapM_nil, pure, Except.pure] at h
    obtain rfl := Except.ok.inj h
    exact ⟨rfl, fun k l hk => by simp at hk⟩
  | cons a as ih =>
    rw [List.mapM_cons] at h
    obtain ⟨b, hb, h⟩ := Except_bind_ok h
    obtain ⟨bs, hbs, h⟩ := Except_bind_ok h
    obtain rfl := Except.ok.inj h
    obtain ⟨hlen, hget⟩ := ih bs hbs
    refine ⟨by simp [hlen], ?_⟩
    intro k l hk
    cases k with
    | zero =>
      obtain rfl : a = l := by simpa using hk
      exact ⟨b, rfl, hb⟩
    | succ i =>
      obtain ⟨l', hl', hf⟩ := hget i l (by simpa using hk)
      exact ⟨l', by simpa using hl', hf⟩

/-- A loop that calls `f` on every element returns when every call returns. -/
theorem mapM_returns {ε β γ : Type} (f : β → Except ε γ) (ls : List β)
    (h : ∀ a, a ∈ ls → ∃ b, f a = .ok b) : ∃ ls', ls.mapM f = .ok ls' := by
  induction ls with
  | nil => exact ⟨[], rfl⟩
  | cons a as ih =>
    obtain ⟨b, hb⟩ := h a (List.mem_cons_self a as)
    obtain ⟨bs, hbs⟩ := ih (fun c hc => h c (List.mem_cons_of_mem a hc))
    refine ⟨b :: bs, ?_⟩
    rw [List.mapM_cons, hb, hbs]
    rfl

/-- A property that every call of `f` carries over from its argument to its result carries over
from a list to the result of the loop. -/
theorem mapM_ok_forall {ε β : Type} (f : β → Except ε β) (P : β → Prop)
    (hf : ∀ a b, f a = .ok b → P a → P b) (ls ls' : List β) (h : ls.mapM f = .ok ls')
    (hP : ∀ a, a ∈ ls → P a) : ∀ b, b ∈ ls' → P b := by
  induction ls generalizing ls' with
  | nil =>
    simp only [List.mapM_nil, pure, Except.pure] at h
    obtain rfl := Except.ok.inj h
    intro b hb
    cases hb
  | cons a as ih =>
    rw [List.mapM_cons] at h
    obtain ⟨b, hb, h⟩ := Except_bind_ok h
    obtain ⟨bs, hbs, h⟩ := Except_bind_ok h
    obtain rfl := Except.ok.inj h
    intro c hc
    rcases List.mem_cons.mp hc with rfl | hc
    · exact hf a c hb (hP a (List.mem_cons_self a as))
    · exact ih bs hbs (fun d hd => hP d (List.mem_cons_of_mem a hd)) c hc

omit [FloorRing α] in
/-- The loop of `CudaNn::Forward` keeps every layer safe. -/
theorem ForwardLoop_safe (dev : Device α) (exp : α → α) (ls ls' : List (Layer α))
    (x y r : Option (CudaTensor α)) (h : CudaNn.ForwardLoop dev exp ls x y = .ok (ls', r))
    (hs : ∀ l, l ∈ ls → l.Safe) : ∀ l, l ∈ ls' → l.Safe := by
  induction ls generalizing ls' x y r with
  | nil =>
    simp only [CudaNn.ForwardLoop, pure, Except.pure] at h
    obtain ⟨rfl, -⟩ := Prod.mk.inj (Except.ok.inj h)
    exact hs
  | cons a as ih =>
    cases x with
    | none =>
      simp only [CudaNn.ForwardLoop, pure, Except.pure] at h
      obtain ⟨rfl, -⟩ := Prod.mk.inj (Except.ok.inj h)
      exact hs
    | some x =>
      simp only [CudaNn.ForwardLoop] at h
      obtain ⟨ra, hra, h⟩ := Except_bind_ok h
      obtain ⟨rest, hrest, h⟩ := Except_bind_ok h
      obtain ⟨rfl, -⟩ := Prod.mk.inj (Except.ok.inj h)
      intro l hl
      rcases List.mem_cons.mp hl with rfl | hl
      · exact Layer_Forward_safe dev exp a ra.1 x ra.2 hra (hs a (List.mem_cons_self a as))
      · exact ih rest.1 _ _ rest.2 hrest (fun d hd => hs d (List.mem_cons_of_mem a hd)) l hl

/-- The reverse chain of `Backward` calls keeps every layer safe. -/
theorem specBackward_safe (dev : Device α) (ls ls' : List (Layer α)) (k : Nat)
    (t g : CudaTensor α) (h : specBackward dev k ls t = .ok (ls', g))
    (hs : ∀ l, l ∈ ls → l.Safe) : ∀ l, l ∈ ls' → l.Safe := by
  induction ls generalizing ls' k g with
  | nil =>
    simp only [specBackward, pure, Except.pure] at h
    obtain ⟨rfl, -⟩ := Prod.mk.inj (Except.ok.inj h)
    exact hs
  | cons a as ih =>
    simp only [specBackward] at h
    obtain ⟨rest, hrest, h⟩ := Except_bind_ok h
    obtain ⟨ra, hra, h⟩ := Except_bind_ok h
    obtain ⟨rfl, -⟩ := Prod.mk.inj (Except.ok.inj h)
    intro l hl
    rcases List.mem_cons.mp hl with rfl | hl
    · exact Layer_Backward_safe dev a ra.1 rest.2 ra.2 _ hra (hs a (List.mem_cons_self a as))
    · exact ih rest.1 (k + 1) rest.2 hrest (fun d hd => hs d (List.mem_cons_of_mem a hd)) l hl

omit [FloorRing α] in
/-- Two lists of layers that agree once the gradients are cleared are safe together. -/
theorem clearGradients_safe (ls ls' : List (Layer α))
    (h : ls'.map Layer.clearGradients = ls.map Layer.clearGradients)
    (hs : ∀ l, l ∈ ls → l.Safe) : ∀ l, l ∈ ls' → l.Safe := by
  induction ls' generalizing ls with
  | nil =>
    intro l hl
    cases hl
  | cons a as ih =>
    cases ls with
    | nil => simp at h
    | cons b bs =>
      simp only [List.map_cons, List.cons.injEq] at h
      intro l hl
      rcases List.mem_cons.mp hl with rfl | hl
      · rw [← Layer_clearGradients_safe, h.1, Layer_clearGradients_safe]
        exact hs b (List.mem_cons_self b bs)
      · exact ih bs h.2 (fun d hd => hs d (List.mem_cons_of_mem b hd)) l hl

/-- After `n` calls of `UpdateWs` the stored decay powers are `kBeta1 ^ (n + 1)` and
`kBeta2 ^ (n + 1)`. -/
theorem Run_betas (dev : Device α) (exp sqrt : α → α) (kBeta1 kBeta2 : α) (n : Nat)
    (nn : CudaNn α) (h : Run dev exp sqrt kBeta1 kBeta2 n nn) :
    nn.beta1t = kBeta1 ^ (n + 1) ∧ nn.beta2t = kBeta2 ^ (n + 1) := by
  induction h with
  | create => exact ⟨(pow_one _).symm, (pow_one _).symm⟩
  | clear _ ih => exact ih
  | addFc samples inDim outDim _ hadd ih =>
    unfold CudaNn.AddFc at hadd
    obtain ⟨l, -, hadd⟩ := Except_bind_ok hadd
    obtain rfl := Except.ok.inj hadd
    exact ih
  | addReluFc samples inDim outDim _ hadd ih =>
    unfold CudaNn.AddReluFc at hadd
    obtain ⟨l, -, hadd⟩ := Except_bind_ok hadd
    obtain rfl := Except.ok.inj hadd
    exact ih
  | addSoftmax _ ih => exact ih
  | addSumOfSquares _ ih => exact ih
  | forward x y _ hf ih =>
    unfold CudaNn.Forward at hf
    obtain ⟨r, -, hf⟩ := Except_bind_ok hf
    obtain ⟨rfl, -⟩ := Prod.mk.inj (Except.ok.inj hf)
    exact ih
  | backward yLabel _ hb ih =>
    rw [CudaNn_Backward_eq] at hb
    cases hs : specBackward dev 0 _ yLabel with
    | error e =>
      rw [hs] at hb
      cases hb
    | ok r =>
      rw [hs] at hb
      obtain rfl := Except.ok.inj hb
      exact ih
  | gradients _ _ hb1 hb2 ih => exact ⟨hb1.trans ih.1, hb2.trans ih.2⟩
  | update learningRate _ hu ih =>
    unfold CudaNn.UpdateWs at hu
    obtain ⟨ls, -, hu⟩ := Except_bind_ok hu
    obtain rfl := Except.ok.inj hu
    exact ⟨by rw [pow_succ, ← ih.1], by rw [pow_succ, ← ih.2]⟩

/-- With `0 ≤ kBeta2 ≤ 1` every layer of a reachable network is safe: its second-moment
accumulators are non-negative. -/
theorem Run_safe (dev : Device α) (exp sqrt : α → α) (kBeta1 kBeta2 : α) (h0 : 0 ≤ kBeta2)
    (h1 : kBeta2 ≤ 1) (n : Nat) (nn : CudaNn α) (h : Run dev exp sqrt kBeta1 kBeta2 n nn) :
    ∀ l, l ∈ nn.layers → l.Safe := by
  have hnew : ∀ (samples : Nat → α) (inDim outDim : Nat) (s : FcLayer α),
      FcLayer.create dev sqrt samples inDim outDim = .ok s → s.momentsNonneg := by
    intro samples inDim outDim s hs
    obtain ⟨hw0, hw1, -, -, hb0, -, -, hv, -, hbv⟩ := FcLayer_create_ok dev sqrt samples inDim
      outDim s hs
    constructor
    · intro i hi
      rw [hw0, hw1] at hi
      exact le_of_eq (hv i hi).symm
    · intro i hi
      rw [hb0] at hi
      exact le_of_eq (hbv i hi).symm
  induction h with
  | create =>
    intro l hl
    cases hl
  | clear _ _ =>
    intro l hl
    cases hl
  | addFc samples inDim outDim _ hadd ih =>
    unfold CudaNn.AddFc at hadd
    obtain ⟨s, hs, hadd⟩ := Except_bind_ok hadd
    obtain rfl := Except.ok.inj hadd
    intro l hl
    rcases List.mem_append.mp hl with hl | hl
    · exact ih l hl
    · obtain rfl := List.mem_singleton.mp hl
      intro p hp
      obtain rfl : s = p := Option.some.inj hp
      exact hnew samples inDim outDim s hs
  | addReluFc samples inDim outDim _ hadd ih =>
    unfold CudaNn.AddReluFc at hadd
    obtain ⟨s, hs, hadd⟩ := Except_bind_ok hadd
    obtain rfl := Except.ok.inj hadd
    unfold ReluFcLayer.create at hs
    obtain ⟨fc, hfc, hs⟩ := Except_bind_ok hs
    obtain rfl := Except.ok.inj hs
    intro l hl
    rcases List.mem_append.mp hl with hl | hl
    · exact ih l hl
    · obtain rfl := List.mem_singleton.mp hl
      intro p hp
      obtain rfl : fc = p := Option.some.inj hp
      exact hnew samples inDim outDim fc hfc
  | addSoftmax _ ih =>
    intro l hl
    rcases List.mem_append.mp hl with hl | hl
    · exact ih l hl
    · obtain rfl := List.mem_singleton.mp hl
      intro p hp
      cases hp
  | addSumOfSquares _ ih =>
    intro l hl
    rcases List.mem_append.mp hl with hl | hl
    · exact ih l hl
    · obtain rfl := List.mem_singleton.mp hl
      intro p hp
      cases hp
  | forward x y _ hf ih =>
    unfold CudaNn.Forward at hf
    obtain ⟨r, hr, hf⟩ := Except_bind_ok hf
    obtain ⟨rfl, -⟩ := Prod.mk.inj (Except.ok.inj hf)
    exact ForwardLoop_safe dev exp _ r.1 x none r.2 hr ih
  | backward yLabel _ hb ih =>
    rw [CudaNn_Backward_eq] at hb
    cases hs : specBackward dev 0 _ yLabel with
    | error e =>
      rw [hs] at hb
      cases hb
    | ok r =>
      rw [hs] at hb
      obtain rfl := Except.ok.inj hb
      exact specBackward_safe dev _ r.1 0 yLabel r.2 hs ih
  | gradients _ hg _ _ ih => exact clearGradients_safe _ _ hg ih
  | update learningRate _ hu ih =>
    unfold CudaNn.UpdateWs at hu
    obtain ⟨ls, hls, hu⟩ := Except_bind_ok hu
    obtain rfl := Except.ok.inj hu
    exact mapM_ok_forall _ Layer.Safe
      (fun a b hab ha => Layer_UpdateWs_safe dev sqrt _ _ _ _ _ h0 h1 a b hab ha) _ ls hls ih

/-- C11: a new network holds `beta1t = kBeta1` and `beta2t = kBeta2`.  A network reached with
`n` calls of `UpdateWs` (and any other calls in between) holds `kBeta1 ^ (n + 1)` and
`kBeta2 ^ (n + 1)`.  Its next call of `UpdateWs`, the call number `t = n + 1`, keeps the number
of layers, gives every layer `k` the result of its own `UpdateWs` with the powers `kBeta1 ^ t`
and `kBeta2 ^ t`, and stores `kBeta1 ^ (t + 1)` and `kBeta2 ^ (t + 1)`; it returns when every
layer's `UpdateWs` returns. -/
theorem decay_power_schedule (dev : Device α) (exp sqrt : α → α) (kBeta1 kBeta2 : α) :
    ((CudaNn.create kBeta1 kBeta2 : CudaNn α).beta1t = kBeta1 ∧
      (CudaNn.create kBeta1 kBeta2 : CudaNn α).beta2t = kBeta2) ∧
    (∀ (n : Nat) (nn : CudaNn α), Run dev exp sqrt kBeta1 kBeta2 n nn →
      nn.beta1t = kBeta1 ^ (n + 1) ∧ nn.beta2t = kBeta2 ^ (n + 1)) ∧
    (∀ (n : Nat) (nn nn' : CudaNn α) (learningRate : α),
      Run dev exp sqrt kBeta1 kBeta2 n nn →
      nn.UpdateWs dev sqrt kBeta1 kBeta2 learningRate = .ok nn' →
        nn'.layers.length = nn.layers.length ∧
        (∀ k l, nn.layers.get? k = some l → ∃ l', nn'.layers.get? k = some l' ∧
          l.UpdateWs dev sqrt learningRate kBeta1 kBeta2 (kBeta1 ^ (n + 1)) (kBeta2 ^ (n + 1))
            = .ok l') ∧
        nn'.beta1t = kBeta1 ^ (n + 2) ∧ nn'.beta2t = kBeta2 ^ (n + 2)) ∧
    (∀ (nn : CudaNn α) (learningRate : α),
      (∀ l, l ∈ nn.layers →
        ∃ l', l.UpdateWs dev sqrt learningRate kBeta1 kBeta2 nn.beta1t nn.beta2t = .ok l') →
      ∃ nn', nn.UpdateWs dev sqrt kBeta1 kBeta2 learningRate = .ok nn') := by
  refine ⟨⟨rfl, rfl⟩, Run_betas dev exp sqrt kBeta1 kBeta2, ?_, ?_⟩
  · intro n nn nn' learningRate hrun hu
    obtain ⟨hb1, hb2⟩ := Run_betas dev exp sqrt kBeta1 kBeta2 n nn hrun
    have hrun' := Run_betas dev exp sqrt kBeta1 kBeta2 (n + 1) nn' (Run.update learningRate hrun hu)
    unfold CudaNn.UpdateWs at hu
    obtain ⟨ls, hls, hu⟩ := Except_bind_ok hu
    obtain rfl := Except.ok.inj hu
    rw [hb1, hb2] at hls
    obtain ⟨hlen, hget⟩ := mapM_ok_get _ _ ls hls
    exact ⟨hlen, hget, hrun'.1, hrun'.2⟩
  · intro nn learningRate hall
    obtain ⟨ls, hls⟩ := mapM_returns _ nn.layers hall
    refine ⟨{ layers := ls, beta1t := nn.beta1t * kBeta1, beta2t := nn.beta2t * kBeta2 }, ?_⟩
    simp only [CudaNn.UpdateWs, hls, bind, Except.bind, pure, Except.pure]

/-- C11 witness: a network with one softmax layer after its first update holds the squares of
the decay rates. -/
theorem decay_power_schedule_witness :
    ∃ nn' : CudaNn ℚ, (CudaNn.create (9 / 10) (999 / 1000) : CudaNn ℚ).AddSoftmax.UpdateWs
        Device.reference (fun v => v) (9 / 10) (999 / 1000) (1 / 100000) = .ok nn' ∧
      nn'.beta1t = (9 / 10) ^ 2 ∧ nn'.beta2t = (999 / 1000) ^ 2 := by
  have h := decay_power_schedule (Device.reference : Device ℚ) (fun v => v) (fun v => v)
    (9 / 10) (999 / 1000)
  obtain ⟨nn', hnn'⟩ := h.2.2.2 (CudaNn.create (9 / 10) (999 / 1000) : CudaNn ℚ).AddSoftmax
    (1 / 100000) (by
      intro l hl
      obtain rfl : l = Layer.softmax SoftmaxLayer.create := by
        simpa [CudaNn.AddSoftmax, CudaNn.create] using hl
      exact ⟨_, rfl⟩)
  obtain ⟨-, -, hb1, hb2⟩ := h.2.2.1 0 _ nn' (1 / 100000) (Run.addSoftmax Run.create) hnn'
  exact ⟨nn', hnn', hb1, hb2⟩

/-- C20: for `0 < kBeta1 < 1`, `0 < kBeta2 < 1` and a square root that is non-negative on
non-negative numbers, in every network reached from `CudaNn::CudaNn()` by calls that returned,
with arbitrary values in the gradient tensors, the denominators `1 - beta1t` and `1 - beta2t`
that `UpdateWs` passes to the kernels are positive and every second-moment accumulator `v` of
the weights and biases is non-negative; hence for every gradient value `g` the new accumulator
`kBeta2 * v + (1 - kBeta2) * g * g` is non-negative, so is its quotient by `1 - beta2t`, and
`sqrt` of the quotient plus `1e-8` is positive. -/
theorem optimizer_update_safe (dev : Device α) (exp sqrt : α → α)
    (hsqrt : ∀ v, 0 ≤ v → 0 ≤ sqrt v) (kBeta1 kBeta2 : α)
    (h1 : 0 < kBeta1) (h1' : kBeta1 < 1) (h2 : 0 < kBeta2) (h2' : kBeta2 < 1)
    (n : Nat) (nn : CudaNn α) (hrun : Run dev exp sqrt kBeta1 kBeta2 n nn) :
    0 < 1 - nn.beta1t ∧ 0 < 1 - nn.beta2t ∧
    ∀ l, l ∈ nn.layers → ∀ p, l.params = some p →
      (∀ i, i < p.w.d0 * p.w.d1 → 0 ≤ p.wG_v.dataGpu i ∧ ∀ g : α,
        0 ≤ kBeta2 * p.wG_v.dataGpu i + (1 - kBeta2) * g * g ∧
        0 ≤ (kBeta2 * p.wG_v.dataGpu i + (1 - kBeta2) * g * g) / (1 - nn.beta2t) ∧
        0 < sqrt ((kBeta2 * p.wG_v.dataGpu i + (1 - kBeta2) * g * g) / (1 - nn.beta2t)) + 1e-8) ∧
      (∀ i, i < p.b.d0 → 0 ≤ p.bG_v.dataGpu i ∧ ∀ g : α,
        0 ≤ kBeta2 * p.bG_v.dataGpu i + (1 - kBeta2) * g * g ∧
        0 ≤ (kBeta2 * p.bG_v.dataGpu i + (1 - kBeta2) * g * g) / (1 - nn.beta2t) ∧
        0 < sqrt ((kBeta2 * p.bG_v.dataGpu i + (1 - kBeta2) * g * g) / (1 - nn.beta2t)) + 1e-8) := by
  obtain ⟨hb1, hb2⟩ := Run_betas dev exp sqrt kBeta1 kBeta2 n nn hrun
  have hd1 : 0 < 1 - nn.beta1t := by
    rw [hb1]
    exact sub_pos.mpr (pow_lt_one₀ (le_of_lt h1) h1' (Nat.succ_ne_zero n))
  have hd2 : 0 < 1 - nn.beta2t := by
    rw [hb2]
    exact sub_pos.mpr (pow_lt_one₀ (le_of_lt h2) h2' (Nat.succ_ne_zero n))
  have hsafe := Run_safe dev exp sqrt kBeta1 kBeta2 (le_of_lt h2) (le_of_lt h2') n nn hrun
  have hstep : ∀ v g : α, 0 ≤ v →
      0 ≤ kBeta2 * v + (1 - kBeta2) * g * g ∧
      0 ≤ (kBeta2 * v + (1 - kBeta2) * g * g) / (1 - nn.beta2t) ∧
      0 < sqrt ((kBeta2 * v + (1 - kBeta2) * g * g) / (1 - nn.beta2t)) + 1e-8 := by
    intro v g hv
    have hg : 0 ≤ (1 - kBeta2) * (g * g) := mul_nonneg (by linarith) (mul_self_nonneg g)
    have hv' : 0 ≤ kBeta2 * v := mul_nonneg (le_of_lt h2) hv
    have hnew : 0 ≤ kBeta2 * v + (1 - kBeta2) * g * g := by
      linarith [mul_assoc (1 - kBeta2) g g]
    have hq : 0 ≤ (kBeta2 * v + (1 - kBeta2) * g * g) / (1 - nn.beta2t) :=
      div_nonneg hnew (le_of_lt hd2)
    have heps : (0 : α) < 1e-8 := by norm_num
    exact ⟨hnew, hq, by linarith [hsqrt _ hq]⟩
  refine ⟨hd1, hd2, ?_⟩
  intro l hl p hp
  obtain ⟨hw, hb⟩ := hsafe l hl p hp
  exact ⟨fun i hi => ⟨hw i hi, fun g => hstep _ g (hw i hi)⟩,
    fun i hi => ⟨hb i hi, fun g => hstep _ g (hb i hi)⟩⟩

/-- C20 witness: over the reals with the real square root and the decay rates 0.9 and 0.999, a
network with one fully-connected layer of shape `(2, 3)` has positive denominators and
non-negative second-moment accumulators of its 6 weights. -/
theorem optimizer_update_safe_witness :
    ∃ nn' : CudaNn ℝ, (CudaNn.create (9 / 10) (999 / 1000) : CudaNn ℝ).AddFc
        Device.reference Real.sqrt (fun _ => 1) 2 3 = .ok nn' ∧
      0 < 1 - nn'.beta1t ∧ 0 < 1 - nn'.beta2t ∧
      ∀ l, l ∈ nn'.layers → ∀ p, l.params = some p →
        ∀ i, i < p.w.d0 * p.w.d1 → 0 ≤ p.wG_v.dataGpu i := by
  obtain ⟨s, hs⟩ := FcLayer_create_returns (Device.reference : Device ℝ) Real.sqrt (fun _ => 1)
    2 3 (fun _ => rfl) (fun _ => rfl)
  have hadd : (CudaNn.create (9 / 10) (999 / 1000) : CudaNn ℝ).AddFc
      Device.reference Real.sqrt (fun _ => 1) 2 3 =
      .ok { (CudaNn.create (9 / 10) (999 / 1000) : CudaNn ℝ) with
        layers := (CudaNn.create (9 / 10) (999 / 1000) : CudaNn ℝ).layers ++ [Layer.fc s] } := by
    simp only [CudaNn.AddFc, hs, bind, Except.bind, pure, Except.pure]
  obtain ⟨hd1, hd2, hall⟩ := optimizer_update_safe (Device.reference : Device ℝ) Real.exp
    Real.sqrt (fun v _ => Real.sqrt_nonneg v) (9 / 10) (999 / 1000) (by norm_num) (by norm_num)
    (by norm_num) (by norm_num) 0 _ (Run.addFc (fun _ => 1) 2 3 Run.create hadd)
  exact ⟨_, hadd, hd1, hd2, fun l hl p hp i hi => ((hall l hl p hp).1 i hi).1⟩

end Schedule

end ff
